import Mathlib

/-!
# envconfig: binding environment variables into a configuration structure

A shallow embedding of `lookup.go` and `validator.go` (package `env`).

Modelling conventions
* Go strings are modelled by `String` (valid UTF-8 text); all byte-level
  operations used by the package act on ASCII delimiters, so working on
  characters instead of bytes gives the same results on valid text.
* `os.Getenv` is a function `Env = String → String`; an unset variable reads
  as the empty string.
* A `reflect.Value` of a struct is a list of fields; each field carries the
  value of its `env` tag (`field.Tag.Get("env")`), whether it can be set
  (`CanSet`, i.e. the field is exported) and its current value.  `int` is the
  64-bit `int` of the usual platforms.
* In-place mutation of the target is modelled by returning the updated value.
* A run-time panic is the `Except.error` outcome of type `Panic`.
* The global `validatorRegistry` map is passed explicitly as a `Registry`.
* User supplied validators are pure, total functions returning a non-nil
  validator.
-/

namespace Envconfig

/-! ## Go runtime and standard library pieces used by the package -/

/-- Run-time panics that the package can raise. -/
inductive Panic where
  /-- Call of a nil function value (nil pointer dereference). -/
  | nilFunc
  /-- Use of `reflect` on a value of the wrong kind (`NumField` of a non-struct). -/
  | reflectKind
  deriving DecidableEq, Repr

/-- The two sentinel errors of `strconv`. -/
inductive NumErrKind where
  | ErrSyntax
  | ErrRange
  deriving DecidableEq, Repr

/-- Text of `strconv.ErrSyntax` and `strconv.ErrRange`. -/
def NumErrKind.Error : NumErrKind → String
  | .ErrSyntax => "invalid syntax"
  | .ErrRange => "value out of range"

/-- Go `error` values that occur in this package.
* `errorString s`: result of `fmt.Errorf` without `%w` (or `errors.New`);
* `numError fn num err`: a `*strconv.NumError`;
* `wrapError pre err`: result of `fmt.Errorf(pre ++ "%w", err)`;
* `joinError errs`: result of `errors.Join`. -/
inductive GoError where
  | errorString (s : String)
  | numError (fn : String) (num : String) (err : NumErrKind)
  | wrapError (pre : String) (err : GoError)
  | joinError (errs : List GoError)

mutual
/-- The `Error()` method.  `quote` is `strconv.Quote`, used by `*strconv.NumError`. -/
def GoError.Error (quote : String → String) : GoError → String
  | .errorString s => s
  | .numError fn num err => "strconv." ++ fn ++ ": parsing " ++ quote num ++ ": " ++ err.Error
  | .wrapError pre err => pre ++ err.Error quote
  | .joinError errs => joinErrorText quote errs
/-- Body of `(*joinError).Error`: the texts of the joined errors separated by
newlines (`errors.Join` never builds an empty list). -/
def joinErrorText (quote : String → String) : List GoError → String
  | [] => ""
  | [e] => e.Error quote
  | e :: es => e.Error quote ++ "\n" ++ joinErrorText quote es
end

/-- Go `errors.Join`: discards nil errors, returns nil when none is left. -/
def errorsJoin (errs : List (Option GoError)) : Option GoError :=
  match errs.filterMap id with
  | [] => none
  | es => some (.joinError es)

/-- Go `unicode.IsSpace`. -/
def unicodeIsSpace (c : Char) : Bool :=
  c == '\t' || c == '\n' || c == '\x0b' || c == '\x0c' || c == '\r' || c == ' '
    || c == '\u0085' || c == '\u00a0' || c == '\u1680'
    || (decide ('\u2000' ≤ c) && decide (c ≤ '\u200a'))
    || c == '\u2028' || c == '\u2029' || c == '\u202f' || c == '\u205f' || c == '\u3000'

/-- Go `strings.TrimSpace`: drop leading, then trailing, white space. -/
def TrimSpace (s : String) : String :=
  ⟨(s.data.dropWhile unicodeIsSpace).rdropWhile unicodeIsSpace⟩

/-- Go `strings.Index` on character lists; `none` stands for `-1`. -/
def indexChars (sep : List Char) : List Char → Nat → Option Nat
  | [], i => if sep = [] then some i else none
  | c :: cs, i => if sep.isPrefixOf (c :: cs) then some i else indexChars sep cs (i + 1)

/-- Go `strings.Index(s, sep)`; `none` stands for `-1`. -/
def stringsIndex (s sep : String) : Option Nat :=
  indexChars sep.data s.data 0

/-- Loop of Go `strings.genSplit` for a non-empty separator: cut at the first
occurrence of `sep` until there is none.  The first argument bounds the number
of cuts, as `n` does in the library. -/
def genSplit (sep : List Char) : Nat → List Char → List (List Char)
  | 0, s => [s]
  | n + 1, s =>
    match indexChars sep s 0 with
    | none => [s]
    | some m => s.take m :: genSplit sep n (s.drop (m + sep.length))

/-- Go `strings.Split(s, sep)`: for an empty separator the string is exploded
into its characters. -/
def stringsSplit (s sep : String) : List String :=
  if sep.data = [] then s.data.map (fun c => String.mk [c])
  else (genSplit sep.data s.data.length s.data).map String.mk

/-- Constants of `strconv.ParseUint` for base 10 and 64 bits. -/
def maxUint64 : Nat := 2 ^ 64 - 1

/-- Digit loop of `strconv.ParseUint(s, 10, 64)`; the result pairs the value
returned with the error kind, if any.  Arithmetic is that of `uint64`. -/
def parseUintLoop : List Char → Nat → Nat × Option NumErrKind
  | [], n => (n, none)
  | c :: cs, n =>
    if '0' ≤ c ∧ c ≤ '9' then
      let d := c.toNat - '0'.toNat
      if n ≥ maxUint64 / 10 + 1 then (maxUint64, some .ErrRange)
      else
        let n10 := n * 10 % 2 ^ 64
        let n1 := (n10 + d) % 2 ^ 64
        if n1 < n10 ∨ n1 > maxUint64 then (maxUint64, some .ErrRange)
        else parseUintLoop cs n1
    else (0, some .ErrSyntax)

/-- Go `strconv.ParseUint(s, 10, 64)`: value and error kind. -/
def ParseUint (s : List Char) : Nat × Option NumErrKind :=
  if s = [] then (0, some .ErrSyntax) else parseUintLoop s 0

/-- Go `strconv.ParseInt(s, 10, 64)`. -/
def ParseInt (s : String) : Except GoError Int :=
  if s.data = [] then .error (.numError "ParseInt" s .ErrSyntax)
  else
    let neg := s.data.head? = some '-'
    let body := if s.data.head? = some '+' ∨ s.data.head? = some '-' then s.data.tail else s.data
    match ParseUint body with
    | (_, some .ErrSyntax) => .error (.numError "ParseInt" s .ErrSyntax)
    | (un, _) =>
      let cutoff : Nat := 2 ^ 63
      if ¬ neg ∧ un ≥ cutoff then .error (.numError "ParseInt" s .ErrRange)
      else if neg ∧ un > cutoff then .error (.numError "ParseInt" s .ErrRange)
      else if neg then .ok (-(un : Int)) else .ok (un : Int)

/-- Go `strconv.ParseBool`. -/
def ParseBool (str : String) : Except GoError Bool :=
  if str ∈ ["1", "t", "T", "true", "TRUE", "True"] then .ok true
  else if str ∈ ["0", "f", "F", "false", "FALSE", "False"] then .ok false
  else .error (.numError "ParseBool" str .ErrSyntax)

/-! ## validator.go -/

/-- The `Validator` interface with its implementations: the two built-in
ones and validators supplied by the user through `AddValidator`. -/
inductive Validator where
  | requiredValidator
  | expectedValueValidator (expectedValues : List String)
  | custom (validate : String → String → Option GoError)

/-- The method `Validate(envName, value)` of a validator. -/
def Validator.Validate : Validator → String → String → Option GoError
  | .requiredValidator, envName, value =>
    if value = "" then some (.errorString (envName ++ " is required")) else none
  | .expectedValueValidator expectedValues, envName, value =>
    if value ∈ expectedValues then none
    else some (.errorString (envName ++ " is unexpected value: " ++ value))
  | .custom validate, envName, value => validate envName value

/-- Source `newRequiredValidator`. -/
def newRequiredValidator (_ : String) : Validator := .requiredValidator

/-- Source `newExpectedValueValidator`. -/
def newExpectedValueValidator (args : String) : Validator :=
  .expectedValueValidator (stringsSplit args " ")

/-- A `ValidatorFactory` value; `none` is the nil function. -/
abbrev ValidatorFactory := Option (String → Validator)

/-- Calling a factory value: calling nil panics. -/
def ValidatorFactory.call : ValidatorFactory → String → Except Panic Validator
  | none, _ => .error .nilFunc
  | some f, args => .ok (f args)

/-! ## lookup.go -/

def envSep : String := ","
def requiredFlag : String := "required"
def expectedValuesFlag : String := "expectedValues"

/-- State of the map `validatorRegistry`: `none` for an absent key. -/
abbrev Registry := String → Option ValidatorFactory

/-- Initial contents of `validatorRegistry`. -/
def validatorRegistry : Registry := fun name =>
  if name = requiredFlag then some (some newRequiredValidator)
  else if name = expectedValuesFlag then some (some newExpectedValueValidator)
  else none

/-- Source `AddValidator`: `validatorRegistry[name] = fn`. -/
def AddValidator (reg : Registry) (name : String) (fn : ValidatorFactory) : Registry :=
  fun k => if k = name then some fn else reg k

/-- Map index expression `validatorRegistry[name]`: nil for an absent key. -/
def Registry.index (reg : Registry) (name : String) : ValidatorFactory :=
  (reg name).getD none

/-- Character class `\w` of Go regular expressions. -/
def isWordChar (c : Char) : Bool :=
  ('0' ≤ c && c ≤ '9') || ('A' ≤ c && c ≤ 'Z') || ('a' ≤ c && c ≤ 'z') || c == '_'

/-- Character class `\s` of Go regular expressions. -/
def isPerlSpace (c : Char) : Bool :=
  c == '\t' || c == '\n' || c == '\x0c' || c == '\r' || c == ' '

/-- Character class `[-\w\s]`. -/
def isArgsChar (c : Char) : Bool :=
  c == '-' || isWordChar c || isPerlSpace c

/-- `validatorArgsRegex.FindStringSubmatch(option)` for the pattern
`(\w+)(?:=([-\w\s]+))?`: `none` when there is no match, otherwise the first
and second capture groups of the leftmost match. -/
def FindStringSubmatch (option : String) : Option (String × String) :=
  match option.data.dropWhile (fun c => !isWordChar c) with
  | [] => none
  | rest =>
    let name := rest.takeWhile isWordChar
    match rest.dropWhile isWordChar with
    | '=' :: t => some (⟨name⟩, ⟨t.takeWhile isArgsChar⟩)
    | _ => some (⟨name⟩, "")

/-- Loop over the validation options in `parseEnvTag`. -/
def parseOptions (reg : Registry) : List String → List Validator → Except Panic (List Validator)
  | [], validators => .ok validators
  | option :: rest, validators =>
    match FindStringSubmatch option with
    | some (validatorName, validatorArgs) =>
      match reg validatorName with
      | some createValidator =>
        match createValidator.call validatorArgs with
        | .error p => .error p
        | .ok v => parseOptions reg rest (validators ++ [v])
      | none => parseOptions reg rest validators
    | none =>
      match (reg.index option).call "" with
      | .error p => .error p
      | .ok v => parseOptions reg rest (validators ++ [v])

/-- Source `parseEnvTag`. -/
def parseEnvTag (reg : Registry) (tag sep : String) : Except Panic (String × List Validator) :=
  if tag = "-" ∨ tag = "" then .ok ("", [])
  else
    match stringsIndex tag sep with
    | none => .ok (tag, [])
    | some sepIndex =>
      let envName : String := ⟨tag.data.take sepIndex⟩
      let options : String := ⟨tag.data.drop (sepIndex + sep.data.length)⟩
      match parseOptions reg (stringsSplit options sep) [] with
      | .error p => .error p
      | .ok validators => .ok (envName, validators)

mutual
/-- A `reflect.Value` seen through the operations the package uses. -/
inductive Value where
  | string (s : String)
  | int (n : Int)
  | bool (b : Bool)
  /-- A value of any other kind; `kind` is `Kind().String()`. -/
  | other (kind : String) (contents : Nat)
  | struct (fields : List Field)
/-- One field of a struct: the `env` tag value, `CanSet()`, and the value. -/
inductive Field where
  | mk (tag : String) (canSet : Bool) (value : Value)
end

def Field.tag : Field → String
  | .mk tag _ _ => tag

def Field.canSet : Field → Bool
  | .mk _ canSet _ => canSet

def Field.value : Field → Value
  | .mk _ _ value => value

/-- Text of `valueField.Kind()`. -/
def Value.kindString : Value → String
  | .string _ => "string"
  | .int _ => "int"
  | .bool _ => "bool"
  | .other kind _ => kind
  | .struct _ => "struct"

/-- Source `setFieldValue`: the updated field value and the returned error. -/
def setFieldValue (valueField : Value) (envName envValue : String) : Value × Option GoError :=
  if envValue = "" then (valueField, none)
  else
    match valueField with
    | .string _ => (.string (TrimSpace envValue), none)
    | .int _ =>
      match ParseInt envValue with
      | .error err => (valueField, some (.wrapError ("error parsing int for " ++ envName ++ ": ") err))
      | .ok n => (.int n, none)
    | .bool _ =>
      match ParseBool envValue with
      | .error err => (valueField, some (.wrapError ("error parsing bool for " ++ envName ++ ": ") err))
      | .ok b => (.bool b, none)
    | v => (v, some (.errorString ("unsupported type " ++ v.kindString ++ " for " ++ envName)))

/-- The process environment as read by `os.Getenv`. -/
abbrev Env := String → String

/-- The validator loop of `lookupValue`. -/
def runValidators (envName envValue : String) : List Validator → Option GoError → Option GoError
  | [], errs => errs
  | validator :: rest, errs =>
    match validator.Validate envName envValue with
    | some err => runValidators envName envValue rest (errorsJoin [errs, some err])
    | none => runValidators envName envValue rest errs

mutual
/-- One iteration of the field loop of `lookupValue`, for the given field and
the errors accumulated so far: the field and `errs` after the iteration. -/
def lookupField (reg : Registry) (env : Env) :
    Field → Option GoError → Except Panic (Field × Option GoError)
  | .mk tag false value, errs => .ok (.mk tag false value, errs)
  | .mk tag true (.struct fields), errs =>
    match lookupFields reg env fields none with
    | .error p => .error p
    | .ok (fields', err) =>
      .ok (.mk tag true (.struct fields'), if err.isSome then errorsJoin [errs, err] else errs)
  | .mk tag true valueField, errs =>
    match parseEnvTag reg tag envSep with
    | .error p => .error p
    | .ok (envName, validators) =>
      if envName = "" then .ok (.mk tag true valueField, errs)
      else
        let envValue := env envName
        let errs1 := runValidators envName envValue validators errs
        let (valueField', err) := setFieldValue valueField envName envValue
        .ok (.mk tag true valueField', if err.isSome then errorsJoin [errs1, err] else errs1)
/-- The field loop of `lookupValue`, from the current field on, with the
errors accumulated so far.  Returns the updated fields and the final `errs`;
called with `errs = nil` it is `lookupValue` itself. -/
def lookupFields (reg : Registry) (env : Env) :
    List Field → Option GoError → Except Panic (List Field × Option GoError)
  | [], errs => .ok ([], errs)
  | f :: rest, errs =>
    match lookupField reg env f errs with
    | .error p => .error p
    | .ok (f', errs1) =>
      match lookupFields reg env rest errs1 with
      | .error p => .error p
      | .ok (rest', errs') => .ok (f' :: rest', errs')
end

/-- Source `lookupValue` on a struct value with the given fields. -/
def lookupValue (reg : Registry) (env : Env) (fields : List Field) :
    Except Panic (List Field × Option GoError) :=
  lookupFields reg env fields none

/-- Source `Lookup(m)`, where `m` points to the given value: the value after
the call and the returned error. -/
def Lookup (reg : Registry) (env : Env) : Value → Except Panic (Value × Option GoError)
  | .struct fields =>
    match lookupValue reg env fields with
    | .error p => .error p
    | .ok (fields', errs) => .ok (.struct fields', errs)
  | _ => .error .reflectKind

/-! ## Specification-side definitions -/

/-- Lines joined by a single newline. -/
def joinLines : List String → String
  | [] => ""
  | [l] => l
  | l :: ls => l ++ "\n" ++ joinLines ls

/-- A leaf value: any kind other than a nested structure. -/
def Value.isLeaf : Value → Bool
  | .struct _ => false
  | _ => true

mutual
/-- Specification of the walker for one field (spec §4.4): the field after the
walk together with its failures in order.  An unsettable field is skipped, a
settable nested structure is expanded in place, a leaf without environment
name is skipped, and any other leaf yields its validator failures in declared
order followed by its coercion failure.  A panic while an annotation is parsed
is passed on. -/
def walkField (reg : Registry) (env : Env) : Field → Except Panic (Field × List GoError)
  | .mk tag false value => .ok (.mk tag false value, [])
  | .mk tag true (.struct fields) =>
    match walkFields reg env fields with
    | .error p => .error p
    | .ok (fields', failures) => .ok (.mk tag true (.struct fields'), failures)
  | .mk tag true value =>
    match parseEnvTag reg tag envSep with
    | .error p => .error p
    | .ok (envName, validators) =>
      if envName = "" then .ok (.mk tag true value, [])
      else
        .ok (.mk tag true (setFieldValue value envName (env envName)).1,
          validators.filterMap (fun v => v.Validate envName (env envName))
            ++ (setFieldValue value envName (env envName)).2.toList)
/-- Specification of the walker for the fields of a structure, in declaration
order: the fields after the walk and the flat list of all failures. -/
def walkFields (reg : Registry) (env : Env) : List Field → Except Panic (List Field × List GoError)
  | [] => .ok ([], [])
  | f :: rest =>
    match walkField reg env f with
    | .error p => .error p
    | .ok (f', failures) =>
      match walkFields reg env rest with
      | .error p => .error p
      | .ok (rest', failures') => .ok (f' :: rest', failures ++ failures')
end

/-- The field reached from a structure by a path of field indices.  All but the
last index must select a settable nested structure: those are the structures
the walker descends into. -/
def fieldAt : List Field → List Nat → Option Field
  | _, [] => none
  | fields, [i] => fields[i]?
  | fields, i :: j :: path =>
    match fields[i]? with
    | some (.mk _ true (.struct sub)) => fieldAt sub (j :: path)
    | _ => none

/-- Value of a list of decimal digits. -/
def decimalValue (digits : List Char) : Nat :=
  digits.foldl (fun n c => 10 * n + (c.toNat - '0'.toNat)) 0

/-- The integer denoted by a literal made of an optional sign followed by one
or more decimal digits, when it lies in the signed 64-bit range. -/
def intLiteral (s : String) : Option Int :=
  let digits := match s.data with
    | '+' :: r => r
    | '-' :: r => r
    | r => r
  let neg := s.data.head? = some '-'
  if digits ≠ [] ∧ digits.all (fun c => decide ('0' ≤ c ∧ c ≤ '9')) then
    let v : Int := if neg then -(decimalValue digits : Int) else (decimalValue digits : Int)
    if -(2 : Int) ^ 63 ≤ v ∧ v ≤ (2 : Int) ^ 63 - 1 then some v else none
  else none

/-- The boolean denoted by one of the twelve boolean literals. -/
def boolLiteral (s : String) : Option Bool :=
  if s = "1" ∨ s = "t" ∨ s = "T" ∨ s = "TRUE" ∨ s = "true" ∨ s = "True" then some true
  else if s = "0" ∨ s = "f" ∨ s = "F" ∨ s = "FALSE" ∨ s = "false" ∨ s = "False" then some false
  else none

/-- The value a raw text denotes for a leaf of the given kind, if any: the
trimmed text for a string, the integer for an int, the boolean for a bool. -/
def coerce : Value → String → Option Value
  | .string _, raw => some (.string (TrimSpace raw))
  | .int _, raw => (intLiteral raw).map Value.int
  | .bool _, raw => (boolLiteral raw).map Value.bool
  | _, _ => none

mutual
/-- Replace the annotation of a nested-structure field, and of the
nested-structure fields inside it, by the empty tag. -/
def eraseFieldTag : Field → Field
  | .mk _ canSet (.struct fields) => .mk "" canSet (.struct (eraseStructTags fields))
  | .mk tag canSet value => .mk tag canSet value
/-- Replace the annotation of every nested-structure field by the empty tag. -/
def eraseStructTags : List Field → List Field
  | [] => []
  | f :: rest => eraseFieldTag f :: eraseStructTags rest
end

/-! ## Examples taken from the tests -/

/-- The structure `webConfig` of `lookup_test.go`, with zero values. -/
def webConfig : List Field :=
  [.mk "HOST,required" true (.string ""), .mk "PORT,required" true (.int 0)]

/-- Relation between an accumulated error and the list of its message lines:
nil stands for no line, a non-nil error has the lines as its text. -/
def ErrRepr (quote : String → String) (errs : Option GoError) (lines : List String) : Prop :=
  match errs with
  | none => lines = []
  | some e => lines ≠ [] ∧ e.Error quote = joinLines lines

/-- The structure `appConfig` of `lookup_test.go`, with zero values. -/
def appConfig : List Field :=
  [.mk "WEB" true (.struct webConfig),
   .mk "ENV,expectedValues=development production" true (.string ""),
   .mk "DB,required" true (.string ""),
   .mk "ENABLE_LOGGING" true (.bool false),
   .mk "API_KEY,required" true (.string ""),
   .mk "REDIS_URL,required" true (.string ""),
   .mk "REDIS_PASSWORD" true (.string ""),
   .mk "JWT_SECRET,required" true (.string ""),
   .mk "LOG_LEVEL" true (.string ""),
   .mk "MAX_CONNECTIONS" true (.int 0),
   .mk "READ_TIMEOUT" true (.int 0),
   .mk "WRITE_TIMEOUT" true (.int 0),
   .mk "GRACEFUL_TIMEOUT" true (.int 0),
   .mk "CACHE_ENABLED" true (.bool false),
   .mk "CACHE_EXPIRY" true (.int 0),
   .mk "SMTP_HOST" true (.string ""),
   .mk "SMTP_PORT" true (.int 0),
   .mk "SMTP_USER" true (.string ""),
   .mk "SMTP_PASSWORD" true (.string ""),
   .mk "ALLOW_CORS" true (.bool false),
   .mk "STATIC_FILES_PATH" true (.string ""),
   .mk "SESSION_TIMEOUT" true (.int 0),
   .mk "MAINTENANCE_MODE" true (.bool false),
   .mk "EXTERNAL_API_URL" true (.string "")]

/-- The environment of the test case "error - validation fail". -/
def failEnv : Env := fun k => if k = "ENV" then "SHINOBI" else ""

/-- The failures of a list of fields according to the specification walker. -/
def failuresOf (reg : Registry) (env : Env) (fields : List Field) : List GoError :=
  match walkFields reg env fields with
  | .ok (_, failures) => failures
  | .error _ => []

/-- The failures of the fields that the walker visits before the field at the
given path. -/
def failuresBefore (reg : Registry) (env : Env) : List Field → List Nat → List GoError
  | _, [] => []
  | fields, [i] => failuresOf reg env (fields.take i)
  | fields, i :: j :: path =>
    failuresOf reg env (fields.take i) ++
      match fields[i]? with
      | some (.mk _ true (.struct sub)) => failuresBefore reg env sub (j :: path)
      | _ => []

/-- The failures of the fields that the walker visits after the field at the
given path. -/
def failuresAfter (reg : Registry) (env : Env) : List Field → List Nat → List GoError
  | _, [] => []
  | fields, [i] => failuresOf reg env (fields.drop (i + 1))
  | fields, i :: j :: path =>
    (match fields[i]? with
      | some (.mk _ true (.struct sub)) => failuresAfter reg env sub (j :: path)
      | _ => []) ++ failuresOf reg env (fields.drop (i + 1))

/-- The entries of a space-separated list, as the specification words it: the
maximal runs of characters between single space characters. -/
def spaceSeparated (args : String) : List String :=
  (args.data.splitOn ' ').map String.mk

/-- A structure with a nested structure, for the success case: the structure
`webConfig` of the tests and a bool field. -/
def serverConfig : List Field :=
  [.mk "WEB" true (.struct webConfig), .mk "ENABLE_LOGGING" true (.bool false)]

/-- An environment in which `serverConfig` is bound without error. -/
def goodEnv : Env := fun k =>
  if k = "HOST" then " 0.0.0.0 " else if k = "PORT" then "8080" else ""

/-- The annotation with every validator clause removed: the text before the
first separator, or the whole annotation when it has no separator. -/
def stripClauses (tag : String) : String :=
  match stringsIndex tag envSep with
  | none => tag
  | some sepIndex => ⟨tag.data.take sepIndex⟩

mutual
/-- A field with the validator clauses removed from its annotation and from
the annotations inside it. -/
def stripFieldClauses : Field → Field
  | .mk tag canSet (.struct fields) =>
    .mk (stripClauses tag) canSet (.struct (stripStructClauses fields))
  | .mk tag canSet value => .mk (stripClauses tag) canSet value
/-- A structure with the validator clauses removed from every annotation. -/
def stripStructClauses : List Field → List Field
  | [] => []
  | f :: rest => stripFieldClauses f :: stripStructClauses rest
end

/-- Three sibling leaves, the second with an allow-list. -/
def siblings : List Field :=
  [.mk "HOST" true (.string ""),
   .mk "ENV,expectedValues=development production" true (.string ""),
   .mk "PORT" true (.int 0)]

/-- An environment in which the allow-list of `siblings` is violated. -/
def shinobiEnv : Env := fun k =>
  if k = "HOST" then "0.0.0.0" else if k = "ENV" then "SHINOBI"
  else if k = "PORT" then "8080" else ""

/-- The annotation written from an environment name and validator clauses,
each clause preceded by the separator (the grammar of the specification). -/
def tagOf (envName : String) : List String → String
  | [] => envName
  | clause :: rest => tagOf (envName ++ "," ++ clause) rest

/-- The separator-delimited clauses that follow the environment name in an
annotation. -/
def clausesOf (tag : String) : List String :=
  ((tag.data.splitOn ',').drop 1).map String.mk

/-- The name of a clause as the pattern reads it: the first maximal run of
word characters. -/
def clauseName (clause : String) : String :=
  ⟨(clause.data.dropWhile (fun c => !isWordChar c)).takeWhile isWordChar⟩

/-- What one clause adds to the validators of an annotation: a validator,
nothing, or a panic. -/
def clauseValidator (reg : Registry) (clause : String) : Except Panic (Option Validator) :=
  match FindStringSubmatch clause with
  | some (validatorName, validatorArgs) =>
    match reg validatorName with
    | some createValidator =>
      match createValidator.call validatorArgs with
      | .error p => .error p
      | .ok v => .ok (some v)
    | none => .ok none
  | none =>
    match (reg.index clause).call "" with
    | .error p => .error p
    | .ok v => .ok (some v)

/-- A validator factory as a user would register it: the validator accepts
exactly the value given as argument. -/
def equalsFactory (args : String) : Validator :=
  .custom (fun envName value =>
    if value = args then none else some (.errorString (envName ++ " must be " ++ args)))

/-! ## Theorems -/

theorem joinLines_cons_cons (a b : String) (ls : List String) :
    joinLines (a :: b :: ls) = a ++ "\n" ++ joinLines (b :: ls) := rfl

theorem joinLines_append {a b : List String} (ha : a ≠ []) (hb : b ≠ []) :
    joinLines (a ++ b) = joinLines a ++ "\n" ++ joinLines b := by
  induction a with
  | nil => exact absurd rfl ha
  | cons x xs ih =>
    cases xs with
    | nil =>
      cases b with
      | nil => exact absurd rfl hb
      | cons y ys => rfl
    | cons x2 xs2 =>
      have h := ih (by simp)
      simp only [List.cons_append, joinLines_cons_cons] at h ⊢
      rw [h]
      simp only [String.append_assoc]

theorem joinErrorText_eq (quote : String → String) (es : List GoError) :
    joinErrorText quote es = joinLines (es.map (fun e => e.Error quote)) := by
  induction es with
  | nil => rfl
  | cons x xs ih =>
    cases xs with
    | nil => simp [joinErrorText, joinLines]
    | cons y ys =>
      rw [joinErrorText]
      · rw [ih]; rfl
      · simp

theorem errRepr_join_some (quote : String → String) {errs : Option GoError} {lines : List String}
    (h : ErrRepr quote errs lines) (e : GoError) :
    ErrRepr quote (errorsJoin [errs, some e]) (lines ++ [e.Error quote]) := by
  cases errs with
  | none =>
    simp only [ErrRepr] at h
    subst h
    simp [errorsJoin, ErrRepr, GoError.Error, joinErrorText, joinLines]
  | some e0 =>
    obtain ⟨hne, htxt⟩ := h
    refine ⟨by simp, ?_⟩
    rw [joinLines_append hne (by simp)]
    simp [GoError.Error, joinErrorText, joinLines, htxt]

theorem errRepr_join_nested (quote : String → String) {errs err : Option GoError}
    {lines lines' : List String}
    (h : ErrRepr quote errs lines) (h' : ErrRepr quote err lines') :
    ErrRepr quote (if err.isSome then errorsJoin [errs, err] else errs) (lines ++ lines') := by
  cases err with
  | none =>
    simp only [ErrRepr] at h'
    subst h'
    simpa using h
  | some e =>
    obtain ⟨hne, htxt⟩ := h'
    cases errs with
    | none =>
      simp only [ErrRepr] at h
      subst h
      simp [errorsJoin, ErrRepr, GoError.Error, joinErrorText, htxt, hne]
    | some e0 =>
      obtain ⟨hne0, htxt0⟩ := h
      refine ⟨by simp [hne], ?_⟩
      rw [joinLines_append hne0 hne]
      simp [GoError.Error, joinErrorText, htxt, htxt0]

theorem runValidators_spec (quote : String → String) (envName envValue : String)
    (validators : List Validator) :
    ∀ (errs : Option GoError) (lines : List String), ErrRepr quote errs lines →
      ErrRepr quote (runValidators envName envValue validators errs)
        (lines ++ (validators.filterMap (fun v => v.Validate envName envValue)).map
          (fun e => e.Error quote)) := by
  induction validators with
  | nil => intro errs lines h; simpa [runValidators] using h
  | cons v vs ih =>
    intro errs lines h
    cases hv : v.Validate envName envValue with
    | none =>
      simp only [runValidators, hv, List.filterMap_cons]
      exact ih errs lines h
    | some e =>
      simp only [runValidators, hv, List.filterMap_cons, List.map_cons]
      have := ih _ _ (errRepr_join_some quote h e)
      simpa using this

theorem errRepr_coercion (quote : String → String) {errs : Option GoError} {lines : List String}
    (h : ErrRepr quote errs lines) (err : Option GoError) :
    ErrRepr quote (if err.isSome then errorsJoin [errs, err] else errs)
      (lines ++ err.toList.map (fun e => e.Error quote)) := by
  cases err with
  | none => simpa using h
  | some e => simpa using errRepr_join_some quote h e

theorem lookupField_leaf_spec (quote : String → String) (reg : Registry) (env : Env)
    (tag : String) (v : Value) (hleaf : ∀ fields, v = Value.struct fields → False)
    (errs : Option GoError) (lines : List String) (h : ErrRepr quote errs lines) :
    match walkField reg env (.mk tag true v) with
    | .error p => lookupField reg env (.mk tag true v) errs = .error p
    | .ok (f', own) =>
      ∃ errs', lookupField reg env (.mk tag true v) errs = .ok (f', errs') ∧
        ErrRepr quote errs' (lines ++ own.map (fun e => e.Error quote)) := by
  rw [walkField.eq_3 _ _ _ _ hleaf, lookupField.eq_3 _ _ _ _ _ hleaf]
  cases hp : parseEnvTag reg tag envSep with
  | error p => simp
  | ok r =>
    obtain ⟨envName, validators⟩ := r
    by_cases hn : envName = ""
    · simpa [hn] using h
    · simp only [hn, if_false]
      have hv := runValidators_spec quote envName (env envName) validators errs lines h
      have hc := errRepr_coercion quote hv (setFieldValue v envName (env envName)).2
      refine ⟨_, rfl, ?_⟩
      simpa [List.append_assoc] using hc

mutual
/-- One iteration of the field loop refines the specification walker. -/
theorem lookupField_spec (quote : String → String) (reg : Registry) (env : Env) :
    ∀ (f : Field) (errs : Option GoError) (lines : List String),
      ErrRepr quote errs lines →
      match walkField reg env f with
      | .error p => lookupField reg env f errs = .error p
      | .ok (f', own) =>
        ∃ errs', lookupField reg env f errs = .ok (f', errs') ∧
          ErrRepr quote errs' (lines ++ own.map (fun e => e.Error quote))
  | .mk tag false value, errs, lines, h => by
    simpa [walkField, lookupField] using h
  | .mk tag true (.struct sub), errs, lines, h => by
    have ihs := lookupFields_spec quote reg env sub none [] rfl
    rw [walkField, lookupField]
    cases hs : walkFields reg env sub with
    | error p => rw [hs] at ihs; simp [ihs]
    | ok r =>
      obtain ⟨sub', fs⟩ := r
      rw [hs] at ihs
      obtain ⟨err, h1, h2⟩ := ihs
      simp only [List.nil_append] at h2
      simp only [h1]
      exact ⟨_, rfl, errRepr_join_nested quote h h2⟩
  | .mk tag true (.string s), errs, lines, h =>
    lookupField_leaf_spec quote reg env tag _ (by simp) errs lines h
  | .mk tag true (.int s), errs, lines, h =>
    lookupField_leaf_spec quote reg env tag _ (by simp) errs lines h
  | .mk tag true (.bool s), errs, lines, h =>
    lookupField_leaf_spec quote reg env tag _ (by simp) errs lines h
  | .mk tag true (.other k c), errs, lines, h =>
    lookupField_leaf_spec quote reg env tag _ (by simp) errs lines h
/-- The field loop of `lookupValue` refines the specification walker: the same
panics, the same fields afterwards, and an accumulated error whose lines are
those accumulated before followed by the failures of the fields. -/
theorem lookupFields_spec (quote : String → String) (reg : Registry) (env : Env) :
    ∀ (fields : List Field) (errs : Option GoError) (lines : List String),
      ErrRepr quote errs lines →
      match walkFields reg env fields with
      | .error p => lookupFields reg env fields errs = .error p
      | .ok (fields', failures) =>
        ∃ errs', lookupFields reg env fields errs = .ok (fields', errs') ∧
          ErrRepr quote errs' (lines ++ failures.map (fun e => e.Error quote))
  | [], errs, lines, h => by
    simpa [walkFields, lookupFields] using h
  | f :: rest, errs, lines, h => by
    have ihf := lookupField_spec quote reg env f errs lines h
    rw [walkFields, lookupFields]
    cases hf : walkField reg env f with
    | error p => rw [hf] at ihf; simp [ihf]
    | ok r =>
      obtain ⟨f', own⟩ := r
      rw [hf] at ihf
      obtain ⟨errs1, h1, h2⟩ := ihf
      have ih := lookupFields_spec quote reg env rest errs1 _ h2
      simp only [h1]
      cases hw : walkFields reg env rest with
      | error p => rw [hw] at ih; simp [ih]
      | ok r =>
        obtain ⟨rest', failures⟩ := r
        rw [hw] at ih
        obtain ⟨errs', h3, h4⟩ := ih
        simp only [h3]
        refine ⟨errs', rfl, ?_⟩
        simpa [List.append_assoc] using h4
end

theorem intercalate_go_eq (acc : String) (ls : List String) :
    String.intercalate.go acc "\n" ls = joinLines (acc :: ls) := by
  induction ls generalizing acc with
  | nil => rfl
  | cons b bs ih =>
    rw [String.intercalate.go, ih]
    cases bs with
    | nil => rfl
    | cons c cs => simp [joinLines, String.append_assoc]

theorem joinLines_eq_intercalate (ls : List String) : joinLines ls = "\n".intercalate ls := by
  cases ls with
  | nil => rfl
  | cons a as => rw [String.intercalate, intercalate_go_eq]

/-- C1: the error returned by `Lookup` has as text the failure messages of the
fields, in declaration order with nested structures expanded in place, joined
by single newlines; it is nil exactly when there is no failure; `Lookup`
panics exactly when parsing an annotation does; and joining a nested aggregate
into another error gives the text of the flat join. -/
theorem C1_lookup_error_text (quote : String → String) (reg : Registry) (env : Env)
    (fields : List Field) :
    (match walkFields reg env fields with
      | .error p => Lookup reg env (.struct fields) = .error p
      | .ok (fields', failures) =>
        ∃ err, Lookup reg env (.struct fields) = .ok (.struct fields', err) ∧
          (err = none ↔ failures = []) ∧
          (∀ e, err = some e →
            e.Error quote = "\n".intercalate (failures.map (fun x => x.Error quote))))
    ∧ (∀ (a b : List GoError), a ≠ [] → b ≠ [] →
        (GoError.joinError [.joinError a, .joinError b]).Error quote
          = (GoError.joinError (a ++ b)).Error quote)
    ∧ (∀ (a : List GoError) (e : GoError), a ≠ [] →
        (GoError.joinError [.joinError a, e]).Error quote
          = (GoError.joinError (a ++ [e])).Error quote) := by
  refine ⟨?_, ?_, ?_⟩
  · have h := lookupFields_spec quote reg env fields none [] rfl
    cases hw : walkFields reg env fields with
    | error p => rw [hw] at h; simp [Lookup, lookupValue, h]
    | ok r =>
      obtain ⟨fields', failures⟩ := r
      rw [hw] at h
      obtain ⟨err, h1, h2⟩ := h
      refine ⟨err, by simp [Lookup, lookupValue, h1], ?_, ?_⟩
      · cases err with
        | none => simpa [ErrRepr] using h2
        | some e => simpa [ErrRepr] using h2.1
      · intro e he
        subst he
        rw [← joinLines_eq_intercalate]
        simpa using h2.2
  · intro a b ha hb
    simp only [GoError.Error, joinErrorText, joinErrorText_eq, List.map_append]
    rw [joinLines_append (by simpa using ha) (by simpa using hb)]
  · intro a e ha
    simp only [GoError.Error, joinErrorText, joinErrorText_eq, List.map_append]
    rw [joinLines_append (by simpa using ha) (by simp)]
    rfl

theorem C1_lookup_error_text_witness :
    (∃ err, Lookup validatorRegistry failEnv (.struct appConfig)
        = .ok (.struct (.mk "WEB" true (.struct webConfig)
            :: .mk "ENV,expectedValues=development production" true (.string "SHINOBI")
            :: appConfig.drop 2), err) ∧
      (err = none ↔ ([GoError.errorString "HOST is required", .errorString "PORT is required",
          .errorString "ENV is unexpected value: SHINOBI", .errorString "DB is required",
          .errorString "API_KEY is required", .errorString "REDIS_URL is required",
          .errorString "JWT_SECRET is required"] : List GoError) = []) ∧
      (∀ e, err = some e → e.Error id = "HOST is required\nPORT is required\nENV is unexpected value: SHINOBI\nDB is required\nAPI_KEY is required\nREDIS_URL is required\nJWT_SECRET is required"))
    ∧ (GoError.joinError [.joinError [.errorString "a", .errorString "b"],
          .joinError [.errorString "c"]]).Error id
        = (GoError.joinError ([.errorString "a", .errorString "b"] ++ [.errorString "c"])).Error id
    ∧ (GoError.joinError [.joinError [.errorString "a", .errorString "b"],
          .errorString "c"]).Error id
        = (GoError.joinError ([.errorString "a", .errorString "b"] ++ [.errorString "c"])).Error id :=
  ⟨(C1_lookup_error_text id validatorRegistry failEnv appConfig).1,
   (C1_lookup_error_text id validatorRegistry failEnv appConfig).2.1 _ _ (by simp) (by simp),
   (C1_lookup_error_text id validatorRegistry failEnv appConfig).2.2 _ _ (by simp)⟩

theorem walkFields_cons_ok {reg : Registry} {env : Env} {f : Field} {rest fields' : List Field}
    {failures : List GoError} (h : walkFields reg env (f :: rest) = .ok (fields', failures)) :
    ∃ f' own rest' others, walkField reg env f = .ok (f', own) ∧
      walkFields reg env rest = .ok (rest', others) ∧ fields' = f' :: rest' ∧
      failures = own ++ others := by
  rw [walkFields] at h
  cases hf : walkField reg env f with
  | error p => simp [hf] at h
  | ok r =>
    obtain ⟨f', own⟩ := r
    cases hr : walkFields reg env rest with
    | error p => simp [hf, hr] at h
    | ok r2 =>
      obtain ⟨rest', others⟩ := r2
      simp only [hf, hr, Except.ok.injEq, Prod.mk.injEq] at h
      exact ⟨f', own, rest', others, rfl, rfl, h.1.symm, h.2.symm⟩

theorem failuresOf_eq {reg : Registry} {env : Env} {fields fields' : List Field}
    {failures : List GoError} (h : walkFields reg env fields = .ok (fields', failures)) :
    failuresOf reg env fields = failures := by
  unfold failuresOf
  rw [h]

theorem walkFields_take (reg : Registry) (env : Env) :
    ∀ (n : Nat) (fields fields' : List Field) (failures : List GoError),
      walkFields reg env fields = .ok (fields', failures) →
      ∃ es, walkFields reg env (fields.take n) = .ok (fields'.take n, es) := by
  intro n
  induction n with
  | zero => intro fields fields' failures _; exact ⟨[], by simp [walkFields]⟩
  | succ n ih =>
    intro fields fields' failures h
    cases fields with
    | nil =>
      simp only [walkFields, Except.ok.injEq, Prod.mk.injEq] at h
      exact ⟨[], by simp [walkFields, ← h.1]⟩
    | cons g rest =>
      obtain ⟨g', own0, rest', others, h1, h2, h3, h4⟩ := walkFields_cons_ok h
      obtain ⟨es, hes⟩ := ih rest rest' others h2
      refine ⟨own0 ++ es, ?_⟩
      subst h3
      simp only [List.take_succ_cons]
      rw [walkFields, h1, hes]

/-- Position lemma for one level: the outcome of the walk at index `i`. -/
theorem walkFields_getElem (reg : Registry) (env : Env) :
    ∀ (i : Nat) (fields fields' : List Field) (failures : List GoError) (f : Field),
      walkFields reg env fields = .ok (fields', failures) → fields[i]? = some f →
      ∃ f' own, walkField reg env f = .ok (f', own) ∧ fields'[i]? = some f' ∧
        failures = failuresOf reg env (fields.take i) ++ own
          ++ failuresOf reg env (fields.drop (i + 1)) := by
  intro i
  induction i with
  | zero =>
    intro fields fields' failures f h hi
    cases fields with
    | nil => simp at hi
    | cons g rest =>
      simp only [List.getElem?_cons_zero, Option.some.injEq] at hi
      subst hi
      obtain ⟨f', own, rest', others, h1, h2, h3, h4⟩ := walkFields_cons_ok h
      refine ⟨f', own, h1, by simp [h3], ?_⟩
      have e1 : failuresOf reg env (List.take 0 (g :: rest)) = [] := by
        simp [failuresOf, walkFields]
      rw [e1, h4]
      simp only [List.drop_succ_cons, List.drop_zero, failuresOf_eq h2, List.nil_append]
  | succ n ih =>
    intro fields fields' failures f h hi
    cases fields with
    | nil => simp at hi
    | cons g rest =>
      simp only [List.getElem?_cons_succ] at hi
      obtain ⟨g', own0, rest', others, h1, h2, h3, h4⟩ := walkFields_cons_ok h
      obtain ⟨f', own, k1, k2, k3⟩ := ih rest rest' others f h2 hi
      refine ⟨f', own, k1, by simp [h3, k2], ?_⟩
      obtain ⟨es, hes⟩ := walkFields_take reg env n rest rest' others h2
      have e1 : walkFields reg env (List.take (n + 1) (g :: rest))
          = .ok (g' :: rest'.take n, own0 ++ es) := by
        simp only [List.take_succ_cons]
        rw [walkFields, h1, hes]
      rw [failuresOf_eq e1, h4, k3, failuresOf_eq hes]
      simp only [List.drop_succ_cons, List.append_assoc]

theorem walkField_struct_ok {reg : Registry} {env : Env} {tag : String} {sub : List Field}
    {f' : Field} {own : List GoError}
    (h : walkField reg env (.mk tag true (.struct sub)) = .ok (f', own)) :
    ∃ sub', walkFields reg env sub = .ok (sub', own) ∧ f' = .mk tag true (.struct sub') := by
  rw [walkField] at h
  cases hs : walkFields reg env sub with
  | error p => simp [hs] at h
  | ok r =>
    obtain ⟨sub', es⟩ := r
    simp only [hs, Except.ok.injEq, Prod.mk.injEq] at h
    exact ⟨sub', by rw [h.2], h.1.symm⟩

theorem fieldAt_cons_cons_of_struct {fields : List Field} {i j : Nat} {path : List Nat}
    {tag : String} {sub : List Field}
    (h : fields[i]? = some (.mk tag true (.struct sub))) :
    fieldAt fields (i :: j :: path) = fieldAt sub (j :: path) := by
  simp only [fieldAt, h]

theorem fieldAt_cons_cons_some {fields : List Field} {i j : Nat} {path : List Nat} {f : Field}
    (h : fieldAt fields (i :: j :: path) = some f) :
    ∃ tag sub, fields[i]? = some (.mk tag true (.struct sub)) ∧
      fieldAt sub (j :: path) = some f := by
  simp only [fieldAt] at h
  split at h
  · next tag sub heq => exact ⟨tag, sub, heq, h⟩
  · simp at h

/-- Position lemma: the outcome of the walk for the field at a path, and the
failures of the whole walk split around that field. -/
theorem walkFields_fieldAt (reg : Registry) (env : Env) :
    ∀ (path : List Nat) (fields fields' : List Field) (failures : List GoError) (f : Field),
      walkFields reg env fields = .ok (fields', failures) → fieldAt fields path = some f →
      ∃ f' own, walkField reg env f = .ok (f', own) ∧ fieldAt fields' path = some f' ∧
        failures = failuresBefore reg env fields path ++ own
          ++ failuresAfter reg env fields path := by
  intro path
  induction path with
  | nil => intro fields fields' failures f _ h; simp [fieldAt] at h
  | cons i p ih =>
    intro fields fields' failures f h hf
    cases p with
    | nil =>
      simp only [fieldAt] at hf
      obtain ⟨f', own, h1, h2, h3⟩ := walkFields_getElem reg env i fields fields' failures f h hf
      exact ⟨f', own, h1, by simpa [fieldAt] using h2, by simpa [failuresBefore, failuresAfter] using h3⟩
    | cons j q =>
      obtain ⟨tag, sub, hi, hsub⟩ := fieldAt_cons_cons_some hf
      obtain ⟨g', own0, h1, h2, h3⟩ := walkFields_getElem reg env i fields fields' failures _ h hi
      obtain ⟨sub', hs, hg⟩ := walkField_struct_ok h1
      obtain ⟨f', own, k1, k2, k3⟩ := ih sub sub' own0 f hs hsub
      subst hg
      refine ⟨f', own, k1, ?_, ?_⟩
      · rw [fieldAt_cons_cons_of_struct h2]; exact k2
      · rw [h3, k3]
        simp only [failuresBefore, failuresAfter, hi, List.append_assoc]

/-- Position lemma for `Lookup`: when `Lookup` returns, the field at a path
holds the outcome of the walk for that field, and the lines of the returned
error are the failures before the field, its own, and those after it. -/
theorem Lookup_fieldAt (quote : String → String) (reg : Registry) (env : Env)
    {fields : List Field} {path : List Nat} {f : Field} {v' : Value} {err : Option GoError}
    (h : Lookup reg env (.struct fields) = .ok (v', err)) (hf : fieldAt fields path = some f) :
    ∃ fields' f' own, v' = .struct fields' ∧ walkField reg env f = .ok (f', own) ∧
      fieldAt fields' path = some f' ∧
      ErrRepr quote err ((failuresBefore reg env fields path ++ own
        ++ failuresAfter reg env fields path).map (fun e => e.Error quote)) := by
  have hs := lookupFields_spec quote reg env fields none [] rfl
  cases hw : walkFields reg env fields with
  | error p =>
    rw [hw] at hs
    simp [Lookup, lookupValue, hs] at h
  | ok r =>
    obtain ⟨fields', failures⟩ := r
    rw [hw] at hs
    obtain ⟨err', h1, h2⟩ := hs
    simp only [Lookup, lookupValue, h1, Except.ok.injEq, Prod.mk.injEq] at h
    obtain ⟨f', own, k1, k2, k3⟩ := walkFields_fieldAt reg env path fields fields' failures f hw hf
    refine ⟨fields', f', own, h.1.symm, k1, k2, ?_⟩
    rw [← k3, ← h.2]
    simpa using h2

theorem errRepr_text {quote : String → String} {err : Option GoError} {lines : List String}
    (h : ErrRepr quote err lines) :
    (err = none ↔ lines = []) ∧ ∀ e, err = some e → e.Error quote = "\n".intercalate lines := by
  cases err with
  | none => simpa [ErrRepr] using h
  | some e =>
    obtain ⟨h1, h2⟩ := h
    refine ⟨by simp [h1], ?_⟩
    intro e' he
    simp only [Option.some.injEq] at he
    subst he
    rw [h2, joinLines_eq_intercalate]

theorem isLeaf_not_struct {v : Value} (h : v.isLeaf = true) :
    ∀ fields, v = Value.struct fields → False := by
  intro fields hv
  subst hv
  simp [Value.isLeaf] at h

theorem indexChars_none (c : Char) (s : List Char) (i : Nat) (h : c ∉ s) :
    indexChars [c] s i = none := by
  induction s generalizing i with
  | nil => simp [indexChars]
  | cons x xs ih =>
    have hx : c ≠ x := fun e => h (by simp [e])
    have hxs : c ∉ xs := fun e => h (by simp [e])
    simp [indexChars, List.isPrefixOf, hx, ih _ hxs]

theorem indexChars_append (c : Char) (a b : List Char) (i : Nat) (h : c ∉ a) :
    indexChars [c] (a ++ c :: b) i = some (i + a.length) := by
  induction a generalizing i with
  | nil => simp [indexChars, List.isPrefixOf]
  | cons x xs ih =>
    have hx : c ≠ x := fun e => h (by simp [e])
    have hxs : c ∉ xs := fun e => h (by simp [e])
    simp [indexChars, List.isPrefixOf, hx, ih _ hxs]
    omega

theorem parseEnvTag_skip (reg : Registry) (sep : String) (tag : String)
    (h : tag = "" ∨ tag = "-") : parseEnvTag reg tag sep = .ok ("", []) := by
  unfold parseEnvTag
  rcases h with h | h <;> simp [h]

theorem parseEnvTag_no_sep (reg : Registry) (tag : String)
    (h1 : tag ≠ "") (h2 : tag ≠ "-") (h3 : ',' ∉ tag.data) :
    parseEnvTag reg tag envSep = .ok (tag, []) := by
  unfold parseEnvTag
  have : stringsIndex tag envSep = none := indexChars_none ',' tag.data 0 h3
  simp [h1, h2, this]

theorem walkField_leaf (reg : Registry) (env : Env) (tag : String) (v : Value)
    (hv : v.isLeaf = true) :
    walkField reg env (.mk tag true v) =
      match parseEnvTag reg tag envSep with
      | .error p => .error p
      | .ok (envName, validators) =>
        if envName = "" then .ok (.mk tag true v, [])
        else
          .ok (.mk tag true (setFieldValue v envName (env envName)).1,
            validators.filterMap (fun x => x.Validate envName (env envName))
              ++ (setFieldValue v envName (env envName)).2.toList) :=
  walkField.eq_3 reg env tag v (isLeaf_not_struct hv)

theorem lookupField_leaf (reg : Registry) (env : Env) (tag : String) (v : Value)
    (errs : Option GoError) (hv : v.isLeaf = true) :
    lookupField reg env (.mk tag true v) errs =
      match parseEnvTag reg tag envSep with
      | .error p => .error p
      | .ok (envName, validators) =>
        if envName = "" then .ok (.mk tag true v, errs)
        else
          let envValue := env envName
          let errs1 := runValidators envName envValue validators errs
          match setFieldValue v envName envValue with
          | (valueField', err) =>
            .ok (.mk tag true valueField',
              if err.isSome = true then errorsJoin [errs1, err] else errs1) :=
  lookupField.eq_3 reg env errs tag v (isLeaf_not_struct hv)

/-- C9: `parseEnvTag` returns the empty name and no validators for the empty
tag and for the tag "-", and the whole tag with no validators for any other
tag without separator; a leaf whose tag is empty or "-" is ignored by
`Lookup`: the loop iteration leaves the field and the accumulated error as
they are, whatever the environment, and after `Lookup` the field is
unchanged and the error consists of the failures of the other fields. -/
theorem C9_skipped_annotations (reg : Registry) (env : Env) (tag : String) :
    parseEnvTag reg "" envSep = .ok ("", []) ∧
    parseEnvTag reg "-" envSep = .ok ("", []) ∧
    (tag ≠ "" → tag ≠ "-" → ',' ∉ tag.data → parseEnvTag reg tag envSep = .ok (tag, [])) ∧
    (∀ (v : Value), v.isLeaf = true → (tag = "" ∨ tag = "-") →
      (∀ (env' : Env), walkField reg env' (.mk tag true v) = .ok (.mk tag true v, [])) ∧
      (∀ (env' : Env) (errs : Option GoError),
        lookupField reg env' (.mk tag true v) errs = .ok (.mk tag true v, errs)) ∧
      (∀ (quote : String → String) (fields : List Field) (path : List Nat) (v' : Value)
          (err : Option GoError),
        fieldAt fields path = some (.mk tag true v) →
        Lookup reg env (.struct fields) = .ok (v', err) →
        ∃ fields', v' = .struct fields' ∧ fieldAt fields' path = some (.mk tag true v) ∧
          (err = none ↔
            failuresBefore reg env fields path ++ failuresAfter reg env fields path = []) ∧
          ∀ e, err = some e → e.Error quote = "\n".intercalate
            ((failuresBefore reg env fields path ++ failuresAfter reg env fields path).map
              (fun x => x.Error quote)))) := by
  refine ⟨parseEnvTag_skip reg _ _ (Or.inl rfl), parseEnvTag_skip reg _ _ (Or.inr rfl),
    parseEnvTag_no_sep reg tag, ?_⟩
  intro v hv ht
  have hw : ∀ env' : Env, walkField reg env' (.mk tag true v) = .ok (.mk tag true v, []) := by
    intro env'
    rw [walkField_leaf reg env' tag v hv, parseEnvTag_skip reg _ _ ht]
    simp
  refine ⟨hw, ?_, ?_⟩
  · intro env' errs
    rw [lookupField_leaf reg env' tag v errs hv, parseEnvTag_skip reg _ _ ht]
    simp
  · intro quote fields path v' err hf hl
    obtain ⟨fields', f', own, h1, h2, h3, h4⟩ := Lookup_fieldAt quote reg env hl hf
    rw [hw env] at h2
    simp only [Except.ok.injEq, Prod.mk.injEq] at h2
    obtain ⟨e1, e2⟩ := h2
    subst e1 e2
    refine ⟨fields', h1, h3, ?_⟩
    have := errRepr_text h4
    simpa using this

theorem C9_skipped_annotations_witness :
    parseEnvTag validatorRegistry "ENABLE_LOGGING" envSep = .ok ("ENABLE_LOGGING", []) ∧
    ∃ fields', Value.struct [.mk "WEB" true (.struct [.mk "HOST" true (.string "h"),
          .mk "-" true (.int 7)])] = Value.struct fields' ∧
      fieldAt fields' [0, 1] = some (.mk "-" true (.int 7)) :=
  ⟨(C9_skipped_annotations validatorRegistry (fun _ => "") "ENABLE_LOGGING").2.2.1
      (by decide) (by decide) (by decide),
   by
    obtain ⟨fields', h1, h2, _⟩ :=
      ((C9_skipped_annotations validatorRegistry (fun _ => "") "-").2.2.2
        (.int 7) rfl (Or.inr rfl)).2.2 id
        [.mk "WEB" true (.struct [.mk "HOST" true (.string "h"), .mk "-" true (.int 7)])]
        [0, 1]
        (.struct [.mk "WEB" true (.struct [.mk "HOST" true (.string "h"), .mk "-" true (.int 7)])])
        none rfl rfl
    exact ⟨fields', h1, h2⟩⟩

/-- A field whose own walk leaves it unchanged without failure is unchanged
after `Lookup`, and the returned error consists of the failures of the fields
before and after it. -/
theorem Lookup_fieldAt_unchanged (quote : String → String) (reg : Registry) (env : Env)
    {fields : List Field} {path : List Nat} {f : Field} {v' : Value} {err : Option GoError}
    (hw : walkField reg env f = .ok (f, [])) (hf : fieldAt fields path = some f)
    (hl : Lookup reg env (.struct fields) = .ok (v', err)) :
    ∃ fields', v' = .struct fields' ∧ fieldAt fields' path = some f ∧
      (err = none ↔
        failuresBefore reg env fields path ++ failuresAfter reg env fields path = []) ∧
      ∀ e, err = some e → e.Error quote = "\n".intercalate
        ((failuresBefore reg env fields path ++ failuresAfter reg env fields path).map
          (fun x => x.Error quote)) := by
  obtain ⟨fields', f', own, h1, h2, h3, h4⟩ := Lookup_fieldAt quote reg env hl hf
  rw [hw] at h2
  simp only [Except.ok.injEq, Prod.mk.injEq] at h2
  obtain ⟨e1, e2⟩ := h2
  subst e1 e2
  refine ⟨fields', h1, h3, ?_⟩
  have := errRepr_text h4
  simpa using this

/-- C4: the validator built by the `required` factory fails exactly on the
empty value, with the message `envName ++ " is required"`, whatever `args`. -/
theorem C4_required_validator (quote : String → String) (args envName value : String) :
    validatorRegistry requiredFlag = some (some newRequiredValidator) ∧
    (((newRequiredValidator args).Validate envName value).isSome = true ↔ value = "") ∧
    ((newRequiredValidator args).Validate envName value).map (fun e => e.Error quote)
      = (if value = "" then some (envName ++ " is required") else none) ∧
    (∀ args' : String, (newRequiredValidator args').Validate envName value
      = (newRequiredValidator args).Validate envName value) := by
  refine ⟨rfl, ?_, ?_, fun _ => rfl⟩
  · by_cases h : value = "" <;> simp [newRequiredValidator, Validator.Validate, h]
  · by_cases h : value = "" <;>
      simp [newRequiredValidator, Validator.Validate, h, GoError.Error]

/-- C7: `setFieldValue` with the empty raw value returns no error and leaves
the field as it is, for every kind of field; so a leaf (in particular a bool
field) without validators whose variable is unset keeps its value and adds
nothing to the error of `Lookup`. -/
theorem C7_empty_value_is_skipped (reg : Registry) (env : Env) (valueField : Value)
    (envName : String) :
    setFieldValue valueField envName "" = (valueField, none) ∧
    (∀ (tag : String), valueField.isLeaf = true →
      parseEnvTag reg tag envSep = .ok (envName, []) → env envName = "" →
      walkField reg env (.mk tag true valueField) = .ok (.mk tag true valueField, []) ∧
      (∀ errs : Option GoError,
        lookupField reg env (.mk tag true valueField) errs
          = .ok (.mk tag true valueField, errs)) ∧
      (∀ (quote : String → String) (fields : List Field) (path : List Nat) (v' : Value)
          (err : Option GoError),
        fieldAt fields path = some (.mk tag true valueField) →
        Lookup reg env (.struct fields) = .ok (v', err) →
        ∃ fields', v' = .struct fields' ∧
          fieldAt fields' path = some (.mk tag true valueField) ∧
          (err = none ↔
            failuresBefore reg env fields path ++ failuresAfter reg env fields path = []) ∧
          ∀ e, err = some e → e.Error quote = "\n".intercalate
            ((failuresBefore reg env fields path ++ failuresAfter reg env fields path).map
              (fun x => x.Error quote)))) := by
  have hset : setFieldValue valueField envName "" = (valueField, none) := by
    simp [setFieldValue]
  refine ⟨hset, ?_⟩
  intro tag hv hp he
  have hw : walkField reg env (.mk tag true valueField) = .ok (.mk tag true valueField, []) := by
    rw [walkField_leaf reg env tag valueField hv, hp]
    by_cases hn : envName = ""
    · simp [hn]
    · simp [hn, he, hset]
  refine ⟨hw, ?_, ?_⟩
  · intro errs
    rw [lookupField_leaf reg env tag valueField errs hv, hp]
    by_cases hn : envName = ""
    · simp [hn]
    · simp [hn, he, hset, runValidators]
  · intro quote fields path v' err hf hl
    exact Lookup_fieldAt_unchanged quote reg env hw hf hl

theorem C7_empty_value_is_skipped_witness :
    ∃ fields', (Value.struct [.mk "DB" true (.string "x"),
        .mk "ENABLE_LOGGING" true (.bool true)]) = .struct fields' ∧
      fieldAt fields' [1] = some (.mk "ENABLE_LOGGING" true (.bool true)) ∧
      ((none : Option GoError) = none ↔
        failuresBefore validatorRegistry (fun _ => "")
          [.mk "DB" true (.string "x"), .mk "ENABLE_LOGGING" true (.bool true)] [1] ++
        failuresAfter validatorRegistry (fun _ => "")
          [.mk "DB" true (.string "x"), .mk "ENABLE_LOGGING" true (.bool true)] [1] = []) := by
  obtain ⟨fields', h1, h2, h3, _⟩ :=
    ((C7_empty_value_is_skipped validatorRegistry (fun _ => "") (.bool true) "ENABLE_LOGGING").2
      "ENABLE_LOGGING" rfl rfl rfl).2.2 id
      [.mk "DB" true (.string "x"), .mk "ENABLE_LOGGING" true (.bool true)] [1]
      (.struct [.mk "DB" true (.string "x"), .mk "ENABLE_LOGGING" true (.bool true)])
      none rfl rfl
  exact ⟨fields', h1, h2, h3⟩

theorem setFieldValue_isLeaf (v : Value) (envName envValue : String) (hv : v.isLeaf = true) :
    (setFieldValue v envName envValue).1.isLeaf = true := by
  unfold setFieldValue
  split
  · exact hv
  · cases v with
    | string s => rfl
    | int n => dsimp only; split <;> rfl
    | bool b => dsimp only; split <;> rfl
    | other k c => rfl
    | struct fs => simp [Value.isLeaf] at hv

theorem eraseFieldTag_leaf (tag : String) (canSet : Bool) (v : Value) (hv : v.isLeaf = true) :
    eraseFieldTag (.mk tag canSet v) = .mk tag canSet v :=
  eraseFieldTag.eq_2 tag canSet v (isLeaf_not_struct hv)

theorem lookupField_erase_leaf (reg : Registry) (env : Env) (tag : String) (v : Value)
    (hv : v.isLeaf = true) (errs : Option GoError) :
    lookupField reg env (eraseFieldTag (.mk tag true v)) errs =
      match lookupField reg env (.mk tag true v) errs with
      | .error p => .error p
      | .ok (f', e) => .ok (eraseFieldTag f', e) := by
  rw [eraseFieldTag_leaf tag true v hv, lookupField_leaf reg env tag v errs hv]
  cases hp : parseEnvTag reg tag envSep with
  | error p => rfl
  | ok r =>
    obtain ⟨envName, validators⟩ := r
    by_cases hn : envName = ""
    · simp [hn, eraseFieldTag_leaf tag true v hv]
    · simp [hn, eraseFieldTag_leaf tag true _ (setFieldValue_isLeaf v envName (env envName) hv)]

mutual
theorem lookupField_erase (reg : Registry) (env : Env) :
    ∀ (f : Field) (errs : Option GoError),
      lookupField reg env (eraseFieldTag f) errs =
        match lookupField reg env f errs with
        | .error p => .error p
        | .ok (f', e) => .ok (eraseFieldTag f', e)
  | .mk tag false (.struct sub), errs => by simp [eraseFieldTag, lookupField]
  | .mk tag false (.string s), errs => by simp [eraseFieldTag, lookupField]
  | .mk tag false (.int s), errs => by simp [eraseFieldTag, lookupField]
  | .mk tag false (.bool s), errs => by simp [eraseFieldTag, lookupField]
  | .mk tag false (.other k c), errs => by simp [eraseFieldTag, lookupField]
  | .mk tag true (.struct sub), errs => by
    have ih := lookupFields_erase reg env sub none
    rw [eraseFieldTag, lookupField, lookupField, ih]
    cases lookupFields reg env sub none with
    | error p => rfl
    | ok r => simp [eraseFieldTag]
  | .mk tag true (.string s), errs => lookupField_erase_leaf reg env tag (.string s) rfl errs
  | .mk tag true (.int s), errs => lookupField_erase_leaf reg env tag (.int s) rfl errs
  | .mk tag true (.bool s), errs => lookupField_erase_leaf reg env tag (.bool s) rfl errs
  | .mk tag true (.other k c), errs => lookupField_erase_leaf reg env tag (.other k c) rfl errs
theorem lookupFields_erase (reg : Registry) (env : Env) :
    ∀ (fields : List Field) (errs : Option GoError),
      lookupFields reg env (eraseStructTags fields) errs =
        match lookupFields reg env fields errs with
        | .error p => .error p
        | .ok (fields', e) => .ok (eraseStructTags fields', e)
  | [], errs => by simp [eraseStructTags, lookupFields]
  | f :: rest, errs => by
    have ihf := lookupField_erase reg env f errs
    rw [eraseStructTags, lookupFields, lookupFields, ihf]
    cases lookupField reg env f errs with
    | error p => rfl
    | ok r =>
      obtain ⟨f', e1⟩ := r
      have ih := lookupFields_erase reg env rest e1
      simp only [ih]
      cases lookupFields reg env rest e1 with
      | error p => rfl
      | ok r2 => simp [eraseStructTags]
end

theorem Lookup_struct_ok {reg : Registry} {env : Env} {fields : List Field} {v' : Value}
    {err : Option GoError} (h : Lookup reg env (.struct fields) = .ok (v', err)) :
    ∃ fields', v' = .struct fields' ∧ lookupFields reg env fields none = .ok (fields', err) := by
  simp only [Lookup, lookupValue] at h
  cases hl : lookupFields reg env fields none with
  | error p => simp [hl] at h
  | ok r =>
    obtain ⟨fields', e⟩ := r
    simp only [hl, Except.ok.injEq, Prod.mk.injEq] at h
    exact ⟨fields', h.1.symm, by rw [h.2]⟩

theorem Lookup_erase (reg : Registry) (env : Env) (fields : List Field) :
    match Lookup reg env (.struct fields) with
    | .error p => Lookup reg env (.struct (eraseStructTags fields)) = .error p
    | .ok (v', err) => ∃ fields', v' = .struct fields' ∧
        Lookup reg env (.struct (eraseStructTags fields))
          = .ok (.struct (eraseStructTags fields'), err) := by
  have h := lookupFields_erase reg env fields none
  simp only [Lookup, lookupValue, h]
  cases lookupFields reg env fields none with
  | error p => rfl
  | ok r => exact ⟨r.1, rfl, rfl⟩

/-- C10: the outcome of `Lookup` does not depend on the annotations of
nested-structure fields: erasing them changes neither the error nor the values,
two structures that differ only in such annotations get the same error and the
same values, one loop iteration on a settable nested structure gives the same
result under any annotation, a nested leaf is bound from the variable named in
its own annotation, and a nested `HOST,required` leaf under a parent tagged
`WEB` reports "HOST is required". -/
theorem C10_nested_annotation_ignored (quote : String → String) (reg : Registry) (env : Env)
    (fields : List Field) :
    (match Lookup reg env (.struct fields) with
      | .error p => Lookup reg env (.struct (eraseStructTags fields)) = .error p
      | .ok (v', err) => ∃ fields', v' = .struct fields' ∧
          Lookup reg env (.struct (eraseStructTags fields))
            = .ok (.struct (eraseStructTags fields'), err)) ∧
    (∀ fields2 : List Field, eraseStructTags fields = eraseStructTags fields2 →
      match Lookup reg env (.struct fields) with
      | .error p => Lookup reg env (.struct fields2) = .error p
      | .ok (v', err) => ∃ a b, v' = .struct a ∧
          Lookup reg env (.struct fields2) = .ok (.struct b, err) ∧
          eraseStructTags a = eraseStructTags b) ∧
    (∀ (tag tag' : String) (sub : List Field) (errs : Option GoError),
      lookupField reg env (.mk tag' true (.struct sub)) errs =
        match lookupField reg env (.mk tag true (.struct sub)) errs with
        | .error p => .error p
        | .ok (f', e) => .ok (.mk tag' true f'.value, e)) ∧
    (∀ (path : List Nat) (tag : String) (v : Value) (envName : String)
        (validators : List Validator) (v' : Value) (err : Option GoError),
      fieldAt fields path = some (.mk tag true v) → v.isLeaf = true →
      parseEnvTag reg tag envSep = .ok (envName, validators) → envName ≠ "" →
      Lookup reg env (.struct fields) = .ok (v', err) →
      ∃ fields', v' = .struct fields' ∧
        fieldAt fields' path = some (.mk tag true (setFieldValue v envName (env envName)).1)) ∧
    (∃ e, Lookup validatorRegistry (fun _ => "")
        (.struct [.mk "WEB" true (.struct [.mk "HOST,required" true (.string "")])])
        = .ok (.struct [.mk "WEB" true (.struct [.mk "HOST,required" true (.string "")])],
            some e) ∧
      e.Error quote = "HOST is required") := by
  refine ⟨Lookup_erase reg env fields, ?_, ?_, ?_, ?_⟩
  · intro fields2 heq
    have h1 := Lookup_erase reg env fields
    have h2 := Lookup_erase reg env fields2
    rw [← heq] at h2
    cases hl : Lookup reg env (.struct fields) with
    | error p =>
      rw [hl] at h1
      cases hl2 : Lookup reg env (.struct fields2) with
      | error q =>
        rw [hl2] at h2
        simp only at h1 h2 ⊢
        rw [h1] at h2
        exact h2.symm
      | ok r =>
        rw [hl2] at h2
        obtain ⟨b, _, hb⟩ := h2
        simp only at h1
        rw [h1] at hb
        cases hb
    | ok r =>
      obtain ⟨v', err⟩ := r
      rw [hl] at h1
      obtain ⟨a, ha, hla⟩ := h1
      cases hl2 : Lookup reg env (.struct fields2) with
      | error q =>
        rw [hl2] at h2
        simp only at h2
        rw [hla] at h2
        cases h2
      | ok r2 =>
        obtain ⟨v2, err2⟩ := r2
        rw [hl2] at h2
        obtain ⟨b, hb, hlb⟩ := h2
        rw [hla] at hlb
        simp only [Except.ok.injEq, Prod.mk.injEq, Value.struct.injEq] at hlb
        refine ⟨a, b, ha, ?_, hlb.1⟩
        rw [hb, hlb.2]
  · intro tag tag' sub errs
    rw [lookupField, lookupField]
    cases lookupFields reg env sub none with
    | error p => rfl
    | ok r => rfl
  · intro path tag v envName validators v' err hf hv hp hn hl
    obtain ⟨fields', f', own, h1, h2, h3, _⟩ := Lookup_fieldAt quote reg env hl hf
    rw [walkField_leaf reg env tag v hv, hp] at h2
    simp only [hn, if_false, Except.ok.injEq, Prod.mk.injEq] at h2
    exact ⟨fields', h1, by rw [h3, ← h2.1]⟩
  · exact ⟨_, rfl, rfl⟩

theorem C10_nested_annotation_ignored_witness :
    (∃ a b, Value.struct [.mk "WEB" true (.struct [.mk "HOST" true (.string "0.0.0.0")])]
        = .struct a ∧
      Lookup validatorRegistry (fun k => if k = "HOST" then "0.0.0.0" else "")
        (.struct [.mk "-" true (.struct [.mk "HOST" true (.string "")])])
        = .ok (.struct b, none) ∧
      eraseStructTags a = eraseStructTags b) ∧
    (∃ fields', Value.struct [.mk "WEB" true (.struct [.mk "HOST" true (.string "0.0.0.0")])]
        = .struct fields' ∧
      fieldAt fields' [0, 0] = some (.mk "HOST" true
        (setFieldValue (.string "") "HOST" "0.0.0.0").1)) :=
  ⟨(C10_nested_annotation_ignored id validatorRegistry
      (fun k => if k = "HOST" then "0.0.0.0" else "")
      [.mk "WEB" true (.struct [.mk "HOST" true (.string "")])]).2.1
      [.mk "-" true (.struct [.mk "HOST" true (.string "")])] rfl,
   (C10_nested_annotation_ignored id validatorRegistry
      (fun k => if k = "HOST" then "0.0.0.0" else "")
      [.mk "WEB" true (.struct [.mk "HOST" true (.string "")])]).2.2.2.1
      [0, 0] "HOST" (.string "") "HOST" [] _ none rfl rfl rfl (by decide) rfl⟩

theorem drop_length_succ_append (a b : List Char) (c : Char) :
    List.drop (a.length + 1) (a ++ c :: b) = b := by
  induction a with
  | nil => rfl
  | cons x xs ih => simp

theorem take_length_append (a b : List Char) : List.take a.length (a ++ b) = a := by
  induction a with
  | nil => rfl
  | cons x xs ih => simp

theorem parseEnvTag_required (reg : Registry) (envName : String)
    (hreg : reg requiredFlag = some (some newRequiredValidator))
    (hsep : ',' ∉ envName.data) :
    parseEnvTag reg (envName ++ ",required") envSep = .ok (envName, [.requiredValidator]) := by
  have hdata : (envName ++ ",required").data = envName.data ++ ',' :: "required".data := by
    rw [String.data_append]
  have h1 : envName ++ ",required" ≠ "-" := by
    intro h
    have := congrArg (fun s => s.data.length) h
    simp [hdata] at this
  have h2 : envName ++ ",required" ≠ "" := by
    intro h
    have := congrArg (fun s => s.data.length) h
    simp [hdata] at this
  have hidx : stringsIndex (envName ++ ",required") envSep = some envName.data.length := by
    unfold stringsIndex
    rw [hdata]
    have := indexChars_append ',' envName.data "required".data 0 hsep
    simpa using this
  have hsplit : stringsSplit "required" envSep = ["required"] := by decide
  have hfind : FindStringSubmatch "required" = some ("required", "") := by decide
  have hopt : parseOptions reg ["required"] [] = .ok [.requiredValidator] := by
    have hreg' : reg "required" = some (some newRequiredValidator) := hreg
    simp [parseOptions, hfind, hreg', ValidatorFactory.call, newRequiredValidator]
  have hlen : envSep.data.length = 1 := rfl
  have hopts : (⟨List.drop (envName.data.length + envSep.data.length)
      (envName ++ ",required").data⟩ : String) = "required" := by
    rw [hlen, hdata, drop_length_succ_append]
  have hname : (⟨List.take envName.data.length (envName ++ ",required").data⟩ : String)
      = envName := by
    rw [hdata, take_length_append]
  unfold parseEnvTag
  simp only [h1, h2, or_self, if_false, hidx, hopts, hname, hsplit, hopt]

theorem foldl_digits_ge (cs : List Char) (n : Nat) :
    n ≤ cs.foldl (fun n c => 10 * n + (c.toNat - '0'.toNat)) n := by
  induction cs generalizing n with
  | nil => exact Nat.le_refl _
  | cons c cs ih =>
    simp only [List.foldl_cons]
    have := ih (10 * n + (c.toNat - '0'.toNat))
    omega

theorem digit_le_nine (c : Char) (h : '0' ≤ c ∧ c ≤ '9') : c.toNat - '0'.toNat ≤ 9 := by
  have h2 : c.toNat ≤ '9'.toNat := h.2
  have h3 : '9'.toNat = 57 := rfl
  have h4 : '0'.toNat = 48 := rfl
  omega

/-- The digit loop of `ParseUint` computes the decimal value when all
characters are digits and the value fits in 64 bits, and reports an error
otherwise. -/
theorem parseUintLoop_spec (cs : List Char) :
    ∀ n : Nat, n ≤ maxUint64 →
      ((parseUintLoop cs n).2 = none →
        cs.all (fun c => decide ('0' ≤ c ∧ c ≤ '9')) = true ∧
        (parseUintLoop cs n).1 = cs.foldl (fun n c => 10 * n + (c.toNat - '0'.toNat)) n ∧
        cs.foldl (fun n c => 10 * n + (c.toNat - '0'.toNat)) n ≤ maxUint64) ∧
      ((parseUintLoop cs n).2 = some .ErrSyntax →
        cs.all (fun c => decide ('0' ≤ c ∧ c ≤ '9')) = false) ∧
      ((parseUintLoop cs n).2 = some .ErrRange →
        (parseUintLoop cs n).1 = maxUint64 ∧
        (cs.all (fun c => decide ('0' ≤ c ∧ c ≤ '9')) = true →
          maxUint64 < cs.foldl (fun n c => 10 * n + (c.toNat - '0'.toNat)) n)) := by
  induction cs with
  | nil => intro n hn; simp [parseUintLoop, hn]
  | cons c cs ih =>
    intro n hn
    have hmax : maxUint64 = 18446744073709551615 := by norm_num [maxUint64]
    by_cases hc : '0' ≤ c ∧ c ≤ '9'
    · have hd := digit_le_nine c hc
      have hge := foldl_digits_ge cs (10 * n + (c.toNat - '0'.toNat))
      by_cases h1 : n ≥ maxUint64 / 10 + 1
      · have hr : parseUintLoop (c :: cs) n = (maxUint64, some .ErrRange) := by
          simp only [parseUintLoop, hc, and_self, if_true, h1]
        rw [hr]
        refine ⟨by simp, by simp, fun _ => ⟨rfl, fun _ => ?_⟩⟩
        simp only [List.foldl_cons]
        rw [hmax] at h1 ⊢
        omega
      · by_cases h2 : (n * 10 % 2 ^ 64 + (c.toNat - '0'.toNat)) % 2 ^ 64 < n * 10 % 2 ^ 64 ∨
            (n * 10 % 2 ^ 64 + (c.toNat - '0'.toNat)) % 2 ^ 64 > maxUint64
        · have hr : parseUintLoop (c :: cs) n = (maxUint64, some .ErrRange) := by
            simp only [parseUintLoop, hc, and_self, if_true, h1, if_false, h2]
          rw [hr]
          refine ⟨by simp, by simp, fun _ => ⟨rfl, fun _ => ?_⟩⟩
          simp only [List.foldl_cons]
          rw [hmax] at h1 h2 ⊢
          norm_num at h2
          omega
        · have hr : parseUintLoop (c :: cs) n
              = parseUintLoop cs (10 * n + (c.toNat - '0'.toNat)) := by
            have e : (n * 10 % 2 ^ 64 + (c.toNat - '0'.toNat)) % 2 ^ 64
                = 10 * n + (c.toNat - '0'.toNat) := by
              rw [hmax] at h1 h2
              norm_num at h2 ⊢
              omega
            rw [parseUintLoop]
            simp only [hc, and_self, if_true, h1, if_false, h2]
            rw [e]
          have hb : 10 * n + (c.toNat - '0'.toNat) ≤ maxUint64 := by
            rw [hmax] at h1 h2 ⊢
            norm_num at h2
            omega
          have := ih _ hb
          rw [hr]
          simpa [List.all_cons, hc] using this
    · have hr : parseUintLoop (c :: cs) n = (0, some .ErrSyntax) := by
        rw [parseUintLoop]
        simp only [hc, if_false]
      rw [hr]
      refine ⟨by simp, fun _ => ?_, by simp⟩
      simp [List.all_cons, hc]

theorem ParseUint_spec (cs : List Char) :
    ((ParseUint cs).2 = none →
      cs ≠ [] ∧ cs.all (fun c => decide ('0' ≤ c ∧ c ≤ '9')) = true ∧
      (ParseUint cs).1 = decimalValue cs ∧ decimalValue cs ≤ maxUint64) ∧
    ((ParseUint cs).2 = some .ErrSyntax →
      cs = [] ∨ cs.all (fun c => decide ('0' ≤ c ∧ c ≤ '9')) = false) ∧
    ((ParseUint cs).2 = some .ErrRange →
      (ParseUint cs).1 = maxUint64 ∧
      (cs.all (fun c => decide ('0' ≤ c ∧ c ≤ '9')) = true → maxUint64 < decimalValue cs)) := by
  by_cases h : cs = []
  · subst h
    simp [ParseUint]
  · have := parseUintLoop_spec cs 0 (Nat.zero_le _)
    simp only [ParseUint, h, if_false, decimalValue]
    refine ⟨fun h1 => ⟨h, this.1 h1⟩, fun h1 => Or.inr (this.2.1 h1), this.2.2⟩

/-- The part of `ParseInt` after the sign has been split off agrees with the
literal it denotes. -/
theorem parseInt_core (s : String) (neg : Bool) (body : List Char) :
    (∀ n : Int,
      (if body ≠ [] ∧ body.all (fun c => decide ('0' ≤ c ∧ c ≤ '9')) = true then
        (if -(2 : Int) ^ 63 ≤ (if neg = true then -(decimalValue body : Int) else (decimalValue body : Int)) ∧
            (if neg = true then -(decimalValue body : Int) else (decimalValue body : Int)) ≤ (2 : Int) ^ 63 - 1
          then some (if neg = true then -(decimalValue body : Int) else (decimalValue body : Int))
          else none)
        else none) = some n →
      (match ParseUint body with
        | (_, some .ErrSyntax) => Except.error (GoError.numError "ParseInt" s .ErrSyntax)
        | (un, _) =>
          if ¬ neg = true ∧ un ≥ 2 ^ 63 then .error (.numError "ParseInt" s .ErrRange)
          else if neg = true ∧ un > 2 ^ 63 then .error (.numError "ParseInt" s .ErrRange)
          else if neg = true then .ok (-(un : Int)) else .ok (un : Int)) = .ok n) ∧
    ((if body ≠ [] ∧ body.all (fun c => decide ('0' ≤ c ∧ c ≤ '9')) = true then
        (if -(2 : Int) ^ 63 ≤ (if neg = true then -(decimalValue body : Int) else (decimalValue body : Int)) ∧
            (if neg = true then -(decimalValue body : Int) else (decimalValue body : Int)) ≤ (2 : Int) ^ 63 - 1
          then some (if neg = true then -(decimalValue body : Int) else (decimalValue body : Int))
          else none)
        else none) = none →
      ∃ k, (match ParseUint body with
        | (_, some .ErrSyntax) => Except.error (GoError.numError "ParseInt" s .ErrSyntax)
        | (un, _) =>
          if ¬ neg = true ∧ un ≥ 2 ^ 63 then .error (.numError "ParseInt" s .ErrRange)
          else if neg = true ∧ un > 2 ^ 63 then .error (.numError "ParseInt" s .ErrRange)
          else if neg = true then .ok (-(un : Int)) else .ok (un : Int))
        = .error (.numError "ParseInt" s k)) := by
  have hspec := ParseUint_spec body
  have hmax : maxUint64 = 18446744073709551615 := by norm_num [maxUint64]
  rcases hr : ParseUint body with ⟨un, kind⟩
  rw [hr] at hspec
  simp only at hspec
  cases kind with
  | none =>
    obtain ⟨hne, hall, hun, hle⟩ := hspec.1 rfl
    simp only [hne, hall, ne_eq, not_false_eq_true, and_self, if_true]
    subst hun
    cases neg with
    | false =>
      simp only [Bool.false_eq_true, if_false, not_false_eq_true, true_and, false_and]
      by_cases hb : decimalValue body ≥ 2 ^ 63
      · have hc : ¬ (-(2 : Int) ^ 63 ≤ (decimalValue body : Int) ∧
            (decimalValue body : Int) ≤ 2 ^ 63 - 1) := by omega
        simp only [if_pos hb, if_neg hc]
        exact ⟨fun n h => by simp at h, fun _ => ⟨_, rfl⟩⟩
      · have hc : (-(2 : Int) ^ 63 ≤ (decimalValue body : Int) ∧
            (decimalValue body : Int) ≤ 2 ^ 63 - 1) := by omega
        simp only [if_neg hb, if_pos hc]
        exact ⟨fun n h => by simpa using h, fun h => by simp at h⟩
    | true =>
      simp only [if_true, not_true_eq_false, false_and, true_and, if_false]
      by_cases hb : decimalValue body > 2 ^ 63
      · have hc : ¬ (-(2 : Int) ^ 63 ≤ -(decimalValue body : Int) ∧
            -(decimalValue body : Int) ≤ 2 ^ 63 - 1) := by omega
        simp only [if_pos hb, if_neg hc]
        exact ⟨fun n h => by simp at h, fun _ => ⟨_, rfl⟩⟩
      · have hc : (-(2 : Int) ^ 63 ≤ -(decimalValue body : Int) ∧
            -(decimalValue body : Int) ≤ 2 ^ 63 - 1) := by omega
        simp only [if_neg hb, if_pos hc]
        exact ⟨fun n h => by simpa using h, fun h => by simp at h⟩
  | some k =>
    cases k with
    | ErrSyntax =>
      have := hspec.2.1 rfl
      have hcond : ¬ (body ≠ [] ∧ body.all (fun c => decide ('0' ≤ c ∧ c ≤ '9')) = true) := by
        intro hc
        rcases this with h | h
        · exact hc.1 h
        · have := hc.2
          rw [h] at this
          cases this
      simp only [hcond, if_false]
      exact ⟨by simp, fun _ => ⟨_, rfl⟩⟩
    | ErrRange =>
      obtain ⟨hun, hbig⟩ := hspec.2.2 rfl
      subst hun
      have hsp : (if body ≠ [] ∧ body.all (fun c => decide ('0' ≤ c ∧ c ≤ '9')) = true then
          (if -(2 : Int) ^ 63 ≤ (if neg = true then -(decimalValue body : Int) else (decimalValue body : Int)) ∧
              (if neg = true then -(decimalValue body : Int) else (decimalValue body : Int)) ≤ (2 : Int) ^ 63 - 1
            then some (if neg = true then -(decimalValue body : Int) else (decimalValue body : Int))
            else none)
          else none) = none := by
        by_cases hout : body ≠ [] ∧ body.all (fun c => decide ('0' ≤ c ∧ c ≤ '9')) = true
        · have hb := hbig hout.2
          rw [hmax] at hb
          rw [if_pos hout]
          cases neg with
          | false =>
            simp only [Bool.false_eq_true, if_false]
            have hc : ¬ (-(2 : Int) ^ 63 ≤ (decimalValue body : Int) ∧
                (decimalValue body : Int) ≤ 2 ^ 63 - 1) := by omega
            rw [if_neg hc]
          | true =>
            simp only [if_true]
            have hc : ¬ (-(2 : Int) ^ 63 ≤ -(decimalValue body : Int) ∧
                -(decimalValue body : Int) ≤ 2 ^ 63 - 1) := by omega
            rw [if_neg hc]
        · rw [if_neg hout]
      rw [hsp]
      refine ⟨by simp, fun _ => ⟨.ErrRange, ?_⟩⟩
      cases neg with
      | false => simp [hmax]
      | true => simp [hmax]

/-- `ParseInt` accepts exactly the integer literals in the signed 64-bit
range and returns the integer denoted; otherwise it returns a `NumError`. -/
theorem ParseInt_spec (s : String) :
    (∀ n : Int, intLiteral s = some n → ParseInt s = .ok n) ∧
    (intLiteral s = none → ∃ k, ParseInt s = .error (.numError "ParseInt" s k)) := by
  rcases s with ⟨cs⟩
  cases cs with
  | nil => simp [ParseInt, intLiteral]
  | cons c cs =>
    by_cases h1 : c = '+'
    · subst h1
      have := parseInt_core ⟨'+' :: cs⟩ false cs
      simpa [ParseInt, intLiteral] using this
    · by_cases h2 : c = '-'
      · subst h2
        have := parseInt_core ⟨'-' :: cs⟩ true cs
        simpa [ParseInt, intLiteral] using this
      · have := parseInt_core ⟨c :: cs⟩ false (c :: cs)
        have hm : (match c :: cs with
            | '+' :: r => r
            | '-' :: r => r
            | r => r) = c :: cs := by
          split
          · next heq => simp at heq; exact absurd heq.1 h1
          · next heq => simp at heq; exact absurd heq.1 h2
          · rfl
        simp only [ParseInt, intLiteral, hm]
        simpa [h1, h2] using this

theorem ParseBool_spec (s : String) :
    ParseBool s = match boolLiteral s with
      | some b => .ok b
      | none => .error (.numError "ParseBool" s .ErrSyntax) := by
  unfold ParseBool boolLiteral
  by_cases h1 : s = "1" ∨ s = "t" ∨ s = "T" ∨ s = "TRUE" ∨ s = "true" ∨ s = "True"
  · have h1' : s ∈ ["1", "t", "T", "true", "TRUE", "True"] := by
      simp only [List.mem_cons, List.mem_singleton, List.not_mem_nil, or_false]
      tauto
    simp only [h1, h1', if_true]
  · have h1' : ¬ s ∈ ["1", "t", "T", "true", "TRUE", "True"] := by
      simp only [List.mem_cons, List.mem_singleton, List.not_mem_nil, or_false]
      tauto
    by_cases h2 : s = "0" ∨ s = "f" ∨ s = "F" ∨ s = "FALSE" ∨ s = "false" ∨ s = "False"
    · have h2' : s ∈ ["0", "f", "F", "false", "FALSE", "False"] := by
        simp only [List.mem_cons, List.mem_singleton, List.not_mem_nil, or_false]
        tauto
      simp only [h1, h1', h2, h2', if_true, if_false]
    · have h2' : ¬ s ∈ ["0", "f", "F", "false", "FALSE", "False"] := by
        simp only [List.mem_cons, List.mem_singleton, List.not_mem_nil, or_false]
        tauto
      simp only [h1, h1', h2, h2', if_false]

/-- C6: for an int or a bool field and a non-empty raw value, `setFieldValue`
(a total function: no panic) stores the parsed value and returns no error when
the raw value is a valid literal of the kind, and otherwise leaves the field
unchanged and returns an error whose text starts with
"error parsing int for <envName>: ", respectively "error parsing bool for
<envName>: ". -/
theorem C6_int_bool_coercion (quote : String → String) (envName raw : String)
    (hraw : raw ≠ "") :
    (∀ old : Int,
      match intLiteral raw with
      | some n => setFieldValue (.int old) envName raw = (.int n, none)
      | none => ∃ e, setFieldValue (.int old) envName raw = (.int old, some e) ∧
          ∃ rest, e.Error quote = "error parsing int for " ++ envName ++ ": " ++ rest) ∧
    (∀ old : Bool,
      match boolLiteral raw with
      | some b => setFieldValue (.bool old) envName raw = (.bool b, none)
      | none => ∃ e, setFieldValue (.bool old) envName raw = (.bool old, some e) ∧
          ∃ rest, e.Error quote = "error parsing bool for " ++ envName ++ ": " ++ rest) := by
  constructor
  · intro old
    have hs := ParseInt_spec raw
    cases hl : intLiteral raw with
    | some n =>
      have := hs.1 n hl
      simp [setFieldValue, hraw, this]
    | none =>
      obtain ⟨k, hk⟩ := hs.2 hl
      refine ⟨.wrapError ("error parsing int for " ++ envName ++ ": ")
          (.numError "ParseInt" raw k),
        by simp only [setFieldValue, hraw, if_false, hk],
        (GoError.numError "ParseInt" raw k).Error quote, ?_⟩
      simp only [GoError.Error]
  · intro old
    have hs := ParseBool_spec raw
    cases hl : boolLiteral raw with
    | some b =>
      rw [hl] at hs
      simp [setFieldValue, hraw, hs]
    | none =>
      rw [hl] at hs
      refine ⟨.wrapError ("error parsing bool for " ++ envName ++ ": ")
          (.numError "ParseBool" raw .ErrSyntax),
        by simp only [setFieldValue, hraw, if_false, hs],
        (GoError.numError "ParseBool" raw .ErrSyntax).Error quote, ?_⟩
      simp only [GoError.Error]

theorem C6_int_bool_coercion_witness :
    ((∀ old : Int, ∃ e, setFieldValue (.int old) "PORT" "abc" = (.int old, some e) ∧
        ∃ rest, e.Error id = "error parsing int for " ++ "PORT" ++ ": " ++ rest) ∧
      (∀ old : Bool, ∃ e, setFieldValue (.bool old) "PORT" "abc" = (.bool old, some e) ∧
        ∃ rest, e.Error id = "error parsing bool for " ++ "PORT" ++ ": " ++ rest)) ∧
    ((∀ old : Int, setFieldValue (.int old) "PORT" "-8080" = (.int (-8080), none)) ∧
      (∀ old : Bool, ∃ e, setFieldValue (.bool old) "PORT" "-8080" = (.bool old, some e) ∧
        ∃ rest, e.Error id = "error parsing bool for " ++ "PORT" ++ ": " ++ rest)) ∧
    ((∀ old : Int, ∃ e, setFieldValue (.int old) "ON" "True" = (.int old, some e) ∧
        ∃ rest, e.Error id = "error parsing int for " ++ "ON" ++ ": " ++ rest) ∧
      (∀ old : Bool, setFieldValue (.bool old) "ON" "True" = (.bool true, none))) :=
  ⟨C6_int_bool_coercion id "PORT" "abc" (by decide),
   C6_int_bool_coercion id "PORT" "-8080" (by decide),
   C6_int_bool_coercion id "ON" "True" (by decide)⟩

theorem rdropWhile_append_rtakeWhile (p : Char → Bool) (l : List Char) :
    l.rdropWhile p ++ l.rtakeWhile p = l := by
  unfold List.rdropWhile List.rtakeWhile
  rw [← List.reverse_append, List.takeWhile_append_dropWhile, List.reverse_reverse]

theorem trimmed_head (p : Char → Bool) (l : List Char) (c : Char)
    (h : ((l.dropWhile p).rdropWhile p).head? = some c) : p c = false := by
  obtain ⟨r, hr⟩ := List.rdropWhile_prefix p (l := l.dropWhile p)
  cases ht : (l.dropWhile p).rdropWhile p with
  | nil => rw [ht] at h; simp at h
  | cons x xs =>
    rw [ht] at h hr
    simp only [List.head?_cons, Option.some.injEq] at h
    subst h
    have hne : l.dropWhile p ≠ [] := by rw [← hr]; simp
    have := List.head_dropWhile_not p l hne
    have hh : (l.dropWhile p).head hne = x := by
      simp only [← hr, List.cons_append, List.head_cons]
    rw [hh] at this
    exact this

theorem trimmed_last (p : Char → Bool) (l : List Char) (c : Char)
    (h : ((l.dropWhile p).rdropWhile p).getLast? = some c) : p c = false := by
  have hne : (l.dropWhile p).rdropWhile p ≠ [] := by
    intro hnil
    rw [hnil] at h
    simp at h
  have := List.rdropWhile_last_not p (l.dropWhile p) hne
  rw [List.getLast?_eq_getLast _ hne] at h
  simp only [Option.some.injEq] at h
  rw [h] at this
  simpa using this

theorem dropWhile_eq_self_of_head (p : Char → Bool) (l : List Char)
    (h : ∀ c, l.head? = some c → p c = false) : l.dropWhile p = l := by
  cases l with
  | nil => rfl
  | cons x xs =>
    have := h x rfl
    simp [List.dropWhile, this]

theorem rdropWhile_eq_self_of_last (p : Char → Bool) (l : List Char)
    (h : ∀ c, l.getLast? = some c → p c = false) : l.rdropWhile p = l := by
  rw [List.rdropWhile_eq_self_iff]
  intro hl
  have := h (l.getLast hl) (List.getLast?_eq_getLast _ hl)
  simp [this]

/-- C8: for a string field and a non-empty raw value, `setFieldValue` returns
no error and stores the raw value without its leading and trailing white
space: the raw value is white space, then the stored text, then white space,
and the stored text neither starts nor ends with white space; trimming again
changes nothing, and a raw value that neither starts nor ends with white space
is stored as it is. -/
theorem C8_string_is_trimmed (envName raw old : String) (hraw : raw ≠ "") :
    setFieldValue (.string old) envName raw = (.string (TrimSpace raw), none) ∧
    (∃ pre post : List Char, raw.data = pre ++ (TrimSpace raw).data ++ post ∧
      (∀ c ∈ pre, unicodeIsSpace c = true) ∧ (∀ c ∈ post, unicodeIsSpace c = true)) ∧
    (∀ c, (TrimSpace raw).data.head? = some c → unicodeIsSpace c = false) ∧
    (∀ c, (TrimSpace raw).data.getLast? = some c → unicodeIsSpace c = false) ∧
    TrimSpace (TrimSpace raw) = TrimSpace raw ∧
    ((∀ c, raw.data.head? = some c → unicodeIsSpace c = false) →
      (∀ c, raw.data.getLast? = some c → unicodeIsSpace c = false) →
      setFieldValue (.string old) envName raw = (.string raw, none)) := by
  have hset : setFieldValue (.string old) envName raw = (.string (TrimSpace raw), none) := by
    simp [setFieldValue, hraw]
  refine ⟨hset, ?_, ?_, ?_, ?_, ?_⟩
  · refine ⟨raw.data.takeWhile unicodeIsSpace,
      (raw.data.dropWhile unicodeIsSpace).rtakeWhile unicodeIsSpace, ?_, ?_, ?_⟩
    · simp only [TrimSpace, List.append_assoc]
      rw [rdropWhile_append_rtakeWhile, List.takeWhile_append_dropWhile]
    · intro c hc
      exact List.mem_takeWhile_imp hc
    · intro c hc
      exact List.mem_rtakeWhile_imp hc
  · intro c hc
    exact trimmed_head unicodeIsSpace raw.data c hc
  · intro c hc
    exact trimmed_last unicodeIsSpace raw.data c hc
  · have h1 := dropWhile_eq_self_of_head unicodeIsSpace (TrimSpace raw).data
      (fun c hc => trimmed_head unicodeIsSpace raw.data c hc)
    show (⟨((TrimSpace raw).data.dropWhile unicodeIsSpace).rdropWhile unicodeIsSpace⟩ : String)
      = TrimSpace raw
    rw [h1]
    simp only [TrimSpace, List.rdropWhile_idempotent]
  · intro hh hl
    rw [hset]
    have h1 := dropWhile_eq_self_of_head unicodeIsSpace raw.data hh
    have h2 := rdropWhile_eq_self_of_last unicodeIsSpace raw.data hl
    simp only [TrimSpace, h1, h2]

theorem C8_string_is_trimmed_witness :
    setFieldValue (.string "") "HOST" "  \t0.0.0.0 \n" = (.string (TrimSpace "  \t0.0.0.0 \n"), none) ∧
    TrimSpace "  \t0.0.0.0 \n" = "0.0.0.0" ∧
    TrimSpace (TrimSpace "  \t0.0.0.0 \n") = TrimSpace "  \t0.0.0.0 \n" :=
  ⟨(C8_string_is_trimmed "HOST" "  \t0.0.0.0 \n" "" (by decide)).1, by decide,
   (C8_string_is_trimmed "HOST" "  \t0.0.0.0 \n" "" (by decide)).2.2.2.2.1⟩

theorem first_occurrence (c : Char) :
    ∀ s : List Char, c ∈ s → ∃ a b, s = a ++ c :: b ∧ c ∉ a
  | [], h => by simp at h
  | x :: xs, h => by
    by_cases hx : c = x
    · exact ⟨[], xs, by simp [hx], by simp⟩
    · have hm : c ∈ xs := by
        rcases List.mem_cons.1 h with h | h
        · exact absurd h hx
        · exact h
      obtain ⟨a, b, h1, h2⟩ := first_occurrence c xs hm
      refine ⟨x :: a, b, by simp [h1], ?_⟩
      intro hc
      rcases List.mem_cons.1 hc with hc | hc
      · exact hx hc
      · exact h2 hc

/-- The loop of `strings.Split` with a one-character separator computes the
runs between the occurrences of the separator. -/
theorem genSplit_eq_splitOn (c : Char) :
    ∀ (n : Nat) (s : List Char), s.length ≤ n → genSplit [c] n s = s.splitOn c := by
  intro n
  induction n with
  | zero =>
    intro s hs
    have : s = [] := List.length_eq_zero.1 (Nat.le_zero.1 hs)
    subst this
    rfl
  | succ n ih =>
    intro s hs
    by_cases hm : c ∈ s
    · obtain ⟨a, b, h1, h2⟩ := first_occurrence c s hm
      subst h1
      have hb : b.length ≤ n := by
        simp only [List.length_append, List.length_cons] at hs
        omega
      have hi := indexChars_append c a b 0 h2
      rw [genSplit, hi]
      simp only [Nat.zero_add, List.length_singleton]
      rw [take_length_append, drop_length_succ_append, ih b hb]
      symm
      exact List.splitOnP_first _ _ (fun x hx hh => h2 (by rw [← eq_of_beq hh]; exact hx)) c
        (by simp) b
    · rw [genSplit, indexChars_none c s 0 hm]
      symm
      exact List.splitOnP_eq_single _ _ (fun x hx hh => hm (by rw [← eq_of_beq hh]; exact hx))

theorem stringsSplit_space (args : String) : stringsSplit args " " = spaceSeparated args := by
  unfold stringsSplit spaceSeparated
  rw [if_neg (by decide)]
  rw [show (" " : String).data = [' '] from rfl, genSplit_eq_splitOn ' ' _ _ (Nat.le_refl _)]

/-- C5: the validator built by the `expectedValues` factory accepts a value
exactly when it is equal, as a string, to one of the entries obtained by
splitting the arguments on the single space character; otherwise its error is
the line `envName ++ " is unexpected value: " ++ value`.  The entries are the
only non-empty list of space-free strings that gives back the arguments when
joined by single spaces.  With arguments "a b c" the value "b" passes and the
values "d" and "B" are refused. -/
theorem C5_expected_values (quote : String → String) (args envName value : String) :
    validatorRegistry expectedValuesFlag = some (some newExpectedValueValidator) ∧
    newExpectedValueValidator args = .expectedValueValidator (spaceSeparated args) ∧
    ((newExpectedValueValidator args).Validate envName value = none ↔
      value ∈ spaceSeparated args) ∧
    (value ∉ spaceSeparated args →
      (newExpectedValueValidator args).Validate envName value
        = some (.errorString (envName ++ " is unexpected value: " ++ value))) ∧
    (∀ e, (newExpectedValueValidator args).Validate envName value = some e →
      e.Error quote = envName ++ " is unexpected value: " ++ value) ∧
    (∀ es : List String, es ≠ [] → (∀ e ∈ es, ' ' ∉ e.data) →
      args.data = [' '].intercalate (es.map String.data) → spaceSeparated args = es) ∧
    (newExpectedValueValidator "a b c").Validate envName "b" = none ∧
    (newExpectedValueValidator "a b c").Validate envName "d"
      = some (.errorString (envName ++ " is unexpected value: d")) ∧
    (newExpectedValueValidator "a b c").Validate envName "B"
      = some (.errorString (envName ++ " is unexpected value: B")) := by
  have hnew : newExpectedValueValidator args = .expectedValueValidator (spaceSeparated args) := by
    rw [newExpectedValueValidator, stringsSplit_space]
  refine ⟨rfl, hnew, ?_, ?_, ?_, ?_, ?_, ?_, ?_⟩
  · rw [hnew]
    by_cases h : value ∈ spaceSeparated args <;> simp [Validator.Validate, h]
  · intro h
    rw [hnew]
    simp [Validator.Validate, h]
  · intro e he
    rw [hnew] at he
    by_cases h : value ∈ spaceSeparated args
    · simp [Validator.Validate, h] at he
    · simp only [Validator.Validate, if_neg h, Option.some.injEq] at he
      subst he
      rfl
  · intro es hne hsp hjoin
    unfold spaceSeparated
    rw [hjoin, List.splitOn_intercalate _ ' ' (by
      intro l hl
      obtain ⟨e, he, rfl⟩ := List.mem_map.1 hl
      exact hsp e he) (by simpa using hne)]
    simp [List.map_map, Function.comp_def]
  · rw [show newExpectedValueValidator "a b c" = .expectedValueValidator ["a", "b", "c"] from
      rfl]
    simp [Validator.Validate]
  · rw [show newExpectedValueValidator "a b c" = .expectedValueValidator ["a", "b", "c"] from
      rfl]
    simp only [Validator.Validate]
    rw [if_neg (by decide), String.append_assoc]
    rfl
  · rw [show newExpectedValueValidator "a b c" = .expectedValueValidator ["a", "b", "c"] from
      rfl]
    simp only [Validator.Validate]
    rw [if_neg (by decide), String.append_assoc]
    rfl

theorem C5_expected_values_witness :
    "production" ∉ spaceSeparated "development  Production" ∧
    (newExpectedValueValidator "development  Production").Validate "ENV" "production"
      = some (.errorString "ENV is unexpected value: production") ∧
    (newExpectedValueValidator "development  Production").Validate "ENV" "" = none ∧
    spaceSeparated "development  Production" = ["development", "", "Production"] :=
  ⟨by decide,
   (C5_expected_values id "development  Production" "ENV" "production").2.2.2.1 (by decide),
   (C5_expected_values id "development  Production" "ENV" "").2.2.1.2 (by decide),
   (C5_expected_values id "development  Production" "ENV" "").2.2.2.2.2.1
     ["development", "", "Production"] (by decide) (by decide) (by decide)⟩

theorem setFieldValue_of_coerce (v w : Value) (envName raw : String) (hraw : raw ≠ "")
    (h : coerce v raw = some w) : setFieldValue v envName raw = (w, none) := by
  cases v with
  | string s =>
    simp only [coerce, Option.some.injEq] at h
    subst h
    simp [setFieldValue, hraw]
  | int n =>
    simp only [coerce, Option.map_eq_some'] at h
    obtain ⟨a, ha, rfl⟩ := h
    have := (ParseInt_spec raw).1 a ha
    simp [setFieldValue, hraw, this]
  | bool b =>
    simp only [coerce, Option.map_eq_some'] at h
    obtain ⟨a, ha, rfl⟩ := h
    have := ParseBool_spec raw
    rw [ha] at this
    simp [setFieldValue, hraw, this]
  | other k c => simp [coerce] at h
  | struct fs => simp [coerce] at h

/-- The walk of a leaf whose validators pass and whose value, when not empty,
denotes a value of the kind of the leaf: no failure, and the leaf holds the
denoted value, or its previous value when the name or the value is empty. -/
theorem walkField_leaf_ok (reg : Registry) (env : Env) (tag : String) (v : Value)
    (envName : String) (validators : List Validator) (hv : v.isLeaf = true)
    (hp : parseEnvTag reg tag envSep = .ok (envName, validators))
    (hval : envName ≠ "" →
      (∀ x ∈ validators, x.Validate envName (env envName) = none) ∧
      (env envName ≠ "" → (coerce v (env envName)).isSome = true)) :
    ∃ w, walkField reg env (.mk tag true v) = .ok (.mk tag true w, []) ∧
      ((envName = "" ∨ env envName = "") → w = v) ∧
      (envName ≠ "" → env envName ≠ "" → coerce v (env envName) = some w) := by
  rw [walkField_leaf reg env tag v hv, hp]
  by_cases hn : envName = ""
  · exact ⟨v, by simp [hn], fun _ => rfl, fun h => absurd hn h⟩
  · obtain ⟨hvals, hco⟩ := hval hn
    have hf : validators.filterMap (fun x => x.Validate envName (env envName)) = [] := by
      rw [List.filterMap_eq_nil_iff]
      exact hvals
    by_cases hr : env envName = ""
    · refine ⟨v, ?_, fun _ => rfl, fun _ h => absurd hr h⟩
      simp only [hn, if_false, hf, List.nil_append]
      simp [hr, setFieldValue]
    · obtain ⟨w, hw⟩ := Option.isSome_iff_exists.1 (hco hr)
      refine ⟨w, ?_, fun h => ?_, fun _ _ => hw⟩
      · simp [hn, hf, setFieldValue_of_coerce v w envName (env envName) hr hw]
      · rcases h with h | h
        · exact absurd h hn
        · exact absurd h hr

theorem fieldAt_cons_succ (f : Field) (rest : List Field) (i : Nat) (p : List Nat) :
    fieldAt (f :: rest) ((i + 1) :: p) = fieldAt rest (i :: p) := by
  cases p <;> simp [fieldAt]

theorem fieldAt_singleton {f x : Field} (rest : List Field) {path : List Nat}
    (h : fieldAt [f] path = some x) : fieldAt (f :: rest) path = some x := by
  match path, h with
  | [], h => simp [fieldAt] at h
  | [0], h => simpa [fieldAt] using h
  | [i + 1], h => simp [fieldAt] at h
  | 0 :: j :: p, h => simpa [fieldAt] using h
  | (i + 1) :: j :: p, h => simp [fieldAt] at h

theorem fieldAt_struct_zero (tag : String) (sub : List Field) {path : List Nat} {x : Field}
    (h : fieldAt sub path = some x) :
    fieldAt [.mk tag true (.struct sub)] (0 :: path) = some x := by
  match path, h with
  | [], h => simp [fieldAt] at h
  | j :: p, h => simpa [fieldAt] using h

mutual
theorem walkField_ok (reg : Registry) (env : Env) :
    ∀ (f : Field),
      (∀ path tag v, fieldAt [f] path = some (.mk tag true v) → v.isLeaf = true →
        ∃ w, walkField reg env (.mk tag true v) = .ok (.mk tag true w, [])) →
      ∃ f', walkField reg env f = .ok (f', [])
  | .mk tag false v, _ => ⟨_, by rw [walkField]⟩
  | .mk tag true (.struct sub), h => by
    obtain ⟨sub', hs⟩ := walkFields_ok reg env sub
      (fun path tag' v hf hv => h (0 :: path) tag' v (fieldAt_struct_zero tag sub hf) hv)
    exact ⟨_, by rw [walkField, hs]⟩
  | .mk tag true (.string s), h => by
    obtain ⟨w, hw⟩ := h [0] tag _ rfl rfl
    exact ⟨_, hw⟩
  | .mk tag true (.int s), h => by
    obtain ⟨w, hw⟩ := h [0] tag _ rfl rfl
    exact ⟨_, hw⟩
  | .mk tag true (.bool s), h => by
    obtain ⟨w, hw⟩ := h [0] tag _ rfl rfl
    exact ⟨_, hw⟩
  | .mk tag true (.other k c), h => by
    obtain ⟨w, hw⟩ := h [0] tag _ rfl rfl
    exact ⟨_, hw⟩
/-- When the walk of every leaf reached from a structure gives no failure, so
does the walk of the structure. -/
theorem walkFields_ok (reg : Registry) (env : Env) :
    ∀ (fields : List Field),
      (∀ path tag v, fieldAt fields path = some (.mk tag true v) → v.isLeaf = true →
        ∃ w, walkField reg env (.mk tag true v) = .ok (.mk tag true w, [])) →
      ∃ fields', walkFields reg env fields = .ok (fields', [])
  | [], _ => ⟨[], by rw [walkFields]⟩
  | f :: rest, h => by
    obtain ⟨f', hf⟩ := walkField_ok reg env f
      (fun path tag v hp hv => h path tag v (fieldAt_singleton rest hp) hv)
    obtain ⟨rest', hr⟩ := walkFields_ok reg env rest
      (fun path tag v hp hv =>
        match path, hp with
        | [], hp => by simp [fieldAt] at hp
        | i :: p, hp => h ((i + 1) :: p) tag v (by rw [fieldAt_cons_succ]; exact hp) hv)
    exact ⟨f' :: rest', by rw [walkFields, hf, hr]; rfl⟩
end

/-- C2: a structure and an environment in which the only validator named by
an annotation passes and the raw value is parseable, and yet `Lookup` does not
return no error: the empty clause after the last separator of the annotation
"HOST,required," reaches the call of the registry entry for the text of the
clause, which is nil, and `parseEnvTag` and `Lookup` panic. -/
theorem C2_trailing_separator_panics :
    (Validator.requiredValidator).Validate "HOST" "0.0.0.0" = none ∧
    coerce (.string "") "0.0.0.0" = some (.string "0.0.0.0") ∧
    parseEnvTag validatorRegistry "HOST,required," envSep = .error .nilFunc ∧
    Lookup validatorRegistry (fun k => if k = "HOST" then "0.0.0.0" else "")
      (.struct [.mk "HOST,required," true (.string "")]) = .error .nilFunc ∧
    ¬ ∃ r, Lookup validatorRegistry (fun k => if k = "HOST" then "0.0.0.0" else "")
      (.struct [.mk "HOST,required," true (.string "")]) = .ok r := by
  refine ⟨rfl, congrArg (fun s => some (Value.string s))
    (show TrimSpace "0.0.0.0" = "0.0.0.0" by decide), rfl, rfl, ?_⟩
  rintro ⟨r, hr⟩
  rw [show Lookup validatorRegistry (fun k => if k = "HOST" then "0.0.0.0" else "")
      (.struct [.mk "HOST,required," true (.string "")]) = .error .nilFunc from rfl] at hr
  exact Except.noConfusion hr

/-- The success case of `Lookup`, away from annotations on which the clause
loop panics: let the annotation of every settable leaf reached in a
structure be parsed without panic into a name and validators such that, when
the name is not empty, every validator accepts the value of the variable and
that value, when not empty, denotes a value of the kind of the leaf.  Then
`Lookup` returns the structure and no error; every settable leaf with a
non-empty name and a non-empty value holds the denoted value (the trimmed text,
the base-10 integer, the boolean); every settable leaf with an empty name or an
empty value, and every unsettable field, is as before; and a settable nested
structure is still a structure under the same annotation. -/
theorem C2_lookup_success (reg : Registry) (env : Env) (fields : List Field)
    (hok : ∀ path tag v, fieldAt fields path = some (.mk tag true v) → v.isLeaf = true →
      ∃ envName validators, parseEnvTag reg tag envSep = .ok (envName, validators) ∧
        (envName ≠ "" →
          (∀ x ∈ validators, x.Validate envName (env envName) = none) ∧
          (env envName ≠ "" → (coerce v (env envName)).isSome = true))) :
    ∃ fields', Lookup reg env (.struct fields) = .ok (.struct fields', none) ∧
      (∀ path tag v envName validators,
        fieldAt fields path = some (.mk tag true v) → v.isLeaf = true →
        parseEnvTag reg tag envSep = .ok (envName, validators) →
        envName ≠ "" → env envName ≠ "" →
        ∃ w, coerce v (env envName) = some w ∧ fieldAt fields' path = some (.mk tag true w)) ∧
      (∀ path tag v envName validators,
        fieldAt fields path = some (.mk tag true v) → v.isLeaf = true →
        parseEnvTag reg tag envSep = .ok (envName, validators) →
        (envName = "" ∨ env envName = "") →
        fieldAt fields' path = some (.mk tag true v)) ∧
      (∀ path tag v, fieldAt fields path = some (.mk tag false v) →
        fieldAt fields' path = some (.mk tag false v)) ∧
      (∀ path tag sub, fieldAt fields path = some (.mk tag true (.struct sub)) →
        ∃ sub', fieldAt fields' path = some (.mk tag true (.struct sub'))) ∧
      (∀ (old raw : String), coerce (.string old) raw = some (.string (TrimSpace raw))) ∧
      (∀ (old : Int) (raw : String), coerce (.int old) raw = (intLiteral raw).map Value.int) ∧
      (∀ (old : Bool) (raw : String),
        coerce (.bool old) raw = (boolLiteral raw).map Value.bool) := by
  have hleaf : ∀ path tag v, fieldAt fields path = some (.mk tag true v) → v.isLeaf = true →
      ∃ w, walkField reg env (.mk tag true v) = .ok (.mk tag true w, []) := by
    intro path tag v hf hv
    obtain ⟨envName, validators, hp, hval⟩ := hok path tag v hf hv
    obtain ⟨w, hw, _⟩ := walkField_leaf_ok reg env tag v envName validators hv hp hval
    exact ⟨w, hw⟩
  obtain ⟨fields', hw⟩ := walkFields_ok reg env fields hleaf
  have hs := lookupFields_spec id reg env fields none [] rfl
  rw [hw] at hs
  obtain ⟨err, h1, h2⟩ := hs
  have herr : err = none := by
    cases err with
    | none => rfl
    | some e => simp [ErrRepr] at h2
  subst herr
  refine ⟨fields', by simp [Lookup, lookupValue, h1], ?_, ?_, ?_, ?_,
    fun _ _ => rfl, fun _ _ => rfl, fun _ _ => rfl⟩
  · intro path tag v envName validators hf hv hp hn hr
    obtain ⟨envName', validators', hp', hval⟩ := hok path tag v hf hv
    rw [hp] at hp'
    simp only [Except.ok.injEq, Prod.mk.injEq] at hp'
    obtain ⟨e1, e2⟩ := hp'
    subst e1 e2
    obtain ⟨w, k1, _, k3⟩ := walkField_leaf_ok reg env tag v envName validators hv hp hval
    obtain ⟨f', own, j1, j2, _⟩ := walkFields_fieldAt reg env path fields fields' [] _ hw hf
    rw [k1] at j1
    simp only [Except.ok.injEq, Prod.mk.injEq] at j1
    exact ⟨w, k3 hn hr, by rw [j2, ← j1.1]⟩
  · intro path tag v envName validators hf hv hp hne
    obtain ⟨envName', validators', hp', hval⟩ := hok path tag v hf hv
    rw [hp] at hp'
    simp only [Except.ok.injEq, Prod.mk.injEq] at hp'
    obtain ⟨e1, e2⟩ := hp'
    subst e1 e2
    obtain ⟨w, k1, k2, _⟩ := walkField_leaf_ok reg env tag v envName validators hv hp hval
    obtain ⟨f', own, j1, j2, _⟩ := walkFields_fieldAt reg env path fields fields' [] _ hw hf
    rw [k1] at j1
    simp only [Except.ok.injEq, Prod.mk.injEq] at j1
    rw [j2, ← j1.1, k2 hne]
  · intro path tag v hf
    obtain ⟨f', own, j1, j2, _⟩ := walkFields_fieldAt reg env path fields fields' [] _ hw hf
    rw [walkField] at j1
    simp only [Except.ok.injEq, Prod.mk.injEq] at j1
    rw [j2, ← j1.1]
  · intro path tag sub hf
    obtain ⟨f', own, j1, j2, _⟩ := walkFields_fieldAt reg env path fields fields' [] _ hw hf
    obtain ⟨sub', _, j4⟩ := walkField_struct_ok j1
    exact ⟨sub', by rw [j2, j4]⟩

theorem C2_lookup_success_witness :
    ∃ fields', Lookup validatorRegistry goodEnv (.struct serverConfig)
        = .ok (.struct fields', none) ∧
      fieldAt fields' [0, 0] = some (.mk "HOST,required" true (.string "0.0.0.0")) ∧
      fieldAt fields' [0, 1] = some (.mk "PORT,required" true (.int 8080)) ∧
      fieldAt fields' [1] = some (.mk "ENABLE_LOGGING" true (.bool false)) := by
  have hyp : ∀ path tag v, fieldAt serverConfig path = some (.mk tag true v) →
      v.isLeaf = true →
      ∃ envName validators, parseEnvTag validatorRegistry tag envSep = .ok (envName, validators) ∧
        (envName ≠ "" →
          (∀ x ∈ validators, x.Validate envName (goodEnv envName) = none) ∧
          (goodEnv envName ≠ "" → (coerce v (goodEnv envName)).isSome = true)) := by
    intro path tag v hf hv
    match path, hf with
    | [], hf => simp [fieldAt] at hf
    | [0], hf =>
      simp only [fieldAt, serverConfig, List.getElem?_cons_zero, Option.some.injEq,
        Field.mk.injEq] at hf
      obtain ⟨_, _, rfl⟩ := hf
      simp [Value.isLeaf] at hv
    | [1], hf =>
      simp only [fieldAt, serverConfig, List.getElem?_cons_succ, List.getElem?_cons_zero,
        Option.some.injEq, Field.mk.injEq] at hf
      obtain ⟨rfl, _, rfl⟩ := hf
      exact ⟨"ENABLE_LOGGING", [], rfl, fun _ => ⟨by simp, fun h => absurd rfl h⟩⟩
    | [n + 2], hf => simp [fieldAt, serverConfig] at hf
    | [0, 0], hf =>
      simp only [fieldAt, serverConfig, webConfig, List.getElem?_cons_zero, Option.some.injEq,
        Field.mk.injEq] at hf
      obtain ⟨rfl, _, rfl⟩ := hf
      exact ⟨"HOST", [.requiredValidator], rfl, fun _ => ⟨by simp [Validator.Validate, goodEnv],
        fun _ => rfl⟩⟩
    | [0, 1], hf =>
      simp only [fieldAt, serverConfig, webConfig, List.getElem?_cons_zero,
        List.getElem?_cons_succ, Option.some.injEq, Field.mk.injEq] at hf
      obtain ⟨rfl, _, rfl⟩ := hf
      exact ⟨"PORT", [.requiredValidator], rfl, fun _ => ⟨by simp [Validator.Validate, goodEnv],
        fun _ => by decide⟩⟩
    | [0, n + 2], hf => simp [fieldAt, serverConfig, webConfig] at hf
    | 0 :: 0 :: j :: p, hf => simp [fieldAt, serverConfig, webConfig] at hf
    | 0 :: 1 :: j :: p, hf => simp [fieldAt, serverConfig, webConfig] at hf
    | 0 :: (n + 2) :: j :: p, hf => simp [fieldAt, serverConfig, webConfig] at hf
    | 1 :: j :: p, hf => simp [fieldAt, serverConfig] at hf
    | (n + 2) :: j :: p, hf => simp [fieldAt, serverConfig] at hf
  obtain ⟨fields', h1, h2, h3, _⟩ := C2_lookup_success validatorRegistry goodEnv serverConfig hyp
  refine ⟨fields', h1, ?_, ?_, ?_⟩
  · obtain ⟨w, k1, k2⟩ := h2 [0, 0] "HOST,required" (.string "") "HOST" [.requiredValidator]
      rfl rfl rfl (by decide) (by decide)
    have e : coerce (Value.string "") (goodEnv "HOST") = some (.string "0.0.0.0") :=
      congrArg (fun s => some (Value.string s))
        (show TrimSpace (goodEnv "HOST") = "0.0.0.0" by decide)
    rw [e] at k1
    obtain rfl := Option.some.inj k1
    exact k2
  · obtain ⟨w, k1, k2⟩ := h2 [0, 1] "PORT,required" (.int 0) "PORT" [.requiredValidator]
      rfl rfl rfl (by decide) (by decide)
    have e : coerce (Value.int 0) (goodEnv "PORT") = some (.int 8080) :=
      congrArg (Option.map Value.int) (show intLiteral (goodEnv "PORT") = some 8080 by decide)
    rw [e] at k1
    obtain rfl := Option.some.inj k1
    exact k2
  · exact h3 [1] "ENABLE_LOGGING" (.bool false) "ENABLE_LOGGING" [] rfl rfl rfl (Or.inr rfl)

/-- What `strings.Index` finds for the separator: nothing when the text has no
separator, otherwise the length of the separator-free text before the first
one. -/
theorem stringsIndex_envSep (tag : String) :
    (',' ∉ tag.data ∧ stringsIndex tag envSep = none) ∨
    ∃ a b, tag.data = a ++ ',' :: b ∧ ',' ∉ a ∧ stringsIndex tag envSep = some a.length := by
  by_cases h : ',' ∈ tag.data
  · obtain ⟨a, b, h1, h2⟩ := first_occurrence ',' tag.data h
    refine Or.inr ⟨a, b, h1, h2, ?_⟩
    unfold stringsIndex
    rw [h1]
    have := indexChars_append ',' a b 0 h2
    simpa using this
  · exact Or.inl ⟨h, indexChars_none ',' tag.data 0 h⟩

theorem stripClauses_no_sep (tag : String) (h : ',' ∉ tag.data) : stripClauses tag = tag := by
  unfold stripClauses
  rw [show stringsIndex tag envSep = none from indexChars_none ',' tag.data 0 h]

/-- Parsing an annotation from which the clauses were removed gives the same
name and no validator, unless the removal produced the sentinel. -/
theorem parseEnvTag_strip (reg : Registry) (tag envName : String) (validators : List Validator)
    (h : parseEnvTag reg tag envSep = .ok (envName, validators))
    (hs : stripClauses tag = "-" → tag = "-") :
    parseEnvTag reg (stripClauses tag) envSep = .ok (envName, []) := by
  by_cases h0 : tag = "-" ∨ tag = ""
  · have hp := parseEnvTag_skip reg envSep tag (Or.symm h0)
    have hn : ',' ∉ tag.data := by rcases h0 with h0 | h0 <;> simp [h0]
    rw [envSep] at hp
    rw [envSep, hp] at h
    simp only [Except.ok.injEq, Prod.mk.injEq] at h
    rw [stripClauses_no_sep tag hn, envSep, hp, ← h.1]
  · rcases stringsIndex_envSep tag with ⟨hn, hi⟩ | ⟨a, b, hd, ha, hi⟩
    · have hp := parseEnvTag_no_sep reg tag (fun e => h0 (Or.inr e)) (fun e => h0 (Or.inl e)) hn
      rw [hp] at h
      simp only [Except.ok.injEq, Prod.mk.injEq] at h
      rw [stripClauses_no_sep tag hn, hp, ← h.1]
    · have hst : stripClauses tag = ⟨a⟩ := by
        unfold stripClauses
        simp only [hi, hd, take_length_append]
      have hname : envName = ⟨a⟩ := by
        unfold parseEnvTag at h
        rw [if_neg h0, hi] at h
        simp only [hd, take_length_append] at h
        split at h
        · simp at h
        · simp only [Except.ok.injEq, Prod.mk.injEq] at h
          exact h.1.symm
      rw [hst, hname]
      by_cases he : (⟨a⟩ : String) = ""
      · rw [he]
        rfl
      · have hm : (⟨a⟩ : String) ≠ "-" := by
          intro e
          have := hs (hst.trans e)
          exact h0 (Or.inl this)
        exact parseEnvTag_no_sep reg ⟨a⟩ he hm ha

theorem stripFieldClauses_leaf (tag : String) (canSet : Bool) (v : Value)
    (hv : v.isLeaf = true) :
    stripFieldClauses (.mk tag canSet v) = .mk (stripClauses tag) canSet v :=
  stripFieldClauses.eq_2 tag canSet v (isLeaf_not_struct hv)

theorem walkField_unsettable (reg : Registry) (env : Env) (f : Field) (h : f.canSet = false) :
    walkField reg env f = .ok (f, []) := by
  obtain ⟨tag, canSet, v⟩ := f
  simp only [Field.canSet] at h
  subst h
  rw [walkField]

theorem stripFieldClauses_canSet (f : Field) : (stripFieldClauses f).canSet = f.canSet := by
  obtain ⟨tag, canSet, v⟩ := f
  cases v <;> simp [stripFieldClauses, Field.canSet]

/-- The walk of a leaf whose annotation lost its clauses: the same value, and
of the failures only the one of the coercion. -/
theorem walkField_strip_leaf (reg : Registry) (env : Env) (tag : String) (v : Value)
    (hv : v.isLeaf = true) (hs : stripClauses tag = "-" → tag = "-")
    (f' : Field) (own : List GoError)
    (h : walkField reg env (.mk tag true v) = .ok (f', own)) :
    ∃ own0, walkField reg env (stripFieldClauses (.mk tag true v))
        = .ok (stripFieldClauses f', own0) ∧ own0.Sublist own := by
  rw [stripFieldClauses_leaf tag true v hv, walkField_leaf reg env _ v hv]
  rw [walkField_leaf reg env tag v hv] at h
  cases hp : parseEnvTag reg tag envSep with
  | error p => simp [hp] at h
  | ok r =>
    obtain ⟨envName, validators⟩ := r
    rw [parseEnvTag_strip reg tag envName validators hp hs]
    rw [hp] at h
    by_cases hn : envName = ""
    · simp only [hn, if_true, Except.ok.injEq, Prod.mk.injEq] at h
      obtain ⟨e1, e2⟩ := h
      subst e1 e2
      exact ⟨[], by simp [hn, stripFieldClauses_leaf tag true v hv], List.Sublist.refl _⟩
    · simp only [hn, if_false, Except.ok.injEq, Prod.mk.injEq] at h
      obtain ⟨e1, e2⟩ := h
      subst e1 e2
      refine ⟨(setFieldValue v envName (env envName)).2.toList, ?_, ?_⟩
      · simp [hn, stripFieldClauses_leaf tag true _
          (setFieldValue_isLeaf v envName (env envName) hv)]
      · exact List.sublist_append_right _ _

mutual
theorem walkField_strip (reg : Registry) (env : Env) :
    ∀ (f : Field),
      (∀ path tag v, fieldAt [f] path = some (.mk tag true v) → v.isLeaf = true →
        stripClauses tag = "-" → tag = "-") →
      ∀ f' own, walkField reg env f = .ok (f', own) →
        ∃ own0, walkField reg env (stripFieldClauses f) = .ok (stripFieldClauses f', own0) ∧
          own0.Sublist own
  | .mk tag false v, _, f', own, h => by
    rw [walkField_unsettable reg env (.mk tag false v) rfl] at h
    simp only [Except.ok.injEq, Prod.mk.injEq] at h
    obtain ⟨e1, e2⟩ := h
    subst e1 e2
    exact ⟨[], walkField_unsettable reg env _ (by rw [stripFieldClauses_canSet]; rfl),
      List.Sublist.refl _⟩
  | .mk tag true (.struct sub), hyp, f', own, h => by
    obtain ⟨sub', h1, h2⟩ := walkField_struct_ok h
    obtain ⟨own0, k1, k2⟩ := walkFields_strip reg env sub
      (fun path tag' v hf hv => hyp (0 :: path) tag' v (fieldAt_struct_zero tag sub hf) hv)
      sub' own h1
    subst h2
    exact ⟨own0, by rw [stripFieldClauses, stripFieldClauses, walkField, k1], k2⟩
  | .mk tag true (.string s), hyp, f', own, h =>
    walkField_strip_leaf reg env tag (.string s) rfl (hyp [0] tag _ rfl rfl) f' own h
  | .mk tag true (.int s), hyp, f', own, h =>
    walkField_strip_leaf reg env tag (.int s) rfl (hyp [0] tag _ rfl rfl) f' own h
  | .mk tag true (.bool s), hyp, f', own, h =>
    walkField_strip_leaf reg env tag (.bool s) rfl (hyp [0] tag _ rfl rfl) f' own h
  | .mk tag true (.other k c), hyp, f', own, h =>
    walkField_strip_leaf reg env tag (.other k c) rfl (hyp [0] tag _ rfl rfl) f' own h
/-- Removing the validator clauses from the annotations of a structure does
not change the values the walk leaves, and removes failures only. -/
theorem walkFields_strip (reg : Registry) (env : Env) :
    ∀ (fields : List Field),
      (∀ path tag v, fieldAt fields path = some (.mk tag true v) → v.isLeaf = true →
        stripClauses tag = "-" → tag = "-") →
      ∀ fields' failures, walkFields reg env fields = .ok (fields', failures) →
        ∃ failures0, walkFields reg env (stripStructClauses fields)
            = .ok (stripStructClauses fields', failures0) ∧ failures0.Sublist failures
  | [], _, fields', failures, h => by
    rw [walkFields] at h
    simp only [Except.ok.injEq, Prod.mk.injEq] at h
    obtain ⟨e1, e2⟩ := h
    subst e1 e2
    exact ⟨[], by rw [stripStructClauses, walkFields], List.Sublist.refl _⟩
  | f :: rest, hyp, fields', failures, h => by
    obtain ⟨f', own, rest', others, h1, h2, h3, h4⟩ := walkFields_cons_ok h
    obtain ⟨own0, k1, k2⟩ := walkField_strip reg env f
      (fun path tag v hp hv => hyp path tag v (fieldAt_singleton rest hp) hv) f' own h1
    obtain ⟨others0, j1, j2⟩ := walkFields_strip reg env rest
      (fun path tag v hp hv =>
        match path, hp with
        | [], hp => by simp [fieldAt] at hp
        | i :: p, hp => hyp ((i + 1) :: p) tag v (by rw [fieldAt_cons_succ]; exact hp) hv)
      rest' others h2
    subst h3 h4
    exact ⟨own0 ++ others0, by rw [stripStructClauses, stripStructClauses, walkFields, k1, j1],
      List.Sublist.append k2 j2⟩
end

/-- C11 (counterexample): with the annotation "-,required" the field is bound
from the variable named "-", while the annotation without its clause is the
sentinel "-" and the field is skipped: the values left differ. -/
theorem C11_counterexample :
    stripStructClauses [.mk "-,required" true (.string "")] = [.mk "-" true (.string "")] ∧
    Lookup validatorRegistry (fun k => if k = "-" then "x" else "")
        (.struct [.mk "-,required" true (.string "")])
      = .ok (.struct [.mk "-,required" true (.string "x")], none) ∧
    Lookup validatorRegistry (fun k => if k = "-" then "x" else "")
        (.struct (stripStructClauses [.mk "-,required" true (.string "")]))
      = .ok (.struct [.mk "-" true (.string "")], none) ∧
    (Value.string "x" ≠ Value.string "") :=
  ⟨rfl, rfl, rfl, by simp⟩

/-- C11 (amended): in a structure where no annotation of a visited leaf is the
name "-" followed by clauses, whenever `Lookup` returns, `Lookup` on the
structure with every validator clause removed from every annotation returns
the same values (and no error if the first returned none); and whatever the
validators of a visited leaf with a non-empty name answer, and whatever error
`Lookup` returns, the leaf holds what `setFieldValue` stores for the value of
its variable. -/
theorem C11_validators_do_not_affect_binding (reg : Registry) (env : Env) (fields : List Field)
    (hname : ∀ path tag v, fieldAt fields path = some (.mk tag true v) → v.isLeaf = true →
      stripClauses tag = "-" → tag = "-") :
    (∀ fields' err, Lookup reg env (.struct fields) = .ok (.struct fields', err) →
      ∃ err0, Lookup reg env (.struct (stripStructClauses fields))
          = .ok (.struct (stripStructClauses fields'), err0) ∧ (err = none → err0 = none)) ∧
    (∀ fields' err path tag v envName validators,
      Lookup reg env (.struct fields) = .ok (.struct fields', err) →
      fieldAt fields path = some (.mk tag true v) → v.isLeaf = true →
      parseEnvTag reg tag envSep = .ok (envName, validators) → envName ≠ "" →
      fieldAt fields' path = some (.mk tag true (setFieldValue v envName (env envName)).1)) := by
  constructor
  · intro fields' err h
    have hs := lookupFields_spec id reg env fields none [] rfl
    cases hw : walkFields reg env fields with
    | error p =>
      rw [hw] at hs
      simp [Lookup, lookupValue, hs] at h
    | ok r =>
      obtain ⟨fields'', failures⟩ := r
      rw [hw] at hs
      obtain ⟨err', h1, h2⟩ := hs
      simp only [Lookup, lookupValue, h1, Except.ok.injEq, Prod.mk.injEq,
        Value.struct.injEq] at h
      obtain ⟨e1, e2⟩ := h
      subst e1 e2
      obtain ⟨failures0, k1, k2⟩ := walkFields_strip reg env fields hname fields'' failures hw
      have hs0 := lookupFields_spec id reg env (stripStructClauses fields) none [] rfl
      rw [k1] at hs0
      obtain ⟨err0, j1, j2⟩ := hs0
      refine ⟨err0, by simp [Lookup, lookupValue, j1], ?_⟩
      intro he
      subst he
      have hf : failures = [] := by simpa [ErrRepr] using h2
      rw [hf] at k2
      have hf0 : failures0 = [] := List.eq_nil_of_sublist_nil k2
      subst hf0
      cases err0 with
      | none => rfl
      | some e => simp [ErrRepr] at j2
  · intro fields' err path tag v envName validators h hf hv hp hn
    obtain ⟨fields'', f', own, h1, h2, h3, _⟩ := Lookup_fieldAt id reg env h hf
    simp only [Value.struct.injEq] at h1
    subst h1
    rw [walkField_leaf reg env tag v hv, hp] at h2
    simp only [hn, if_false, Except.ok.injEq, Prod.mk.injEq] at h2
    rw [h3, ← h2.1]

theorem C11_validators_do_not_affect_binding_witness :
    (∃ err0, Lookup validatorRegistry shinobiEnv (.struct (stripStructClauses siblings))
        = .ok (.struct (stripStructClauses
            [.mk "HOST" true (.string "0.0.0.0"),
             .mk "ENV,expectedValues=development production" true (.string "SHINOBI"),
             .mk "PORT" true (.int 8080)]), err0) ∧
      (some (GoError.joinError [.errorString "ENV is unexpected value: SHINOBI"]) = none →
        err0 = none)) ∧
    fieldAt [.mk "HOST" true (.string "0.0.0.0"),
        .mk "ENV,expectedValues=development production" true (.string "SHINOBI"),
        .mk "PORT" true (.int 8080)] [1]
      = some (.mk "ENV,expectedValues=development production" true
          (setFieldValue (.string "") "ENV" (shinobiEnv "ENV")).1) := by
  have hname : ∀ path tag v, fieldAt siblings path = some (.mk tag true v) → v.isLeaf = true →
      stripClauses tag = "-" → tag = "-" := by
    intro path tag v hf _ hs
    match path, hf with
    | [], hf => simp [fieldAt] at hf
    | [0], hf =>
      simp only [fieldAt, siblings, List.getElem?_cons_zero, Option.some.injEq,
        Field.mk.injEq] at hf
      obtain ⟨rfl, _, _⟩ := hf
      exact absurd hs (by decide)
    | [1], hf =>
      simp only [fieldAt, siblings, List.getElem?_cons_zero, List.getElem?_cons_succ,
        Option.some.injEq, Field.mk.injEq] at hf
      obtain ⟨rfl, _, _⟩ := hf
      exact absurd hs (by decide)
    | [2], hf =>
      simp only [fieldAt, siblings, List.getElem?_cons_zero, List.getElem?_cons_succ,
        Option.some.injEq, Field.mk.injEq] at hf
      obtain ⟨rfl, _, _⟩ := hf
      exact absurd hs (by decide)
    | [n + 3], hf => simp [fieldAt, siblings] at hf
    | 0 :: j :: p, hf => simp [fieldAt, siblings] at hf
    | 1 :: j :: p, hf => simp [fieldAt, siblings] at hf
    | 2 :: j :: p, hf => simp [fieldAt, siblings] at hf
    | (n + 3) :: j :: p, hf => simp [fieldAt, siblings] at hf
  exact ⟨(C11_validators_do_not_affect_binding validatorRegistry shinobiEnv siblings hname).1
      [.mk "HOST" true (.string "0.0.0.0"),
       .mk "ENV,expectedValues=development production" true (.string "SHINOBI"),
       .mk "PORT" true (.int 8080)]
      (some (.joinError [.errorString "ENV is unexpected value: SHINOBI"])) rfl,
    (C11_validators_do_not_affect_binding validatorRegistry shinobiEnv siblings hname).2
      _ _ [1] _ (.string "") "ENV" [.expectedValueValidator ["development", "production"]]
      (show Lookup validatorRegistry shinobiEnv (.struct siblings)
        = .ok (.struct [.mk "HOST" true (.string "0.0.0.0"),
          .mk "ENV,expectedValues=development production" true (.string "SHINOBI"),
          .mk "PORT" true (.int 8080)],
          some (.joinError [.errorString "ENV is unexpected value: SHINOBI"])) from rfl)
      rfl rfl rfl (by decide)⟩

/-- C12: after `AddValidator reg name f` the registry maps `name` to `f` (the
index expression gives `f`, which is found and not nil when `f` is not nil),
every other name maps to what it mapped to before, a second registration
under the same name replaces the first, and the initial registry has exactly
the keys `required` and `expectedValues`, bound to the two built-in factories. -/
theorem C12_add_validator (reg : Registry) (name : String) (f g : ValidatorFactory) :
    AddValidator reg name f name = some f ∧
    (AddValidator reg name f).index name = f ∧
    (f ≠ none → (AddValidator reg name f name).isSome = true ∧
      (AddValidator reg name f).index name ≠ none) ∧
    (∀ other, other ≠ name → AddValidator reg name f other = reg other) ∧
    AddValidator (AddValidator reg name f) name g = AddValidator reg name g ∧
    AddValidator (AddValidator reg name f) name g name = some g ∧
    (∀ k, (validatorRegistry k).isSome = true ↔ k = requiredFlag ∨ k = expectedValuesFlag) ∧
    validatorRegistry requiredFlag = some (some newRequiredValidator) ∧
    validatorRegistry expectedValuesFlag = some (some newExpectedValueValidator) := by
  have h1 : AddValidator reg name f name = some f := by simp [AddValidator]
  have h2 : (AddValidator reg name f).index name = f := by simp [Registry.index, h1]
  refine ⟨h1, h2, ?_, ?_, ?_, by simp [AddValidator], ?_, rfl, rfl⟩
  · intro hf
    exact ⟨by simp [h1], by rw [h2]; exact hf⟩
  · intro other ho
    simp [AddValidator, ho]
  · funext k
    by_cases hk : k = name <;> simp [AddValidator, hk]
  · intro k
    unfold validatorRegistry
    by_cases h1 : k = requiredFlag
    · simp [h1]
    · by_cases h2 : k = expectedValuesFlag
      · subst h2
        rw [if_neg h1, if_pos rfl]
        simp
      · simp [h1, h2]

theorem C12_add_validator_witness :
    ((AddValidator validatorRegistry "mock" (some (fun _ => Validator.custom (fun _ _ => none)))
        "mock").isSome = true ∧
      (AddValidator validatorRegistry "mock"
        (some (fun _ => Validator.custom (fun _ _ => none)))).index "mock" ≠ none) ∧
    AddValidator validatorRegistry "mock" (some (fun _ => Validator.custom (fun _ _ => none)))
      "required" = validatorRegistry "required" :=
  ⟨(C12_add_validator validatorRegistry "mock"
      (some (fun _ => Validator.custom (fun _ _ => none))) none).2.2.1 (by simp),
   (C12_add_validator validatorRegistry "mock"
      (some (fun _ => Validator.custom (fun _ _ => none))) none).2.2.2.1 "required" (by decide)⟩

theorem splitOn_no_sep (c : Char) : ∀ (s l : List Char), l ∈ s.splitOn c → c ∉ l
  | [], l, h => by
    have hl : l = [] := by simpa [List.splitOn] using h
    simp [hl]
  | x :: xs, l, h => by
    have ih := splitOn_no_sep c xs
    unfold List.splitOn at h ih
    rw [List.splitOnP_cons] at h
    by_cases hx : (x == c) = true
    · rw [if_pos hx] at h
      rcases List.mem_cons.1 h with h | h
      · simp [h]
      · exact ih l h
    · rw [if_neg hx] at h
      cases hsp : List.splitOnP (fun a => a == c) xs with
      | nil => exact absurd hsp (List.splitOnP_ne_nil _ _)
      | cons hd tl =>
        rw [hsp] at h ih
        simp only [List.modifyHead_cons, List.mem_cons] at h
        rcases h with h | h
        · subst h
          intro hc
          rcases List.mem_cons.1 hc with hc | hc
          · exact hx (by simp [hc])
          · exact ih hd (List.mem_cons_self _ _) hc
        · exact ih l (List.mem_cons_of_mem _ h)

theorem splitOn_first (a b : List Char) (h : ',' ∉ a) :
    (a ++ ',' :: b).splitOn ',' = a :: b.splitOn ',' :=
  List.splitOnP_first _ _ (fun x hx hh => h (by rw [← eq_of_beq hh]; exact hx)) ','
    (by simp) b

theorem splitOn_single (a : List Char) (h : ',' ∉ a) : a.splitOn ',' = [a] :=
  List.splitOnP_eq_single _ _ (fun x hx hh => h (by rw [← eq_of_beq hh]; exact hx))

theorem tagOf_data (envName : String) (clauses : List String) :
    (tagOf envName clauses).data
      = envName.data ++ (clauses.map (fun c => ',' :: c.data)).flatten := by
  induction clauses generalizing envName with
  | nil => simp [tagOf]
  | cons c cs ih =>
    rw [tagOf, ih]
    simp [String.data_append]

theorem splitOn_clauses (a : List Char) (clauses : List String) (ha : ',' ∉ a)
    (hc : ∀ c ∈ clauses, ',' ∉ c.data) :
    (a ++ (clauses.map (fun c => ',' :: c.data)).flatten).splitOn ','
      = a :: clauses.map String.data := by
  induction clauses generalizing a with
  | nil => simpa using splitOn_single a ha
  | cons c cs ih =>
    simp only [List.map_cons, List.flatten_cons, List.cons_append]
    rw [splitOn_first a _ ha, ih c.data (hc c (List.mem_cons_self _ _))
      (fun x hx => hc x (List.mem_cons_of_mem _ hx))]

/-- The clauses of a written annotation are the clauses it was written from. -/
theorem clausesOf_tagOf (envName : String) (clauses : List String) (hn : ',' ∉ envName.data)
    (hc : ∀ c ∈ clauses, ',' ∉ c.data) : clausesOf (tagOf envName clauses) = clauses := by
  unfold clausesOf
  rw [tagOf_data, splitOn_clauses _ _ hn hc]
  simp [List.map_map, Function.comp_def]

theorem stripClauses_tagOf (envName : String) (clauses : List String) (hn : ',' ∉ envName.data) :
    stripClauses (tagOf envName clauses) = envName := by
  cases clauses with
  | nil => exact stripClauses_no_sep envName hn
  | cons c cs =>
    unfold stripClauses stringsIndex
    rw [tagOf_data]
    simp only [List.map_cons, List.flatten_cons, List.cons_append]
    have := indexChars_append ',' envName.data
      (c.data ++ (cs.map (fun c => ',' :: c.data)).flatten) 0 hn
    rw [show envSep.data = [','] from rfl, this]
    simp only [Nat.zero_add, take_length_append]

/-- Every annotation is written from its name part and its clauses, none of
which contains the separator. -/
theorem tagOf_clausesOf (tag : String) :
    tag = tagOf (stripClauses tag) (clausesOf tag) ∧ ',' ∉ (stripClauses tag).data ∧
      ∀ c ∈ clausesOf tag, ',' ∉ c.data := by
  have hcl : ∀ c ∈ clausesOf tag, ',' ∉ c.data := by
    intro c hc
    unfold clausesOf at hc
    obtain ⟨l, hl, rfl⟩ := List.mem_map.1 hc
    exact splitOn_no_sep ',' tag.data l (List.mem_of_mem_drop hl)
  rcases stringsIndex_envSep tag with ⟨hn, hi⟩ | ⟨a, b, hd, ha, hi⟩
  · have hs : stripClauses tag = tag := stripClauses_no_sep tag hn
    have hc : clausesOf tag = [] := by
      unfold clausesOf
      rw [splitOn_single tag.data hn]
      rfl
    refine ⟨?_, by rw [hs]; exact hn, hcl⟩
    rw [hs, hc]
    rfl
  · have hs : stripClauses tag = ⟨a⟩ := by
      unfold stripClauses
      simp only [hi, hd, take_length_append]
    refine ⟨?_, by rw [hs]; exact ha, hcl⟩
    apply String.ext
    rw [tagOf_data, hs]
    unfold clausesOf
    rw [hd, splitOn_first a b ha]
    simp only [List.drop_succ_cons, List.drop_zero, List.map_map]
    have hj : [','].intercalate (b.splitOn ',') = b := List.intercalate_splitOn b ','
    have key : ∀ ls : List (List Char), ls ≠ [] →
        ',' :: [','].intercalate ls = (ls.map (fun l => ',' :: l)).flatten := by
      intro ls
      induction ls with
      | nil => intro h; exact absurd rfl h
      | cons l ls ih =>
        intro _
        cases ls with
        | nil => simp [List.intercalate]
        | cons m ms =>
          have := ih (by simp)
          simp only [List.intercalate, List.intersperse_cons_cons, List.flatten_cons,
            List.map_cons, List.singleton_append, List.cons_append] at this ⊢
          injection this with _ hxy
          simp only [List.nil_append, hxy]
    have := key (b.splitOn ',') (List.splitOnP_ne_nil _ _)
    rw [hj] at this
    rw [this]
    simp [List.map_map, Function.comp_def]

/-- The clause loop, one clause at a time. -/
theorem parseOptions_cons (reg : Registry) (clause : String) (rest : List String)
    (acc : List Validator) :
    parseOptions reg (clause :: rest) acc =
      match clauseValidator reg clause with
      | .error p => .error p
      | .ok o => parseOptions reg rest (acc ++ o.toList) := by
  rw [parseOptions, clauseValidator]
  cases hf : FindStringSubmatch clause with
  | none =>
    simp only []
    cases hc : (reg.index clause).call "" with
    | error p => rfl
    | ok v => rfl
  | some r =>
    obtain ⟨n, a⟩ := r
    simp only []
    cases hr : reg n with
    | none => simp
    | some f =>
      simp only []
      cases hc : f.call a with
      | error p => rfl
      | ok v => rfl

/-- When every clause gives its contribution without panic, the loop returns
the contributions in the order of the clauses. -/
theorem parseOptions_ok (reg : Registry) (g : String → Option Validator) :
    ∀ (clauses : List String) (acc : List Validator),
      (∀ c ∈ clauses, clauseValidator reg c = .ok (g c)) →
      parseOptions reg clauses acc = .ok (acc ++ clauses.filterMap g)
  | [], acc, _ => by simp [parseOptions]
  | c :: cs, acc, h => by
    rw [parseOptions_cons, h c (List.mem_cons_self _ _)]
    simp only []
    rw [parseOptions_ok reg g cs _ (fun x hx => h x (List.mem_cons_of_mem _ hx))]
    cases hg : g c with
    | none => simp [List.filterMap_cons, hg]
    | some v => simp [List.filterMap_cons, hg]

theorem clauseValidator_error (reg : Registry) (clause : String) (p : Panic)
    (h : clauseValidator reg clause = .error p) : p = .nilFunc := by
  unfold clauseValidator at h
  have hcall : ∀ (f : ValidatorFactory) (a : String) (q : Panic),
      f.call a = .error q → q = .nilFunc := by
    intro f a q hq
    cases f with
    | none => simpa [ValidatorFactory.call] using hq.symm
    | some f => simp [ValidatorFactory.call] at hq
  split at h
  · split at h
    · split at h
      · next q hq =>
        simp only [Except.error.injEq] at h
        subst h
        exact hcall _ _ _ hq
      · simp at h
    · simp at h
  · split at h
    · next q hq =>
      simp only [Except.error.injEq] at h
      subst h
      exact hcall _ _ _ hq
    · simp at h

/-- A clause that panics makes the loop panic, whatever the clauses after it,
when the clauses before it do not. -/
theorem parseOptions_panic (reg : Registry) (clause : String) (post : List String) (p : Panic)
    (h : clauseValidator reg clause = .error p) :
    ∀ (pre : List String) (acc : List Validator),
      (∀ c ∈ pre, ∃ o, clauseValidator reg c = .ok o) →
      parseOptions reg (pre ++ clause :: post) acc = .error .nilFunc
  | [], acc, _ => by
    rw [List.nil_append, parseOptions_cons, h, clauseValidator_error reg clause p h]
  | c :: cs, acc, hpre => by
    obtain ⟨o, ho⟩ := hpre c (List.mem_cons_self _ _)
    rw [List.cons_append, parseOptions_cons, ho]
    exact parseOptions_panic reg clause post p h cs _
      (fun x hx => hpre x (List.mem_cons_of_mem _ hx))

/-- A clause that contributes nothing can be left out. -/
theorem parseOptions_skip (reg : Registry) (clause : String) (post : List String)
    (h : clauseValidator reg clause = .ok none) :
    ∀ (pre : List String) (acc : List Validator),
      parseOptions reg (pre ++ clause :: post) acc = parseOptions reg (pre ++ post) acc
  | [], acc => by
    rw [List.nil_append, parseOptions_cons, h]
    simp
  | c :: cs, acc => by
    rw [List.cons_append, List.cons_append, parseOptions_cons, parseOptions_cons]
    cases hc : clauseValidator reg c with
    | error p => rfl
    | ok o => exact parseOptions_skip reg clause post h cs _

/-- The annotation parser in terms of the name part and the clauses of the
annotation. -/
theorem parseEnvTag_clausesOf (reg : Registry) (tag : String) (h1 : tag ≠ "") (h2 : tag ≠ "-") :
    parseEnvTag reg tag envSep =
      match parseOptions reg (clausesOf tag) [] with
      | .error p => .error p
      | .ok validators => .ok (stripClauses tag, validators) := by
  rcases stringsIndex_envSep tag with ⟨hn, hi⟩ | ⟨a, b, hd, ha, hi⟩
  · have hc : clausesOf tag = [] := by
      unfold clausesOf
      rw [splitOn_single tag.data hn]
      rfl
    rw [hc, stripClauses_no_sep tag hn, parseEnvTag_no_sep reg tag h1 h2 hn]
    rfl
  · have hc : clausesOf tag = stringsSplit ⟨b⟩ envSep := by
      unfold clausesOf stringsSplit
      rw [hd, splitOn_first a b ha, if_neg (by decide)]
      rw [show envSep.data = [','] from rfl, genSplit_eq_splitOn ',' _ _ (Nat.le_refl _)]
      rfl
    have hs : stripClauses tag = ⟨a⟩ := by
      unfold stripClauses
      simp only [hi, hd, take_length_append]
    unfold parseEnvTag
    rw [if_neg (by simp [h1, h2]), hi, hc, hs]
    simp only [hd, take_length_append, show envSep.data.length = 1 from rfl,
      drop_length_succ_append]

/-- The pattern finds no match exactly in the clauses without word character. -/
theorem FindStringSubmatch_eq_none (clause : String) :
    FindStringSubmatch clause = none ↔ ∀ ch ∈ clause.data, isWordChar ch = false := by
  unfold FindStringSubmatch
  cases hd : clause.data.dropWhile (fun c => !isWordChar c) with
  | nil =>
    simp only [true_iff]
    intro ch hch
    have := List.dropWhile_eq_nil_iff.1 hd ch hch
    simpa using this
  | cons x xs =>
    have hne : ¬ ∀ ch ∈ clause.data, isWordChar ch = false := by
      intro hall
      have : clause.data.dropWhile (fun c => !isWordChar c) = [] :=
        List.dropWhile_eq_nil_iff.2 (fun ch hch => by simp [hall ch hch])
      rw [hd] at this
      exact List.cons_ne_nil _ _ this
    simp only [hne, iff_false]
    split <;> simp

/-- In a clause with a word character the pattern matches, and the name it
captures is the first maximal run of word characters. -/
theorem FindStringSubmatch_name (clause : String)
    (h : ∃ ch ∈ clause.data, isWordChar ch = true) :
    ∃ args, FindStringSubmatch clause = some (clauseName clause, args) := by
  unfold FindStringSubmatch clauseName
  cases hd : clause.data.dropWhile (fun c => !isWordChar c) with
  | nil =>
    obtain ⟨ch, hch, hw⟩ := h
    have := List.dropWhile_eq_nil_iff.1 hd ch hch
    simp [hw] at this
  | cons x xs =>
    simp only []
    split
    · exact ⟨_, rfl⟩
    · exact ⟨_, rfl⟩

/-- The first maximal run of word characters of a clause: what precedes it has
no word character, it is not empty, and what follows does not start with a
word character. -/
theorem clauseName_spec (clause : String) (h : ∃ ch ∈ clause.data, isWordChar ch = true) :
    ∃ junk rest, clause.data = junk ++ (clauseName clause).data ++ rest ∧
      (∀ c ∈ junk, isWordChar c = false) ∧ (clauseName clause).data ≠ [] ∧
      (∀ c ∈ (clauseName clause).data, isWordChar c = true) ∧
      (∀ c, rest.head? = some c → isWordChar c = false) := by
  refine ⟨clause.data.takeWhile (fun c => !isWordChar c),
    (clause.data.dropWhile (fun c => !isWordChar c)).dropWhile isWordChar, ?_, ?_, ?_, ?_, ?_⟩
  · unfold clauseName
    rw [List.append_assoc, List.takeWhile_append_dropWhile, List.takeWhile_append_dropWhile]
  · intro c hc
    have := List.mem_takeWhile_imp hc
    simpa using this
  · unfold clauseName
    cases hd : clause.data.dropWhile (fun c => !isWordChar c) with
    | nil =>
      obtain ⟨ch, hch, hw⟩ := h
      have := List.dropWhile_eq_nil_iff.1 hd ch hch
      simp [hw] at this
    | cons x xs =>
      have hx : isWordChar x = true := by
        have := List.head_dropWhile_not (fun c => !isWordChar c) clause.data
          (by rw [hd]; exact List.cons_ne_nil _ _)
        simpa [hd] using this
      simp [List.takeWhile_cons, hx]
  · intro c hc
    exact List.mem_takeWhile_imp hc
  · intro c hc
    cases hr : (clause.data.dropWhile (fun c => !isWordChar c)).dropWhile isWordChar with
    | nil => rw [hr] at hc; simp at hc
    | cons y ys =>
      rw [hr] at hc
      simp only [List.head?_cons, Option.some.injEq] at hc
      subst hc
      have := List.head_dropWhile_not isWordChar
        (clause.data.dropWhile (fun c => !isWordChar c)) (by rw [hr]; exact List.cons_ne_nil _ _)
      simpa [hr] using this

/-- The pattern on a clause written as a word, "=", and a text: the name is the
word and the arguments are the longest prefix of the text made of characters of
the class `[-\w\s]`. -/
theorem FindStringSubmatch_name_args (name args : String) (hne : name ≠ "")
    (hw : ∀ c ∈ name.data, isWordChar c = true) :
    FindStringSubmatch (name ++ "=" ++ args)
      = some (name, ⟨args.data.takeWhile isArgsChar⟩) := by
  have hdata : (name ++ "=" ++ args).data = name.data ++ '=' :: args.data := by
    simp [String.data_append]
  obtain ⟨x, xs, hx⟩ : ∃ x xs, name.data = x :: xs := by
    cases hn : name.data with
    | nil => exact absurd (String.ext hn) hne
    | cons x xs => exact ⟨x, xs, rfl⟩
  have hxw : isWordChar x = true := hw x (by simp [hx])
  have hdrop : (name ++ "=" ++ args).data.dropWhile (fun c => !isWordChar c)
      = x :: (xs ++ '=' :: args.data) := by
    rw [hdata, hx, List.cons_append, List.dropWhile_cons_of_neg (by simp [hxw])]
  have htake : (x :: (xs ++ '=' :: args.data)).takeWhile isWordChar = name.data := by
    rw [← List.cons_append, ← hx, List.takeWhile_append_of_pos hw]
    simp [isWordChar]
  have hrest : (x :: (xs ++ '=' :: args.data)).dropWhile isWordChar = '=' :: args.data := by
    rw [← List.cons_append, ← hx, List.dropWhile_append_of_pos hw]
    simp [isWordChar]
  unfold FindStringSubmatch
  rw [hdrop]
  simp only [htake, hrest]

/-- The pattern on a clause that is just a word: the name is the word and the
arguments are empty. -/
theorem FindStringSubmatch_bare (name : String) (hne : name ≠ "")
    (hw : ∀ c ∈ name.data, isWordChar c = true) :
    FindStringSubmatch name = some (name, "") := by
  obtain ⟨x, xs, hx⟩ : ∃ x xs, name.data = x :: xs := by
    cases hn : name.data with
    | nil => exact absurd (String.ext hn) hne
    | cons x xs => exact ⟨x, xs, rfl⟩
  have hxw : isWordChar x = true := hw x (by simp [hx])
  have hdrop : name.data.dropWhile (fun c => !isWordChar c) = x :: xs := by
    rw [hx, List.dropWhile_cons_of_neg (by simp [hxw])]
  have htake : (x :: xs).takeWhile isWordChar = name.data := by
    rw [← hx]
    exact List.takeWhile_eq_self_iff.2 hw
  have hrest : (x :: xs).dropWhile isWordChar = [] := by
    rw [← hx]
    exact List.dropWhile_eq_nil_iff.2 hw
  unfold FindStringSubmatch
  rw [hdrop]
  simp only [htake, hrest]

theorem takeWhile_isArgsChar (args : String) (h : ∀ c ∈ args.data, isArgsChar c = true) :
    (⟨args.data.takeWhile isArgsChar⟩ : String) = args :=
  String.ext (List.takeWhile_eq_self_iff.2 h)

theorem tagOf_mem_sep (envName : String) (clauses : List String) (h : clauses ≠ []) :
    ',' ∈ (tagOf envName clauses).data := by
  rw [tagOf_data]
  cases clauses with
  | nil => exact absurd rfl h
  | cons c cs => simp

/-- The annotation parser on a written annotation with at least one clause:
the name is the name part and the validators are those of the clause loop. -/
theorem parseEnvTag_tagOf (reg : Registry) (envName : String) (clauses : List String)
    (hn : ',' ∉ envName.data) (hc : ∀ c ∈ clauses, ',' ∉ c.data) (hne : clauses ≠ []) :
    parseEnvTag reg (tagOf envName clauses) envSep =
      match parseOptions reg clauses [] with
      | .error p => .error p
      | .ok validators => .ok (envName, validators) := by
  have hm := tagOf_mem_sep envName clauses hne
  have h1 : tagOf envName clauses ≠ "" := by
    intro e
    rw [e] at hm
    simp at hm
  have h2 : tagOf envName clauses ≠ "-" := by
    intro e
    rw [e] at hm
    exact absurd hm (by decide)
  rw [parseEnvTag_clausesOf reg _ h1 h2, clausesOf_tagOf envName clauses hn hc,
    stripClauses_tagOf envName clauses hn]

theorem sep_not_mem_word (name : String) (hw : ∀ c ∈ name.data, isWordChar c = true) :
    ',' ∉ name.data := fun h => absurd (hw ',' h) (by decide)

theorem sep_not_mem_clause (name args : String) (hw : ∀ c ∈ name.data, isWordChar c = true)
    (ha : ∀ c ∈ args.data, isArgsChar c = true) : ',' ∉ (name ++ "=" ++ args).data := by
  intro h
  simp only [String.data_append, List.mem_append] at h
  rcases h with (h | h) | h
  · exact absurd (hw ',' h) (by decide)
  · exact absurd h (by decide)
  · exact absurd (ha ',' h) (by decide)

/-- One iteration of the field loop for a leaf whose annotation gives one
validator. -/
theorem lookupField_one_validator (reg : Registry) (env : Env) (tag envName : String)
    (x : Validator) (v : Value) (errs : Option GoError) (hv : v.isLeaf = true)
    (hp : parseEnvTag reg tag envSep = .ok (envName, [x])) (hn : envName ≠ "") :
    lookupField reg env (.mk tag true v) errs =
      .ok (.mk tag true (setFieldValue v envName (env envName)).1,
        if (setFieldValue v envName (env envName)).2.isSome = true then
          errorsJoin [match x.Validate envName (env envName) with
            | some err => errorsJoin [errs, some err]
            | none => errs, (setFieldValue v envName (env envName)).2]
        else
          match x.Validate envName (env envName) with
          | some err => errorsJoin [errs, some err]
          | none => errs) := by
  rw [lookupField_leaf reg env tag v errs hv, hp]
  simp only [hn, if_false, runValidators]

/-- C13 (counterexample): a name without separator and without "=" that has a
character outside the word class; once registered, a clause with that name
yields no validator, and `Lookup` does not run the registered validator. -/
theorem C13_counterexample :
    ("my-check" : String) ≠ "" ∧ ',' ∉ ("my-check" : String).data ∧
    '=' ∉ ("my-check" : String).data ∧
    parseEnvTag (AddValidator validatorRegistry "my-check" (some newRequiredValidator))
      "HOST,my-check" envSep = .ok ("HOST", []) ∧
    parseEnvTag (AddValidator validatorRegistry "my-check" (some newRequiredValidator))
      "HOST,my-check=x" envSep = .ok ("HOST", []) ∧
    Lookup (AddValidator validatorRegistry "my-check" (some newRequiredValidator))
      (fun _ => "") (.struct [.mk "HOST,my-check" true (.string "")])
      = .ok (.struct [.mk "HOST,my-check" true (.string "")], none) :=
  ⟨by decide, by decide, by decide, rfl, rfl, rfl⟩

/-- C13 (amended): for a non-empty name made of word characters, a factory `f`
that is not nil, a name part without separator and arguments made of
characters of the class `[-\w\s]`: after `AddValidator reg name f` the
annotation with the clause `name` yields exactly `f ""`, the annotation with
the clause `name=args` yields exactly `f args`, and the field loop runs that
validator against the value of the variable of the field. -/
theorem C13_registered_validator_is_used (reg : Registry) (env : Env)
    (name envName args : String) (f : String → Validator)
    (hne : name ≠ "") (hw : ∀ c ∈ name.data, isWordChar c = true)
    (ha : ∀ c ∈ args.data, isArgsChar c = true) (hsep : ',' ∉ envName.data) :
    parseEnvTag (AddValidator reg name (some f)) (envName ++ "," ++ name) envSep
      = .ok (envName, [f ""]) ∧
    parseEnvTag (AddValidator reg name (some f)) (envName ++ "," ++ name ++ "=" ++ args) envSep
      = .ok (envName, [f args]) ∧
    (∀ (v : Value) (errs : Option GoError), v.isLeaf = true → envName ≠ "" →
      lookupField (AddValidator reg name (some f)) env
          (.mk (envName ++ "," ++ name ++ "=" ++ args) true v) errs =
        .ok (.mk (envName ++ "," ++ name ++ "=" ++ args) true
            (setFieldValue v envName (env envName)).1,
          if (setFieldValue v envName (env envName)).2.isSome = true then
            errorsJoin [match (f args).Validate envName (env envName) with
              | some err => errorsJoin [errs, some err]
              | none => errs, (setFieldValue v envName (env envName)).2]
          else
            match (f args).Validate envName (env envName) with
            | some err => errorsJoin [errs, some err]
            | none => errs)) ∧
    (∀ (v : Value), v.isLeaf = true → envName ≠ "" →
      walkField (AddValidator reg name (some f)) env
          (.mk (envName ++ "," ++ name ++ "=" ++ args) true v) =
        .ok (.mk (envName ++ "," ++ name ++ "=" ++ args) true
            (setFieldValue v envName (env envName)).1,
          ((f args).Validate envName (env envName)).toList
            ++ (setFieldValue v envName (env envName)).2.toList)) := by
  have hreg : AddValidator reg name (some f) name = some (some f) := by simp [AddValidator]
  have h1 : parseEnvTag (AddValidator reg name (some f)) (envName ++ "," ++ name) envSep
      = .ok (envName, [f ""]) := by
    have := parseEnvTag_tagOf (AddValidator reg name (some f)) envName [name] hsep
      (by
        intro c hc
        rw [List.mem_singleton.1 hc]
        exact sep_not_mem_word name hw) (by simp)
    rw [show tagOf envName [name] = envName ++ "," ++ name from rfl] at this
    rw [this, parseOptions_cons, clauseValidator, FindStringSubmatch_bare name hne hw]
    simp [hreg, ValidatorFactory.call, parseOptions]
  have h2 : parseEnvTag (AddValidator reg name (some f))
      (envName ++ "," ++ name ++ "=" ++ args) envSep = .ok (envName, [f args]) := by
    have := parseEnvTag_tagOf (AddValidator reg name (some f)) envName [name ++ "=" ++ args] hsep
      (by
        intro c hc
        rw [List.mem_singleton.1 hc]
        exact sep_not_mem_clause name args hw ha) (by simp)
    rw [show tagOf envName [name ++ "=" ++ args] = envName ++ "," ++ name ++ "=" ++ args from by
      simp [tagOf, String.append_assoc]] at this
    rw [this, parseOptions_cons, clauseValidator, FindStringSubmatch_name_args name args hne hw,
      takeWhile_isArgsChar args ha]
    simp [hreg, ValidatorFactory.call, parseOptions]
  refine ⟨h1, h2, ?_, ?_⟩
  · intro v errs hv hn
    exact lookupField_one_validator _ env _ envName (f args) v errs hv h2 hn
  · intro v hv hn
    rw [walkField_leaf _ env _ v hv, h2]
    simp only [hn, if_false, List.filterMap_cons, List.filterMap_nil]
    cases hx : (f args).Validate envName (env envName) <;> rfl

theorem C13_registered_validator_is_used_witness :
    parseEnvTag (AddValidator validatorRegistry "mock" (some equalsFactory))
      ("MODE" ++ "," ++ "mock") envSep = .ok ("MODE", [equalsFactory ""]) ∧
    parseEnvTag (AddValidator validatorRegistry "mock" (some equalsFactory))
      ("MODE" ++ "," ++ "mock" ++ "=" ++ "on") envSep = .ok ("MODE", [equalsFactory "on"]) ∧
    walkField (AddValidator validatorRegistry "mock" (some equalsFactory))
        (fun k => if k = "MODE" then "off" else "")
        (.mk ("MODE" ++ "," ++ "mock" ++ "=" ++ "on") true (.string "")) =
      .ok (.mk ("MODE" ++ "," ++ "mock" ++ "=" ++ "on") true
          (setFieldValue (.string "") "MODE" "off").1,
        ((equalsFactory "on").Validate "MODE" "off").toList
          ++ (setFieldValue (.string "") "MODE" "off").2.toList) :=
  ⟨(C13_registered_validator_is_used validatorRegistry (fun k => if k = "MODE" then "off" else "")
      "mock" "MODE" "on" equalsFactory (by decide) (by decide) (by decide) (by decide)).1,
   (C13_registered_validator_is_used validatorRegistry (fun k => if k = "MODE" then "off" else "")
      "mock" "MODE" "on" equalsFactory (by decide) (by decide) (by decide) (by decide)).2.1,
   (C13_registered_validator_is_used validatorRegistry (fun k => if k = "MODE" then "off" else "")
      "mock" "MODE" "on" equalsFactory (by decide) (by decide) (by decide) (by decide)).2.2.2
      (.string "") rfl (by decide)⟩

/-- The clause loop on clauses written as a registered word, "=", and a text
without separator: one validator for each clause, in the order of the clauses,
built from the longest prefix of the text made of characters of the class
`[-\w\s]`. -/
theorem parseOptions_specs (reg : Registry) (facs : String → String → Validator) :
    ∀ (specs : List (String × String)) (acc : List Validator),
      (∀ s ∈ specs, s.1 ≠ "" ∧ (∀ c ∈ s.1.data, isWordChar c = true) ∧
        reg s.1 = some (some (facs s.1))) →
      parseOptions reg (specs.map (fun s => s.1 ++ "=" ++ s.2)) acc
        = .ok (acc ++ specs.map (fun s => facs s.1 ⟨s.2.data.takeWhile isArgsChar⟩))
  | [], acc, _ => by simp [parseOptions]
  | s :: rest, acc, h => by
    obtain ⟨h1, h2, h3⟩ := h s (List.mem_cons_self _ _)
    rw [List.map_cons, parseOptions_cons, clauseValidator,
      FindStringSubmatch_name_args s.1 s.2 h1 h2]
    simp only [h3, ValidatorFactory.call]
    rw [parseOptions_specs reg facs rest _ (fun x hx => h x (List.mem_cons_of_mem _ hx))]
    simp

/-- C14 (counterexample): the arguments "a.b c" do not contain the separator,
yet the factory of `expectedValues` is invoked with "a" only, so that the
listed value "a.b" is refused. -/
theorem C14_counterexample :
    ',' ∉ ("a.b c" : String).data ∧
    parseEnvTag validatorRegistry "ENV,expectedValues=a.b c" envSep
      = .ok ("ENV", [newExpectedValueValidator "a"]) ∧
    (newExpectedValueValidator "a.b c").Validate "ENV" "a.b" = none ∧
    (newExpectedValueValidator "a").Validate "ENV" "a.b"
      = some (.errorString "ENV is unexpected value: a.b") :=
  ⟨by decide, rfl, rfl, rfl⟩

theorem parseOptions_error (reg : Registry) :
    ∀ (clauses : List String) (acc : List Validator) (p : Panic),
      parseOptions reg clauses acc = .error p → p = .nilFunc
  | [], acc, p, h => by simp [parseOptions] at h
  | c :: cs, acc, p, h => by
    rw [parseOptions_cons] at h
    cases hc : clauseValidator reg c with
    | error q =>
      rw [hc] at h
      simp only [Except.error.injEq] at h
      subst h
      exact clauseValidator_error reg c q hc
    | ok o =>
      rw [hc] at h
      exact parseOptions_error reg cs _ p h

/-- The name part of an annotation: a prefix without separator that is either
the whole annotation or is followed by a separator; it is empty exactly when
the annotation is empty or starts with a separator. -/
theorem stripClauses_spec (tag : String) :
    (∃ rest, tag.data = (stripClauses tag).data ++ rest ∧ (rest = [] ∨ rest.head? = some ',')) ∧
    ',' ∉ (stripClauses tag).data ∧
    (stripClauses tag = "" ↔ tag = "" ∨ tag.data.head? = some ',') := by
  rcases stringsIndex_envSep tag with ⟨hn, hi⟩ | ⟨a, b, hd, ha, hi⟩
  · rw [stripClauses_no_sep tag hn]
    refine ⟨⟨[], by simp, Or.inl rfl⟩, hn, ?_⟩
    constructor
    · exact fun h => Or.inl h
    · rintro (h | h)
      · exact h
      · exact absurd (List.mem_of_mem_head? h) hn
  · have hs : stripClauses tag = ⟨a⟩ := by
      unfold stripClauses
      simp only [hi, hd, take_length_append]
    rw [hs]
    refine ⟨⟨',' :: b, hd, Or.inr rfl⟩, ha, ?_⟩
    constructor
    · intro h
      have ha0 : a = [] := congrArg String.data h
      right
      rw [hd, ha0]
      rfl
    · rintro (h | h)
      · rw [h] at hd
        have := congrArg List.length hd
        simp at this
        omega
      · cases a with
        | nil => rfl
        | cons x xs =>
          rw [hd] at h
          simp only [List.cons_append, List.head?_cons, Option.some.injEq] at h
          exact absurd (by simp [h]) ha

/-- C15 (counterexample): the annotation ",required" is neither empty nor the
sentinel, and the name returned for it is empty. -/
theorem C15_counterexample :
    (",required" : String) ≠ "" ∧ (",required" : String) ≠ "-" ∧
    parseEnvTag validatorRegistry ",required" envSep = .ok ("", [.requiredValidator]) :=
  ⟨by decide, by decide, rfl⟩

/-- C15 (amended): for an annotation that is neither empty nor the sentinel,
`parseEnvTag` either panics in the clause loop or returns as name the part of
the annotation before the first separator (the whole annotation when it has no
separator, in which case it always returns); that name is empty exactly when
the annotation starts with the separator. -/
theorem C15_env_name (reg : Registry) (tag : String) (h1 : tag ≠ "") (h2 : tag ≠ "-") :
    (match parseEnvTag reg tag envSep with
      | .ok (envName, _) => envName = stripClauses tag
      | .error p => p = .nilFunc ∧ parseOptions reg (clausesOf tag) [] = .error .nilFunc) ∧
    (',' ∉ tag.data → parseEnvTag reg tag envSep = .ok (tag, [])) ∧
    (∃ rest, tag.data = (stripClauses tag).data ++ rest ∧ (rest = [] ∨ rest.head? = some ',')) ∧
    ',' ∉ (stripClauses tag).data ∧
    (stripClauses tag = "" ↔ tag.data.head? = some ',') := by
  obtain ⟨s1, s2, s3⟩ := stripClauses_spec tag
  refine ⟨?_, fun hn => parseEnvTag_no_sep reg tag h1 h2 hn, s1, s2, ?_⟩
  · rw [parseEnvTag_clausesOf reg tag h1 h2]
    cases hp : parseOptions reg (clausesOf tag) [] with
    | error p =>
      have := parseOptions_error reg _ _ p hp
      subst this
      exact ⟨rfl, rfl⟩
    | ok vs => rfl
  · rw [s3]
    constructor
    · rintro (h | h)
      · exact absurd h h1
      · exact h
    · exact fun h => Or.inr h

theorem C15_env_name_witness :
    (match parseEnvTag validatorRegistry "HOST,required" envSep with
      | .ok (envName, _) => envName = stripClauses "HOST,required"
      | .error p => p = .nilFunc ∧
        parseOptions validatorRegistry (clausesOf "HOST,required") [] = .error .nilFunc) ∧
    stripClauses "HOST,required" = "HOST" ∧
    (stripClauses ",required" = "" ↔ (",required" : String).data.head? = some ',') :=
  ⟨(C15_env_name validatorRegistry "HOST,required" (by decide) (by decide)).1, by decide,
   (C15_env_name validatorRegistry ",required" (by decide) (by decide)).2.2.2.2⟩

/-- The name of a clause written as a word, alone or followed by "=" and a
text, is the word. -/
theorem clauseName_written (name args : String) (hne : name ≠ "")
    (hw : ∀ c ∈ name.data, isWordChar c = true) :
    clauseName name = name ∧ clauseName (name ++ "=" ++ args) = name := by
  obtain ⟨x, xs, hx⟩ : ∃ x xs, name.data = x :: xs := by
    cases hn : name.data with
    | nil => exact absurd (String.ext hn) hne
    | cons x xs => exact ⟨x, xs, rfl⟩
  have hxw : isWordChar x = true := hw x (by simp [hx])
  constructor
  · obtain ⟨a, ha⟩ := FindStringSubmatch_name name ⟨x, by simp [hx], hxw⟩
    rw [FindStringSubmatch_bare name hne hw] at ha
    simp only [Option.some.injEq, Prod.mk.injEq] at ha
    exact ha.1.symm
  · obtain ⟨a, ha⟩ := FindStringSubmatch_name (name ++ "=" ++ args)
      ⟨x, by simp [String.data_append, hx], hxw⟩
    rw [FindStringSubmatch_name_args name args hne hw] at ha
    simp only [Option.some.injEq, Prod.mk.injEq] at ha
    exact ha.1.symm

/-- A clause with a word character whose name is not a key of the registry
contributes nothing, and no factory is called for it. -/
theorem clauseValidator_unknown (reg : Registry) (clause : String)
    (hword : ∃ ch ∈ clause.data, isWordChar ch = true)
    (hunknown : reg (clauseName clause) = none) : clauseValidator reg clause = .ok none := by
  obtain ⟨a, ha⟩ := FindStringSubmatch_name clause hword
  rw [clauseValidator, ha]
  simp only [hunknown]

/-- C16 (counterexample): the annotation of the field `Gender` of the example
program has a clause whose name, `expectedValue`, is not in the registry;
`parseEnvTag` returns, with no validator for the clause. -/
theorem C16_counterexample :
    validatorRegistry "expectedValue" = none ∧
    parseEnvTag validatorRegistry "gender,expectedValue=male female" envSep
      = .ok ("gender", []) ∧
    ¬ ∃ p, parseEnvTag validatorRegistry "gender,expectedValue=male female" envSep = .error p := by
  refine ⟨rfl, rfl, ?_⟩
  rintro ⟨p, hp⟩
  rw [show parseEnvTag validatorRegistry "gender,expectedValue=male female" envSep
    = .ok ("gender", []) from rfl] at hp
  exact Except.noConfusion hp

/-- C16 (amended): a clause that has a word character and whose name (its
first run of word characters; the word itself for a clause written `name` or
`name=args`) is not a key of the registry is skipped: no factory is called for
it, it contributes no validator, and `parseEnvTag` gives what the clause loop
gives for the other clauses. -/
theorem C16_unknown_name_is_skipped (reg : Registry) (envName clause : String)
    (pre post : List String) (hsep : ',' ∉ envName.data)
    (hcl : ∀ c ∈ pre ++ clause :: post, ',' ∉ c.data)
    (hword : ∃ ch ∈ clause.data, isWordChar ch = true)
    (hunknown : reg (clauseName clause) = none) :
    clauseValidator reg clause = .ok none ∧
    parseOptions reg (pre ++ clause :: post) [] = parseOptions reg (pre ++ post) [] ∧
    parseEnvTag reg (tagOf envName (pre ++ clause :: post)) envSep =
      (match parseOptions reg (pre ++ post) [] with
        | .error p => .error p
        | .ok validators => .ok (envName, validators)) ∧
    parseEnvTag reg (tagOf envName [clause]) envSep = .ok (envName, []) ∧
    (∀ name args : String, name ≠ "" → (∀ c ∈ name.data, isWordChar c = true) →
      clauseName name = name ∧ clauseName (name ++ "=" ++ args) = name) := by
  have hcv := clauseValidator_unknown reg clause hword hunknown
  have hskip := parseOptions_skip reg clause post hcv pre []
  refine ⟨hcv, hskip, ?_, ?_, fun name args hne hw => clauseName_written name args hne hw⟩
  · rw [parseEnvTag_tagOf reg envName _ hsep hcl (by simp), hskip]
  · rw [parseEnvTag_tagOf reg envName [clause] hsep
      (fun c hc => hcl c (by
        rw [List.mem_singleton.1 hc]
        simp)) (by simp), parseOptions_cons, hcv]
    rfl

theorem C16_unknown_name_is_skipped_witness :
    parseEnvTag validatorRegistry
        (tagOf "gender" (["required"] ++ "expectedValue=male female" :: ["required"])) envSep =
      (match parseOptions validatorRegistry (["required"] ++ ["required"]) [] with
        | .error p => .error p
        | .ok validators => .ok ("gender", validators)) ∧
    tagOf "gender" (["required"] ++ "expectedValue=male female" :: ["required"])
      = "gender,required,expectedValue=male female,required" ∧
    parseOptions validatorRegistry (["required"] ++ ["required"]) []
      = .ok [.requiredValidator, .requiredValidator] :=
  ⟨(C16_unknown_name_is_skipped validatorRegistry "gender" "expectedValue=male female"
      ["required"] ["required"] (by decide) (by decide) (by decide) rfl).2.2.1,
   by decide, rfl⟩

/-- A clause without word character whose text is not registered with a
factory makes the loop body call a nil function. -/
theorem clauseValidator_malformed (reg : Registry) (clause : String)
    (hnoword : ∀ ch ∈ clause.data, isWordChar ch = false) (hreg : reg.index clause = none) :
    clauseValidator reg clause = .error .nilFunc := by
  rw [clauseValidator, (FindStringSubmatch_eq_none clause).2 hnoword]
  simp only [hreg, ValidatorFactory.call]

/-- C17: a clause that fails the pattern (it has no word character) is not
dropped: the loop of `parseEnvTag` calls the registry entry for the text of
the clause, and when there is none (as for the empty clause of "NAME," in the
initial registry) the call of the nil function panics, so that neither
`parseEnvTag` nor `Lookup` returns. -/
theorem C17_malformed_clause_panics (reg : Registry) (envName clause : String)
    (pre post : List String) (hsep : ',' ∉ envName.data)
    (hcl : ∀ c ∈ pre ++ clause :: post, ',' ∉ c.data)
    (hnoword : ∀ ch ∈ clause.data, isWordChar ch = false)
    (hreg : reg.index clause = none)
    (hpre : ∀ c ∈ pre, ∃ o, clauseValidator reg c = .ok o) :
    FindStringSubmatch clause = none ∧
    clauseValidator reg clause = .error .nilFunc ∧
    parseEnvTag reg (tagOf envName (pre ++ clause :: post)) envSep = .error .nilFunc ∧
    (∀ (env : Env) (v : Value), v.isLeaf = true →
      Lookup reg env (.struct [.mk (tagOf envName (pre ++ clause :: post)) true v])
        = .error .nilFunc) := by
  have hcv := clauseValidator_malformed reg clause hnoword hreg
  have hp : parseEnvTag reg (tagOf envName (pre ++ clause :: post)) envSep = .error .nilFunc := by
    rw [parseEnvTag_tagOf reg envName _ hsep hcl (by simp),
      parseOptions_panic reg clause post .nilFunc hcv pre [] hpre]
  refine ⟨(FindStringSubmatch_eq_none clause).2 hnoword, hcv, hp, ?_⟩
  intro env v hv
  simp only [Lookup, lookupValue, lookupFields, lookupField_leaf reg env _ v none hv, hp]

theorem C17_malformed_clause_panics_witness :
    parseEnvTag validatorRegistry (tagOf "NAME" ([] ++ "" :: [])) envSep = .error .nilFunc ∧
    tagOf "NAME" ([] ++ "" :: []) = "NAME," ∧
    parseEnvTag validatorRegistry (tagOf "NAME" (["required"] ++ "!!" :: ["required"])) envSep
      = .error .nilFunc ∧
    tagOf "NAME" (["required"] ++ "!!" :: ["required"]) = "NAME,required,!!,required" ∧
    Lookup validatorRegistry (fun k => if k = "NAME" then "x" else "")
      (.struct [.mk (tagOf "NAME" ([] ++ "" :: [])) true (.string "")]) = .error .nilFunc :=
  ⟨(C17_malformed_clause_panics validatorRegistry "NAME" "" [] [] (by decide) (by decide)
      (by decide) rfl (by simp)).2.2.1,
   by decide,
   (C17_malformed_clause_panics validatorRegistry "NAME" "!!" ["required"] ["required"]
      (by decide) (by decide) (by decide) rfl
      (by
        intro c hc
        rw [List.mem_singleton.1 hc]
        exact ⟨some .requiredValidator, rfl⟩)).2.2.1,
   by decide,
   (C17_malformed_clause_panics validatorRegistry "NAME" "" [] [] (by decide) (by decide)
      (by decide) rfl (by simp)).2.2.2 _ (.string "") rfl⟩

theorem validatorRegistry_no_nil (name : String) : validatorRegistry name ≠ some none := by
  unfold validatorRegistry
  by_cases h1 : name = requiredFlag
  · simp [h1]
  · by_cases h2 : name = expectedValuesFlag
    · rw [if_neg h1, if_pos h2]
      simp
    · simp [h1, h2]

/-- C18 (counterexample): a registry in which a name is bound to the nil
factory; the clause `x` has a word character and `parseEnvTag` panics. -/
theorem C18_counterexample :
    (∀ c ∈ clausesOf "A,x", ∃ ch ∈ c.data, isWordChar ch = true) ∧
    AddValidator validatorRegistry "x" none "x" = some none ∧
    parseEnvTag (AddValidator validatorRegistry "x" none) "A,x" envSep = .error .nilFunc :=
  ⟨by decide, rfl, rfl⟩

/-- C18 (amended): in a registry without nil factory, for every annotation in
which each clause after the name has a word character, `parseEnvTag` returns:
the validators are, in the order of the clauses, one for each clause whose
first maximal run of word characters is a key of the registry (the factory
applied to the arguments captured by the pattern) and none for the others, so
at most one per clause; and the pattern fails, which is what leads to the call
of the registry entry for the text of the clause, only on clauses without
word character. -/
theorem C18_word_clauses_do_not_panic (reg : Registry) (tag : String)
    (hreg : ∀ name, reg name ≠ some none)
    (hword : ∀ c ∈ clausesOf tag, ∃ ch ∈ c.data, isWordChar ch = true) :
    parseEnvTag reg tag envSep = .ok (if tag = "-" then "" else stripClauses tag,
      (clausesOf tag).filterMap (fun c =>
        match reg (clauseName c) with
        | some (some f) => some (f (((FindStringSubmatch c).map Prod.snd).getD ""))
        | _ => none)) ∧
    ((clausesOf tag).filterMap (fun c =>
        match reg (clauseName c) with
        | some (some f) => some (f (((FindStringSubmatch c).map Prod.snd).getD ""))
        | _ => none)).length ≤ (clausesOf tag).length ∧
    (∀ c ∈ clausesOf tag, ∃ args, FindStringSubmatch c = some (clauseName c, args)) ∧
    (∀ c ∈ clausesOf tag, ∃ junk rest, c.data = junk ++ (clauseName c).data ++ rest ∧
      (∀ ch ∈ junk, isWordChar ch = false) ∧ (clauseName c).data ≠ [] ∧
      (∀ ch ∈ (clauseName c).data, isWordChar ch = true) ∧
      (∀ ch, rest.head? = some ch → isWordChar ch = false)) ∧
    (∀ clause : String,
      FindStringSubmatch clause = none ↔ ∀ ch ∈ clause.data, isWordChar ch = false) := by
  refine ⟨?_, List.length_filterMap_le _ _,
    fun c hc => FindStringSubmatch_name c (hword c hc),
    fun c hc => clauseName_spec c (hword c hc), FindStringSubmatch_eq_none⟩
  by_cases h0 : tag = "" ∨ tag = "-"
  · have hc : clausesOf tag = [] := by
      rcases h0 with h | h <;> subst h <;> decide
    rw [parseEnvTag_skip reg envSep tag h0, hc]
    rcases h0 with h | h <;> subst h <;> rfl
  · have h1 : tag ≠ "" := fun e => h0 (Or.inl e)
    have h2 : tag ≠ "-" := fun e => h0 (Or.inr e)
    have hok := parseOptions_ok reg (fun c =>
        match reg (clauseName c) with
        | some (some f) => some (f (((FindStringSubmatch c).map Prod.snd).getD ""))
        | _ => none) (clausesOf tag) [] (by
      intro c hc
      obtain ⟨a, ha⟩ := FindStringSubmatch_name c (hword c hc)
      rw [clauseValidator, ha]
      cases hr : reg (clauseName c) with
      | none => simp only [hr]
      | some cv =>
        cases cv with
        | none => exact absurd hr (hreg _)
        | some f => simp only [hr, ha, ValidatorFactory.call, Option.map_some', Option.getD_some])
    rw [parseEnvTag_clausesOf reg tag h1 h2, hok, if_neg h2]
    simp

theorem C18_word_clauses_do_not_panic_witness :
    parseEnvTag validatorRegistry "gender,required,expectedValue=male female,!required" envSep
      = .ok (if ("gender,required,expectedValue=male female,!required" : String) = "-" then ""
          else stripClauses "gender,required,expectedValue=male female,!required",
        (clausesOf "gender,required,expectedValue=male female,!required").filterMap (fun c =>
          match validatorRegistry (clauseName c) with
          | some (some f) => some (f (((FindStringSubmatch c).map Prod.snd).getD ""))
          | _ => none)) ∧
    clausesOf "gender,required,expectedValue=male female,!required"
      = ["required", "expectedValue=male female", "!required"] ∧
    parseEnvTag validatorRegistry "gender,required,expectedValue=male female,!required" envSep
      = .ok ("gender", [.requiredValidator, .requiredValidator]) :=
  ⟨(C18_word_clauses_do_not_panic validatorRegistry
      "gender,required,expectedValue=male female,!required" validatorRegistry_no_nil
      (by decide)).1,
   by decide, rfl⟩

theorem TrimSpace_all_space (s : String) (h : ∀ c ∈ s.data, unicodeIsSpace c = true) :
    TrimSpace s = "" := by
  unfold TrimSpace
  rw [List.dropWhile_eq_nil_iff.2 h]
  rfl

/-- C19: for a string field annotated `envName ++ ",required"` (the name
without separator and not empty, `required` the built-in validator) whose
variable holds a non-empty value made of white space only: the validator is
given the raw value and accepts it, the binder stores the trimmed value, which
is empty; so the iteration of the field loop adds no error and leaves the
field empty, `Lookup` on the structure made of that field returns no error,
and in any structure, when `Lookup` returns, the field is empty and the error
is made of the failures of the other fields only. -/
theorem C19_required_sees_raw_value (quote : String → String) (reg : Registry) (env : Env)
    (envName old : String)
    (hreg : reg requiredFlag = some (some newRequiredValidator))
    (hne : envName ≠ "") (hsep : ',' ∉ envName.data)
    (hraw : env envName ≠ "")
    (hspace : ∀ c ∈ (env envName).data, unicodeIsSpace c = true) :
    parseEnvTag reg (envName ++ ",required") envSep = .ok (envName, [.requiredValidator]) ∧
    Validator.requiredValidator.Validate envName (env envName) = none ∧
    setFieldValue (.string old) envName (env envName) = (.string "", none) ∧
    (∀ errs : Option GoError,
      lookupField reg env (.mk (envName ++ ",required") true (.string old)) errs
        = .ok (.mk (envName ++ ",required") true (.string ""), errs)) ∧
    Lookup reg env (.struct [.mk (envName ++ ",required") true (.string old)])
      = .ok (.struct [.mk (envName ++ ",required") true (.string "")], none) ∧
    (∀ (fields : List Field) (path : List Nat) (v' : Value) (err : Option GoError),
      fieldAt fields path = some (.mk (envName ++ ",required") true (.string old)) →
      Lookup reg env (.struct fields) = .ok (v', err) →
      ∃ fields', v' = .struct fields' ∧
        fieldAt fields' path = some (.mk (envName ++ ",required") true (.string "")) ∧
        (err = none ↔
          failuresBefore reg env fields path ++ failuresAfter reg env fields path = []) ∧
        ∀ e, err = some e → e.Error quote = "\n".intercalate
          ((failuresBefore reg env fields path ++ failuresAfter reg env fields path).map
            (fun x => x.Error quote))) := by
  have hp := parseEnvTag_required reg envName hreg hsep
  have hv : Validator.requiredValidator.Validate envName (env envName) = none := by
    simp [Validator.Validate, hraw]
  have hs : setFieldValue (.string old) envName (env envName) = (.string "", none) := by
    simp [setFieldValue, hraw, TrimSpace_all_space _ hspace]
  have hl : ∀ errs : Option GoError,
      lookupField reg env (.mk (envName ++ ",required") true (.string old)) errs
        = .ok (.mk (envName ++ ",required") true (.string ""), errs) := by
    intro errs
    rw [lookupField_one_validator reg env _ envName .requiredValidator (.string old) errs rfl
      hp hne, hs, hv]
    rfl
  have hw : walkField reg env (.mk (envName ++ ",required") true (.string old))
      = .ok (.mk (envName ++ ",required") true (.string ""), []) := by
    rw [walkField_leaf reg env _ (.string old) rfl, hp]
    simp [hne, hs, hv]
  refine ⟨hp, hv, hs, hl, ?_, ?_⟩
  · simp only [Lookup, lookupValue, lookupFields, hl]
  · intro fields path v' err hf hlk
    obtain ⟨fields', f', own, h1, h2, h3, h4⟩ := Lookup_fieldAt quote reg env hlk hf
    rw [hw] at h2
    simp only [Except.ok.injEq, Prod.mk.injEq] at h2
    obtain ⟨e1, e2⟩ := h2
    subst e1 e2
    refine ⟨fields', h1, h3, ?_⟩
    have := errRepr_text h4
    simpa using this

theorem C19_required_sees_raw_value_witness :
    Lookup validatorRegistry (fun k => if k = "HOST" then " \t " else "")
        (.struct [.mk ("HOST" ++ ",required") true (.string "old")])
      = .ok (.struct [.mk ("HOST" ++ ",required") true (.string "")], none) ∧
    Validator.requiredValidator.Validate "HOST"
      ((fun k => if k = "HOST" then " \t " else "") "HOST") = none :=
  ⟨(C19_required_sees_raw_value id validatorRegistry (fun k => if k = "HOST" then " \t " else "")
      "HOST" "old" rfl (by decide) (by decide) (by decide) (by decide)).2.2.2.2.1,
   (C19_required_sees_raw_value id validatorRegistry (fun k => if k = "HOST" then " \t " else "")
      "HOST" "old" rfl (by decide) (by decide) (by decide) (by decide)).2.1⟩

theorem parseEnvTag_error (reg : Registry) (tag : String) (p : Panic)
    (h : parseEnvTag reg tag envSep = .error p) : p = .nilFunc := by
  by_cases h0 : tag = "" ∨ tag = "-"
  · rw [parseEnvTag_skip reg envSep tag h0] at h
    exact Except.noConfusion h
  · rw [parseEnvTag_clausesOf reg tag (fun e => h0 (Or.inl e)) (fun e => h0 (Or.inr e))] at h
    cases hp : parseOptions reg (clausesOf tag) [] with
    | error q =>
      rw [hp] at h
      simp only [Except.error.injEq] at h
      subst h
      exact parseOptions_error reg _ _ q hp
    | ok vs =>
      rw [hp] at h
      exact Except.noConfusion h

theorem walkField_leaf_error (reg : Registry) (env : Env) (tag : String) (v : Value)
    (hv : v.isLeaf = true) (p : Panic) (h : walkField reg env (.mk tag true v) = .error p) :
    parseEnvTag reg tag envSep = .error p := by
  rw [walkField_leaf reg env tag v hv] at h
  cases hp : parseEnvTag reg tag envSep with
  | error q =>
    rw [hp] at h
    simpa using h
  | ok r =>
    obtain ⟨envName, validators⟩ := r
    rw [hp] at h
    by_cases hn : envName = "" <;> simp [hn] at h

mutual
theorem walkField_error (reg : Registry) (env : Env) (p : Panic) :
    ∀ (f : Field), walkField reg env f = .error p →
      ∃ path tag v, fieldAt [f] path = some (.mk tag true v) ∧ v.isLeaf = true ∧
        parseEnvTag reg tag envSep = .error p
  | .mk tag false v, h => by
    rw [walkField_unsettable reg env (.mk tag false v) rfl] at h
    exact Except.noConfusion h
  | .mk tag true (.struct sub), h => by
    rw [walkField] at h
    cases hs : walkFields reg env sub with
    | error q =>
      rw [hs] at h
      simp only [Except.error.injEq] at h
      subst h
      obtain ⟨path, tag', v, h1, h2, h3⟩ := walkFields_error reg env q sub hs
      exact ⟨0 :: path, tag', v, fieldAt_struct_zero tag sub h1, h2, h3⟩
    | ok r =>
      rw [hs] at h
      exact Except.noConfusion h
  | .mk tag true (.string s), h =>
    ⟨[0], tag, .string s, rfl, rfl, walkField_leaf_error reg env tag (.string s) rfl p h⟩
  | .mk tag true (.int s), h =>
    ⟨[0], tag, .int s, rfl, rfl, walkField_leaf_error reg env tag (.int s) rfl p h⟩
  | .mk tag true (.bool s), h =>
    ⟨[0], tag, .bool s, rfl, rfl, walkField_leaf_error reg env tag (.bool s) rfl p h⟩
  | .mk tag true (.other k c), h =>
    ⟨[0], tag, .other k c, rfl, rfl, walkField_leaf_error reg env tag (.other k c) rfl p h⟩
/-- The walk of a structure panics only when the annotation of one of the
leaves it visits makes `parseEnvTag` panic. -/
theorem walkFields_error (reg : Registry) (env : Env) (p : Panic) :
    ∀ (fields : List Field), walkFields reg env fields = .error p →
      ∃ path tag v, fieldAt fields path = some (.mk tag true v) ∧ v.isLeaf = true ∧
        parseEnvTag reg tag envSep = .error p
  | [], h => by
    rw [walkFields] at h
    exact Except.noConfusion h
  | f :: rest, h => by
    rw [walkFields] at h
    cases hf : walkField reg env f with
    | error q =>
      rw [hf] at h
      simp only [Except.error.injEq] at h
      subst h
      obtain ⟨path, tag, v, h1, h2, h3⟩ := walkField_error reg env q f hf
      exact ⟨path, tag, v, fieldAt_singleton rest h1, h2, h3⟩
    | ok r =>
      obtain ⟨f', own⟩ := r
      rw [hf] at h
      cases hr : walkFields reg env rest with
      | error q =>
        rw [hr] at h
        simp only [Except.error.injEq] at h
        subst h
        obtain ⟨path, tag, v, h1, h2, h3⟩ := walkFields_error reg env q rest hr
        match path, h1 with
        | [], h1 => simp [fieldAt] at h1
        | i :: rp, h1 =>
          exact ⟨(i + 1) :: rp, tag, v, by rw [fieldAt_cons_succ]; exact h1, h2, h3⟩
      | ok r2 =>
        rw [hr] at h
        exact Except.noConfusion h
end

/-- `Lookup` panics only with the nil-function panic, and only when the
annotation of one of the leaves it visits makes `parseEnvTag` panic. -/
theorem Lookup_error_leaf (reg : Registry) (env : Env) (fields : List Field) (p : Panic)
    (h : Lookup reg env (.struct fields) = .error p) :
    p = .nilFunc ∧ ∃ path tag v, fieldAt fields path = some (.mk tag true v) ∧
      v.isLeaf = true ∧ parseEnvTag reg tag envSep = .error .nilFunc := by
  have hs := lookupFields_spec id reg env fields none [] rfl
  cases hw : walkFields reg env fields with
  | error q =>
    rw [hw] at hs
    have hq : q = p := by
      simp only [Lookup, lookupValue, hs, Except.error.injEq] at h
      exact h
    subst hq
    obtain ⟨path, tag, v, h1, h2, h3⟩ := walkFields_error reg env q fields hw
    have hn := parseEnvTag_error reg tag q h3
    subst hn
    exact ⟨rfl, path, tag, v, h1, h2, h3⟩
  | ok r =>
    obtain ⟨fields', failures⟩ := r
    rw [hw] at hs
    obtain ⟨err, h1, _⟩ := hs
    simp [Lookup, lookupValue, h1] at h

/-- C3: for a settable leaf annotated `envName ++ ",required"` (the name part
not empty and, as the grammar has it, without separator; `required` the
built-in validator) whose variable is unset: the iteration of the field loop
leaves the field as it was and joins the single error
`envName ++ " is required"` to the accumulated one; `Lookup` on that field
alone returns that error; and on any structure that holds the field, `Lookup`
either panics, which it does only when the annotation of some visited leaf
makes `parseEnvTag` panic, or returns an error whose text is made of the
failures of the fields before, that line once, and the failures of the fields
after, with the field keeping its value. -/
theorem C3_required_unset (quote : String → String) (reg : Registry) (env : Env)
    (fields : List Field) (path : List Nat) (envName : String) (v : Value)
    (hreg : reg requiredFlag = some (some newRequiredValidator))
    (hne : envName ≠ "") (hsep : ',' ∉ envName.data) (hleaf : v.isLeaf = true)
    (hf : fieldAt fields path = some (.mk (envName ++ ",required") true v))
    (hunset : env envName = "") :
    walkField reg env (.mk (envName ++ ",required") true v)
      = .ok (.mk (envName ++ ",required") true v,
          [.errorString (envName ++ " is required")]) ∧
    (∀ errs : Option GoError,
      lookupField reg env (.mk (envName ++ ",required") true v) errs
        = .ok (.mk (envName ++ ",required") true v,
            errorsJoin [errs, some (.errorString (envName ++ " is required"))])) ∧
    (∃ e, Lookup reg env (.struct [.mk (envName ++ ",required") true v])
        = .ok (.struct [.mk (envName ++ ",required") true v], some e) ∧
      e.Error quote = envName ++ " is required") ∧
    (match Lookup reg env (.struct fields) with
      | .error p => p = .nilFunc ∧
        ∃ path' tag' w, fieldAt fields path' = some (.mk tag' true w) ∧ w.isLeaf = true ∧
          parseEnvTag reg tag' envSep = .error .nilFunc
      | .ok (v', err) =>
        ∃ fields' e, v' = .struct fields' ∧ err = some e ∧
          e.Error quote = "\n".intercalate
            ((failuresBefore reg env fields path).map (fun x => x.Error quote)
              ++ [envName ++ " is required"]
              ++ (failuresAfter reg env fields path).map (fun x => x.Error quote)) ∧
          fieldAt fields' path = some (.mk (envName ++ ",required") true v)) ∧
    ((∀ path' tag' w, fieldAt fields path' = some (.mk tag' true w) → w.isLeaf = true →
        parseEnvTag reg tag' envSep ≠ .error .nilFunc) →
      ∃ fields' e, Lookup reg env (.struct fields) = .ok (.struct fields', some e) ∧
        e.Error quote = "\n".intercalate
          ((failuresBefore reg env fields path).map (fun x => x.Error quote)
            ++ [envName ++ " is required"]
            ++ (failuresAfter reg env fields path).map (fun x => x.Error quote)) ∧
        fieldAt fields' path = some (.mk (envName ++ ",required") true v)) := by
  have hp := parseEnvTag_required reg envName hreg hsep
  have hv : Validator.requiredValidator.Validate envName (env envName)
      = some (.errorString (envName ++ " is required")) := by
    simp [Validator.Validate, hunset]
  have hs : setFieldValue v envName (env envName) = (v, none) := by
    simp [setFieldValue, hunset]
  have hw : walkField reg env (.mk (envName ++ ",required") true v)
      = .ok (.mk (envName ++ ",required") true v,
          [.errorString (envName ++ " is required")]) := by
    rw [walkField_leaf reg env _ v hleaf, hp]
    simp [hne, hs, hv]
  have hl : ∀ errs : Option GoError,
      lookupField reg env (.mk (envName ++ ",required") true v) errs
        = .ok (.mk (envName ++ ",required") true v,
            errorsJoin [errs, some (.errorString (envName ++ " is required"))]) := by
    intro errs
    rw [lookupField_one_validator reg env _ envName .requiredValidator v errs hleaf hp hne,
      hs, hv]
    rfl
  have hok : ∀ v' err, Lookup reg env (.struct fields) = .ok (v', err) →
      ∃ fields' e, v' = .struct fields' ∧ err = some e ∧
        e.Error quote = "\n".intercalate
          ((failuresBefore reg env fields path).map (fun x => x.Error quote)
            ++ [envName ++ " is required"]
            ++ (failuresAfter reg env fields path).map (fun x => x.Error quote)) ∧
        fieldAt fields' path = some (.mk (envName ++ ",required") true v) := by
    intro v' err hlk
    obtain ⟨fields', f', own, h1, h2, h3, h4⟩ := Lookup_fieldAt quote reg env hlk hf
    rw [hw] at h2
    simp only [Except.ok.injEq, Prod.mk.injEq] at h2
    obtain ⟨e1, e2⟩ := h2
    subst e1 e2
    obtain ⟨h5, h6⟩ := errRepr_text h4
    cases err with
    | none => simp at h5
    | some e =>
      refine ⟨fields', e, h1, rfl, ?_, h3⟩
      have := h6 e rfl
      simpa [GoError.Error] using this
  refine ⟨hw, hl, ?_, ?_, ?_⟩
  · refine ⟨.joinError [.errorString (envName ++ " is required")], ?_, ?_⟩
    · simp only [Lookup, lookupValue, lookupFields, hl]
      simp [errorsJoin]
    · simp [GoError.Error, joinErrorText]
  · cases hlk : Lookup reg env (.struct fields) with
    | error p => exact Lookup_error_leaf reg env fields p hlk
    | ok r =>
      obtain ⟨v', err⟩ := r
      exact hok v' err hlk
  · intro hpar
    cases hlk : Lookup reg env (.struct fields) with
    | error p =>
      obtain ⟨_, path', tag', w, k1, k2, k3⟩ := Lookup_error_leaf reg env fields p hlk
      exact absurd k3 (hpar path' tag' w k1 k2)
    | ok r =>
      obtain ⟨v', err⟩ := r
      obtain ⟨fields', e, h1, h2, h3, h4⟩ := hok v' err hlk
      subst h1 h2
      exact ⟨fields', e, rfl, h3, h4⟩

theorem C3_required_unset_witness :
    (∃ e, Lookup validatorRegistry (fun _ => "")
        (.struct [.mk ("HOST" ++ ",required") true (.string "")])
        = .ok (.struct [.mk ("HOST" ++ ",required") true (.string "")], some e) ∧
      e.Error id = "HOST" ++ " is required") ∧
    (∃ fields' e, Value.struct webConfig = .struct fields' ∧
      some (GoError.joinError [.joinError [.errorString "HOST is required"],
        .errorString "PORT is required"]) = some e ∧
      e.Error id = "\n".intercalate
        ((failuresBefore validatorRegistry (fun _ => "") webConfig [0]).map (fun x => x.Error id)
          ++ ["HOST" ++ " is required"]
          ++ (failuresAfter validatorRegistry (fun _ => "") webConfig [0]).map
            (fun x => x.Error id)) ∧
      fieldAt fields' [0] = some (.mk ("HOST" ++ ",required") true (.string ""))) :=
  ⟨(C3_required_unset id validatorRegistry (fun _ => "") webConfig [0] "HOST" (.string "")
      rfl (by decide) (by decide) rfl rfl rfl).2.2.1,
   (C3_required_unset id validatorRegistry (fun _ => "") webConfig [0] "HOST" (.string "")
      rfl (by decide) (by decide) rfl rfl rfl).2.2.2.1⟩

theorem parseOptions_acc (reg : Registry) :
    ∀ (clauses : List String) (acc : List Validator),
      parseOptions reg clauses acc =
        match parseOptions reg clauses [] with
        | .error p => .error p
        | .ok validators => .ok (acc ++ validators)
  | [], acc => by simp [parseOptions]
  | c :: cs, acc => by
    rw [parseOptions_cons, parseOptions_cons reg c cs []]
    cases hc : clauseValidator reg c with
    | error p => rfl
    | ok o =>
      simp only [List.nil_append]
      rw [parseOptions_acc reg cs (acc ++ o.toList), parseOptions_acc reg cs o.toList]
      cases hp : parseOptions reg cs [] with
      | error p => rfl
      | ok vs => simp

theorem parseOptions_append (reg : Registry) (post : List String) :
    ∀ (pre : List String) (acc : List Validator),
      parseOptions reg (pre ++ post) acc =
        match parseOptions reg pre acc with
        | .error p => .error p
        | .ok validators => parseOptions reg post validators
  | [], acc => by simp [parseOptions]
  | c :: cs, acc => by
    rw [List.cons_append, parseOptions_cons, parseOptions_cons]
    cases hc : clauseValidator reg c with
    | error p => rfl
    | ok o => exact parseOptions_append reg post cs _

/-- The clause loop around a clause that contributes a validator: the
validators of the clauses before, that validator, the validators of the
clauses after. -/
theorem parseOptions_middle (reg : Registry) (clause : String) (x : Validator)
    (pre post : List String) (h : clauseValidator reg clause = .ok (some x)) :
    parseOptions reg (pre ++ clause :: post) [] =
      match parseOptions reg pre [] with
      | .error p => .error p
      | .ok before =>
        match parseOptions reg post [] with
        | .error p => .error p
        | .ok after => .ok (before ++ x :: after) := by
  rw [parseOptions_append]
  cases hp : parseOptions reg pre [] with
  | error p => rfl
  | ok before =>
    simp only []
    rw [parseOptions_cons, h]
    simp only [Option.toList]
    rw [parseOptions_acc]
    cases hq : parseOptions reg post [] with
    | error p => rfl
    | ok after => simp

/-- C14 (amended): in an annotation with any clauses before and after, a
clause written `name=args`, with the name a non-empty word registered with a
factory that is not nil and the args a text without separator, yields the
validator that the factory builds from the longest prefix of the args made of
characters of the class `[-\w\s]`, from exactly the args text when the text has
no other character; the validators of the annotation are those of the clauses
before, that validator, and those of the clauses after, in that order; and in
general the validators are the contributions of the clauses in the order of
the clauses. -/
theorem C14_clause_arguments (reg : Registry) (envName name args : String)
    (f : String → Validator) (pre post : List String)
    (hsep : ',' ∉ envName.data) (hcl : ∀ c ∈ pre ++ post, ',' ∉ c.data)
    (hne : name ≠ "") (hw : ∀ c ∈ name.data, isWordChar c = true)
    (hreg : reg name = some (some f)) (hargs : ',' ∉ args.data) :
    clauseValidator reg (name ++ "=" ++ args)
      = .ok (some (f ⟨args.data.takeWhile isArgsChar⟩)) ∧
    parseEnvTag reg (tagOf envName (pre ++ (name ++ "=" ++ args) :: post)) envSep =
      (match parseOptions reg pre [] with
        | .error p => .error p
        | .ok before =>
          match parseOptions reg post [] with
          | .error p => .error p
          | .ok after =>
            .ok (envName, before ++ f ⟨args.data.takeWhile isArgsChar⟩ :: after)) ∧
    ((∀ c ∈ args.data, isArgsChar c = true) →
      clauseValidator reg (name ++ "=" ++ args) = .ok (some (f args)) ∧
      parseEnvTag reg (tagOf envName (pre ++ (name ++ "=" ++ args) :: post)) envSep =
        (match parseOptions reg pre [] with
          | .error p => .error p
          | .ok before =>
            match parseOptions reg post [] with
            | .error p => .error p
            | .ok after => .ok (envName, before ++ f args :: after))) ∧
    (∀ (clauses : List String) (g : String → Option Validator), clauses ≠ [] →
      (∀ c ∈ clauses, ',' ∉ c.data) → (∀ c ∈ clauses, clauseValidator reg c = .ok (g c)) →
      parseEnvTag reg (tagOf envName clauses) envSep = .ok (envName, clauses.filterMap g)) := by
  have hcv : clauseValidator reg (name ++ "=" ++ args)
      = .ok (some (f ⟨args.data.takeWhile isArgsChar⟩)) := by
    rw [clauseValidator, FindStringSubmatch_name_args name args hne hw]
    simp only [hreg, ValidatorFactory.call]
  have hclause : ',' ∉ (name ++ "=" ++ args).data := by
    intro hm
    simp only [String.data_append, List.mem_append] at hm
    rcases hm with (hm | hm) | hm
    · exact absurd (hw ',' hm) (by decide)
    · exact absurd hm (by decide)
    · exact hargs hm
  have hall : ∀ c ∈ pre ++ (name ++ "=" ++ args) :: post, ',' ∉ c.data := by
    intro c hc
    rcases List.mem_append.1 hc with h | h
    · exact hcl c (List.mem_append.2 (Or.inl h))
    · rcases List.mem_cons.1 h with h | h
      · rw [h]
        exact hclause
      · exact hcl c (List.mem_append.2 (Or.inr h))
  have hmain : parseEnvTag reg (tagOf envName (pre ++ (name ++ "=" ++ args) :: post)) envSep =
      (match parseOptions reg pre [] with
        | .error p => .error p
        | .ok before =>
          match parseOptions reg post [] with
          | .error p => .error p
          | .ok after =>
            .ok (envName, before ++ f ⟨args.data.takeWhile isArgsChar⟩ :: after)) := by
    rw [parseEnvTag_tagOf reg envName _ hsep hall (by simp),
      parseOptions_middle reg _ _ pre post hcv]
    cases hp : parseOptions reg pre [] with
    | error p => rfl
    | ok before =>
      cases hq : parseOptions reg post [] with
      | error p => rfl
      | ok after => rfl
  refine ⟨hcv, hmain, ?_, ?_⟩
  · intro ha
    have e := takeWhile_isArgsChar args ha
    rw [e] at hcv hmain
    exact ⟨hcv, hmain⟩
  · intro clauses g hne' hc hg
    rw [parseEnvTag_tagOf reg envName clauses hsep hc hne', parseOptions_ok reg g clauses [] hg]
    simp

theorem C14_clause_arguments_witness :
    parseEnvTag validatorRegistry
        (tagOf "ENV" (["required"] ++ ("expectedValues" ++ "=" ++ "a b") :: ["required"])) envSep
      = .ok ("ENV", [.requiredValidator] ++ newExpectedValueValidator "a b"
          :: [.requiredValidator]) ∧
    tagOf "ENV" (["required"] ++ ("expectedValues" ++ "=" ++ "a b") :: ["required"])
      = "ENV,required,expectedValues=a b,required" ∧
    newExpectedValueValidator "a b" = .expectedValueValidator ["a", "b"] :=
  ⟨((C14_clause_arguments validatorRegistry "ENV" "expectedValues" "a b"
      newExpectedValueValidator ["required"] ["required"] (by decide) (by decide) (by decide)
      (by decide) rfl (by decide)).2.2.1 (by decide)).2,
   by decide, rfl⟩

/-- C20 (counterexample): the allow-list "a .b" has no empty entry when split
on single spaces, yet for the unset variable `Lookup` reports nothing: the
factory receives "a ", whose entries are "a" and the empty string.  And with
the allow-list "a b c" under an empty name, as in ",expectedValues=a b c", the
field is skipped and `Lookup` reports nothing either. -/
theorem C20_counterexample :
    spaceSeparated "a .b" = ["a", ".b"] ∧ "" ∉ spaceSeparated "a .b" ∧
    parseEnvTag validatorRegistry "ENV,expectedValues=a .b" envSep
      = .ok ("ENV", [.expectedValueValidator ["a", ""]]) ∧
    Lookup validatorRegistry (fun _ => "")
        (.struct [.mk "ENV,expectedValues=a .b" true (.string "")])
      = .ok (.struct [.mk "ENV,expectedValues=a .b" true (.string "")], none) ∧
    "" ∉ spaceSeparated "a b c" ∧
    parseEnvTag validatorRegistry ",expectedValues=a b c" envSep
      = .ok ("", [.expectedValueValidator ["a", "b", "c"]]) ∧
    Lookup validatorRegistry (fun _ => "")
        (.struct [.mk ",expectedValues=a b c" true (.string "")])
      = .ok (.struct [.mk ",expectedValues=a b c" true (.string "")], none) :=
  ⟨by decide, by decide, rfl, rfl, by decide, rfl, rfl⟩

/-- C20 (amended): for an allow-list made of characters of the class
`[-\w\s]` that has no empty entry when split on single spaces, and a settable
leaf annotated `envName,expectedValues=args` (the name part not empty and
without separator, `expectedValues` the built-in factory) whose variable is
unset: the validator refuses the empty value, the walk of the field gives the
single failure `envName ++ " is unexpected value: "`, `Lookup` on that field
alone returns it, and on any structure that holds the field `Lookup` either
panics, which it does only when the annotation of some visited leaf makes
`parseEnvTag` panic, or returns an error that has that line between the
failures of the fields before and after.  Conversely the bare clause builds the
validator of the empty arguments, whose allow-list is the single empty entry:
it accepts the empty value and nothing else. -/
theorem C20_expected_values_rejects_unset (quote : String → String) (reg : Registry) (env : Env)
    (envName args : String) (v : Value)
    (hreg : reg expectedValuesFlag = some (some newExpectedValueValidator))
    (hne : envName ≠ "") (hsep : ',' ∉ envName.data)
    (hargs : ∀ c ∈ args.data, isArgsChar c = true)
    (hentries : "" ∉ spaceSeparated args)
    (hleaf : v.isLeaf = true) (hunset : env envName = "") :
    parseEnvTag reg (envName ++ "," ++ "expectedValues" ++ "=" ++ args) envSep
      = .ok (envName, [newExpectedValueValidator args]) ∧
    (newExpectedValueValidator args).Validate envName ""
      = some (.errorString (envName ++ " is unexpected value: ")) ∧
    walkField reg env (.mk (envName ++ "," ++ "expectedValues" ++ "=" ++ args) true v)
      = .ok (.mk (envName ++ "," ++ "expectedValues" ++ "=" ++ args) true v,
          [.errorString (envName ++ " is unexpected value: ")]) ∧
    (∃ e, Lookup reg env
        (.struct [.mk (envName ++ "," ++ "expectedValues" ++ "=" ++ args) true v])
        = .ok (.struct [.mk (envName ++ "," ++ "expectedValues" ++ "=" ++ args) true v], some e) ∧
      e.Error quote = envName ++ " is unexpected value: ") ∧
    (∀ (fields : List Field) (path : List Nat),
      fieldAt fields path
        = some (.mk (envName ++ "," ++ "expectedValues" ++ "=" ++ args) true v) →
      match Lookup reg env (.struct fields) with
      | .error p => p = .nilFunc ∧
        ∃ path' tag' w, fieldAt fields path' = some (.mk tag' true w) ∧ w.isLeaf = true ∧
          parseEnvTag reg tag' envSep = .error .nilFunc
      | .ok (v', err) =>
        ∃ fields' e, v' = .struct fields' ∧ err = some e ∧
          e.Error quote = "\n".intercalate
            ((failuresBefore reg env fields path).map (fun x => x.Error quote)
              ++ [envName ++ " is unexpected value: "]
              ++ (failuresAfter reg env fields path).map (fun x => x.Error quote)) ∧
          fieldAt fields' path
            = some (.mk (envName ++ "," ++ "expectedValues" ++ "=" ++ args) true v)) ∧
    parseEnvTag reg (envName ++ "," ++ "expectedValues") envSep
      = .ok (envName, [newExpectedValueValidator ""]) ∧
    newExpectedValueValidator "" = .expectedValueValidator [""] ∧
    (∀ value : String, (newExpectedValueValidator "").Validate envName value = none ↔
      value = "") := by
  have hreg' : reg "expectedValues" = some (some newExpectedValueValidator) := hreg
  have hw : ∀ c ∈ ("expectedValues" : String).data, isWordChar c = true := by decide
  have hp : parseEnvTag reg (envName ++ "," ++ "expectedValues" ++ "=" ++ args) envSep
      = .ok (envName, [newExpectedValueValidator args]) := by
    have := parseEnvTag_tagOf reg envName ["expectedValues" ++ "=" ++ args] hsep
      (by
        intro c hc
        rw [List.mem_singleton.1 hc]
        exact sep_not_mem_clause "expectedValues" args hw hargs) (by simp)
    rw [show tagOf envName ["expectedValues" ++ "=" ++ args]
      = envName ++ "," ++ "expectedValues" ++ "=" ++ args from by
        simp only [tagOf, String.append_assoc]] at this
    rw [this, parseOptions_cons, clauseValidator,
      FindStringSubmatch_name_args "expectedValues" args (by decide) hw,
      takeWhile_isArgsChar args hargs]
    simp [hreg', ValidatorFactory.call, parseOptions]
  have hb : parseEnvTag reg (envName ++ "," ++ "expectedValues") envSep
      = .ok (envName, [newExpectedValueValidator ""]) := by
    have := parseEnvTag_tagOf reg envName ["expectedValues"] hsep
      (by
        intro c hc
        rw [List.mem_singleton.1 hc]
        decide) (by simp)
    rw [show tagOf envName ["expectedValues"] = envName ++ "," ++ "expectedValues" from rfl]
      at this
    rw [this, parseOptions_cons, clauseValidator,
      FindStringSubmatch_bare "expectedValues" (by decide) hw]
    simp [hreg', ValidatorFactory.call, parseOptions]
  have hv : (newExpectedValueValidator args).Validate envName ""
      = some (.errorString (envName ++ " is unexpected value: ")) := by
    rw [newExpectedValueValidator, stringsSplit_space]
    simp only [Validator.Validate, if_neg hentries, String.append_empty]
  have hwalk : walkField reg env
      (.mk (envName ++ "," ++ "expectedValues" ++ "=" ++ args) true v)
      = .ok (.mk (envName ++ "," ++ "expectedValues" ++ "=" ++ args) true v,
          [.errorString (envName ++ " is unexpected value: ")]) := by
    rw [walkField_leaf reg env _ v hleaf, hp]
    simp [hne, hunset, hv, setFieldValue]
  refine ⟨hp, hv, hwalk, ?_, ?_, hb, rfl, ?_⟩
  · refine ⟨.joinError [.errorString (envName ++ " is unexpected value: ")], ?_, ?_⟩
    · simp only [Lookup, lookupValue, lookupFields,
        lookupField_one_validator reg env _ envName _ v none hleaf hp hne, hunset, hv]
      simp [setFieldValue, errorsJoin]
    · simp [GoError.Error, joinErrorText]
  · intro fields path hf
    cases hl : Lookup reg env (.struct fields) with
    | error p => exact Lookup_error_leaf reg env fields p hl
    | ok r =>
      obtain ⟨v', err⟩ := r
      obtain ⟨fields', f', own, h1, h2, h3, h4⟩ := Lookup_fieldAt quote reg env hl hf
      rw [hwalk] at h2
      simp only [Except.ok.injEq, Prod.mk.injEq] at h2
      obtain ⟨e1, e2⟩ := h2
      subst e1 e2
      obtain ⟨h5, h6⟩ := errRepr_text h4
      cases err with
      | none => simp at h5
      | some e =>
        refine ⟨fields', e, h1, rfl, ?_, h3⟩
        have := h6 e rfl
        simpa [GoError.Error] using this
  · intro value
    rw [show newExpectedValueValidator "" = .expectedValueValidator [""] from rfl]
    by_cases h : value = "" <;> simp [Validator.Validate, h]

theorem C20_expected_values_rejects_unset_witness :
    (∃ e, Lookup validatorRegistry (fun _ => "")
        (.struct [.mk ("ENV" ++ "," ++ "expectedValues" ++ "=" ++ "a b c") true (.string "")])
        = .ok (.struct [.mk ("ENV" ++ "," ++ "expectedValues" ++ "=" ++ "a b c") true
            (.string "")], some e) ∧
      e.Error id = "ENV" ++ " is unexpected value: ") ∧
    (∀ value : String, (newExpectedValueValidator "").Validate "ENV" value = none ↔
      value = "") :=
  ⟨(C20_expected_values_rejects_unset id validatorRegistry (fun _ => "") "ENV" "a b c"
      (.string "") rfl (by decide) (by decide) (by decide) (by decide) rfl rfl).2.2.2.1,
   (C20_expected_values_rejects_unset id validatorRegistry (fun _ => "") "ENV" "a b c"
      (.string "") rfl (by decide) (by decide) (by decide) (by decide) rfl rfl).2.2.2.2.2.2.2⟩

end Envconfig
